import Mathlib

/-!
# Verification of the value / code-unit duplication engine (`src/copy.c`)

A shallow embedding of `copy.c` of the `parallel` extension.

Conventions of the embedding

* The build that is modelled is the non-Windows build against PHP 7.4 or later
  (`ZEND_MAP_PTR_*`, `ZEND_ACC_IMMUTABLE`, `ZEND_ACC_HEAP_RT_CACHE` and
  `HASH_FLAG_UNINITIALIZED` are defined, `PHP_VERSION_ID >= 70400`).
* A C array together with its element count is a list: `arData` holds the
  buckets `0 .. nNumUsed-1`, `vars` the `last_var` variable names and
  `literals` the `last_literal` literals.
* Bit sets (`u.flags`, the flag half of `GC_TYPE_INFO`, `fn_flags`) are records
  of booleans, one field per flag the file reads or writes.
* Values are copied by value.  Pointer identity is kept where the file observes
  it: a `zend_function*` is a `FuncRef` (address and pointee), and the data
  address of a table records whether it is the shared empty sentinel.
* The code of the repository that `copy.c` calls but does not define
  (`php_parallel_copy_string`, `php_parallel_check_resource`,
  `php_parallel_cache_function`, `php_parallel_dependencies_store`,
  `php_parallel_dependencies_load`) and the engine services whose result
  depends on the running interpreter are fields of `Env`; every theorem
  quantifies over `Env`.
* The mutex of the process cache is not modelled: the embedding is sequential.
-/

namespace ParallelCopy

/-! ## Data model -/

/-- The engine's `zend_string`: reference count, the interned and persistent
flags, the cached hash and the bytes. -/
structure zend_string where
  refcount : Nat
  interned : Bool
  persistent : Bool
  h : Nat
  val : String
deriving DecidableEq, Repr

/-- The engine's `zend_class_entry`, reduced to the name used by `zend_lookup_class`. -/
structure zend_class_entry where
  name : zend_string
deriving DecidableEq, Repr

/-- The engine's `zend_resource`: handle, type id and the pointer to the
underlying stream (`none` is `NULL`). -/
structure zend_resource where
  handle : Nat
  type : Int
  ptr : Option Nat
deriving DecidableEq, Repr

/-- Flag half of `GC_TYPE_INFO` of a table header. -/
structure GCFlags where
  collectable : Bool
  immutable : Bool
  persistent : Bool
deriving DecidableEq, Repr

/-- The bits of `HashTable.u.flags` (PHP 7.4). -/
structure HashFlags where
  packed : Bool
  uninitialized : Bool
  static_keys : Bool
  has_empty_ind : Bool
  allow_cow_violation : Bool
deriving DecidableEq, Repr

/-- What `HT_GET_DATA_ADDR` points at: the file's shared two-entry array
`php_parallel_copy_uninitialized_bucket`, the engine's own empty array, or an
allocation in the permanent (`true`) or per-context (`false`) domain. -/
inductive DataAddr where
  | php_parallel_copy_uninitialized_bucket
  | engine_uninitialized_bucket
  | allocated (persistent : Bool)
deriving DecidableEq, Repr

/-- The value of `pDestructor`. -/
inductive Destructor where
  | null
  | PARALLEL_ZVAL_DTOR
  | ZVAL_PTR_DTOR
  | other (id : Nat)
deriving DecidableEq, Repr

/-- A slot of a table: value, integer key or hash `h`, text key (`none` is `NULL`). -/
structure Bucket (V : Type) where
  val : V
  h : Nat
  key : Option zend_string

/-- The engine's `HashTable`.  `arData` lists the buckets `0 .. nNumUsed-1`. -/
structure HashTable (V : Type) where
  gc_refcount : Nat
  gc_flags : GCFlags
  flags : HashFlags
  nTableMask : Nat
  data : DataAddr
  arData : List (Bucket V)
  nNumOfElements : Nat
  nTableSize : Nat
  nInternalPointer : Nat
  nNextFreeElement : Int
  pDestructor : Destructor

/-- The field `nNumUsed`: the number of buckets in use, deleted ones included. -/
def HashTable.nNumUsed {V : Type} (ht : HashTable V) : Nat := ht.arData.length

/-- The bits of `fn_flags` that the file touches. -/
structure FnFlags where
  closure : Bool
  immutable : Bool
  heap_rt_cache : Bool
deriving DecidableEq, Repr

/-- The value of `run_time_cache`: `NULL`, a slot handed out by
`ZEND_MAP_PTR_NEW` that holds no buffer yet, or a heap buffer. -/
inductive RunTimeCache where
  | null
  | map_ptr_new
  | heap (cells : List Nat)
deriving DecidableEq, Repr

/-- The `op_array` member of `zend_function`.  `opcodes` is the address of the
instruction array (the opcode identity); `refcount` is `none` for `NULL`. -/
structure zend_function (V : Type) where
  opcodes : Nat
  refcount : Option Nat
  fn_flags : FnFlags
  static_variables : Option (HashTable V)
  vars : List zend_string
  literals : List V
  cache_size : Nat
  run_time_cache : RunTimeCache

/-- The object header `std` of a closure. -/
structure zend_object_std where
  refcount : Nat
deriving DecidableEq, Repr

/-- The file's view `zend_closure_t` of a closure object. -/
structure zend_closure (V : Type) where
  std : zend_object_std
  func : zend_function V
  this_ptr : V
  called_scope : Option zend_class_entry

/-- An object: of class `zend_ce_closure` (laid out as `zend_closure_t`) or of
any other class. -/
inductive zend_object (V : Type) where
  | closure (c : zend_closure V)
  | other (ce : zend_class_entry)

/-- The engine's `zval`.  `refcounted` is the `IS_TYPE_REFCOUNTED` bit of the
type info; `extra` is `u2.extra`; `other` stands for the remaining type tags
(references, indirect slots, constant expressions, raw pointers). -/
inductive zval where
  | undef
  | null
  | bool (b : Bool)
  | long (n : Int)
  | double (bits : Nat)
  | string (s : zend_string) (refcounted : Bool)
  | array (ht : HashTable zval) (refcounted : Bool)
  | object (o : zend_object zval) (extra : Nat)
  | resource (r : zend_resource)
  | other (type : Nat) (refcounted : Bool)

/-- Test `Z_TYPE(v) == IS_UNDEF`. -/
def zval.is_undef : zval → Bool
  | .undef => true
  | _ => false

/-- Macro `Z_OPT_REFCOUNTED(v)`: the `IS_TYPE_REFCOUNTED` bit of the type info. -/
def Z_OPT_REFCOUNTED : zval → Bool
  | .string _ rc => rc
  | .array _ rc => rc
  | .object _ _ => true
  | .resource _ => true
  | .other _ rc => rc
  | _ => false

/-- Macro `ZVAL_STR`: an interned string is stored without the refcounted bit. -/
def ZVAL_STR (s : zend_string) : zval := .string s (!s.interned)

/-- Macro `ZVAL_ARR`: always `IS_ARRAY_EX`. -/
def ZVAL_ARR (ht : HashTable zval) : zval := .array ht true

/-- Constant `HT_MIN_MASK`, `(uint32_t) -2`. -/
def HT_MIN_MASK : Nat := 4294967294

/-- Constant `HT_INVALID_IDX`, `(uint32_t) -1`. -/
def HT_INVALID_IDX : Nat := 4294967295

/-- Constant `HASH_FLAG_UNINITIALIZED` as the whole value of `u.flags`. -/
def HASH_FLAG_UNINITIALIZED : HashFlags :=
  { packed := false, uninitialized := true, static_keys := false,
    has_empty_ind := false, allow_cow_violation := false }

/-- The cast `(zend_long) x` of a 64-bit unsigned value. -/
def to_zend_long (x : Nat) : Int :=
  if x % 2 ^ 64 < 2 ^ 63 then ((x % 2 ^ 64 : Nat) : Int) else ((x % 2 ^ 64 : Nat) : Int) - 2 ^ 64

/-- The cast `(zend_ulong) x` of a 64-bit signed value. -/
def to_zend_ulong (x : Int) : Nat := (x % 2 ^ 64).toNat

/-! ## Process and context state -/

/-- A `zend_function*`: the address of the object and the object stored there. -/
structure FuncRef where
  addr : Nat
  func : zend_function zval

/-- The tables of the file and of the engine it reads and writes:
`PCC(table)`, `PCG(uncopied)`, `PCG(used)`, `PCG(activated)`,
`EG(function_table)` with its `pDestructor`, and the next address handed out
for a function object. -/
structure Globals where
  cache : List (Nat × FuncRef)
  uncopied : List (Nat × FuncRef)
  used : List (Nat × zend_string)
  activated : List (Nat × Unit)
  function_table : List (String × Option FuncRef)
  function_table_pDestructor : Destructor
  brk : Nat

/-- What `php_parallel_copy_hash_dtor` hands back to an allocator or to the
value destructor, in the order of the calls. -/
inductive Release where
  | key (k : zend_string) (persistent : Bool)
  | zval_dtor (v : zval)
  | data (addr : DataAddr) (persistent : Bool)
  | header (persistent : Bool)

/-- A call that leaves this file, and the calls the teardown of the
per-context cache makes: a release of a container through
`php_parallel_copy_hash_dtor` (with what it released), a `pefree` of a function
object, and an invocation of the callable table's own destructor on an entry. -/
inductive Event where
  | zend_is_auto_global (name : zend_string)
  | php_parallel_dependencies_store (copy : FuncRef)
  | php_parallel_dependencies_load (function : zend_function zval)
  | php_parallel_cache_function (function : zend_function zval)
  | php_parallel_copy_hash_dtor (table : HashTable zval) (persistent : Bool)
      (released : List Release)
  | pefree_function (addr : Nat) (persistent : Bool)
  | pDestructor (dtor : Destructor) (entry : Option FuncRef)

/-- The state a call runs in: the tables and the calls made so far to
collaborators outside this file, oldest first. -/
structure World where
  g : Globals
  trace : List Event

/-- The ways a call can fail to return: the embedding ran out of fuel, or the
code dereferenced a null pointer. -/
inductive Fault where
  | out_of_fuel
  | null_deref
deriving DecidableEq, Repr

/-- Collaborators of `copy.c` that are not defined in it. -/
structure Env where
  /-- Result of `php_file_le_stream()`. -/
  php_file_le_stream : Int
  /-- Result of `php_file_le_pstream()`. -/
  php_file_le_pstream : Int
  /-- The check `php_parallel_check_resource` for a transferable handle. -/
  php_parallel_check_resource : zend_resource → Bool
  /-- Macro `php_stream_cast(stream, PHP_STREAM_AS_FD, &fd, 0)`: the descriptor on
  `SUCCESS`, `none` on failure. -/
  php_stream_cast : Nat → Option Int
  /-- The engine's `zend_is_true`. -/
  zend_is_true : zval → Bool
  /-- The string duplicator `php_parallel_copy_string(source, persistent)`. -/
  php_parallel_copy_string : zend_string → Bool → zend_string
  /-- The engine's `zend_lookup_class` in the running context. -/
  zend_lookup_class : zend_string → Option zend_class_entry
  /-- Function `php_parallel_cache_function`: the function it returns (`none` is `NULL`)
  and its effect on the tables. -/
  php_parallel_cache_function : zend_function zval → Globals → Option (zend_function zval) × Globals
  /-- Effect of `php_parallel_dependencies_store` on the tables. -/
  php_parallel_dependencies_store : FuncRef → Globals → Globals
  /-- Effect of `php_parallel_dependencies_load` on the tables. -/
  php_parallel_dependencies_load : zend_function zval → Globals → Globals

/-- Computations of the embedding: a state transformer that may fault. -/
def M (α : Type) : Type := World → Except Fault (α × World)

/-- Sequencing of two computations. -/
def M.bind {α β : Type} (x : M α) (f : α → M β) : M β := fun w =>
  match x w with
  | .error e => .error e
  | .ok (a, w1) => f a w1

/-- The computation that returns `a` and leaves the state alone. -/
def M.pure {α : Type} (a : α) : M α := fun w => .ok (a, w)

/-- The computation that faults. -/
def M.fail {α : Type} (e : Fault) : M α := fun _ => .error e

instance : Monad M where
  pure := M.pure
  bind := M.bind

/-! ## Engine hash-table services on the file's own tables -/

/-- Engine function `zend_hash_index_find_ptr` / `zend_hash_find_ptr`: the stored pointer, `none` when absent. -/
def zend_hash_find_ptr {K V : Type} [DecidableEq K] (t : List (K × V)) (k : K) : Option V :=
  match t with
  | [] => none
  | (k1, v) :: rest => if k1 = k then some v else zend_hash_find_ptr rest k

/-- Engine function `zend_hash_index_exists` / `zend_hash_exists`. -/
def zend_hash_exists {K V : Type} [DecidableEq K] (t : List (K × V)) (k : K) : Bool :=
  (zend_hash_find_ptr t k).isSome

/-- Engine function `zend_hash_index_update_ptr`: insert, or overwrite the entry of the key. -/
def zend_hash_update_ptr {K V : Type} [DecidableEq K] (t : List (K × V)) (k : K) (v : V) :
    List (K × V) :=
  match t with
  | [] => [(k, v)]
  | (k1, v1) :: rest =>
    if k1 = k then (k, v) :: rest else (k1, v1) :: zend_hash_update_ptr rest k v

/-- Engine function `zend_hash_index_add_ptr` / `zend_hash_add_ptr` /
`zend_hash_index_add_empty_element`: insert only when the key is absent; the
second component tells whether the entry was added (the C function returns
`NULL` when it was not). -/
def zend_hash_add_ptr {K V : Type} [DecidableEq K] (t : List (K × V)) (k : K) (v : V) :
    List (K × V) × Bool :=
  if zend_hash_exists t k then (t, false) else (t ++ [(k, v)], true)

/-! ## `copy.c` -/

/-- The engine's `zend_fetch_resource2_ex`: the pointer of a resource of one of
the two given types, `NULL` otherwise. -/
def zend_fetch_resource2_ex (res : zend_resource) (type1 type2 : Int) : Option Nat :=
  if res.type = type1 ∨ res.type = type2 then res.ptr else none

/-- Function `php_parallel_copy_resource` (lines 113-132): the descriptor of a stream
whose cast succeeds, `null` in every other case. -/
def php_parallel_copy_resource (E : Env) (resource : zend_resource) : zval :=
  if resource.type = E.php_file_le_stream ∨ resource.type = E.php_file_le_pstream then
    match zend_fetch_resource2_ex resource E.php_file_le_stream E.php_file_le_pstream with
    | some stream =>
      match E.php_stream_cast stream with
      | some fd => .long fd
      | none => .null
    | none => .null
  else .null

/-- Header of the permanent copy before the emptiness test (lines 135-148):
the byte copy of the source header with reference count 2, type info
`GC_ARRAY` with the persistent flag (`GC_SET_PERSISTENT_TYPE` writes the type
info word only) and the immutable flag, the file's destructor and
`HASH_FLAG_STATIC_KEYS` set. -/
def php_parallel_copy_hash_permanent_header (source : HashTable zval) : HashTable zval :=
  { source with
    gc_refcount := 2
    gc_flags := { collectable := true, immutable := true, persistent := true }
    pDestructor := .PARALLEL_ZVAL_DTOR
    flags := { source.flags with static_keys := true } }

/-- The loop of `php_parallel_copy_hash_permanent` (lines 164-180) over the
buckets from index `idx` on.  `ht` carries the header fields the loop updates
(`nInternalPointer`, `u.flags`, `nNextFreeElement`); `copy` is
`PARALLEL_ZVAL_COPY`. -/
def php_parallel_copy_hash_permanent_loop (E : Env) (copy : zval → Bool → M zval) :
    List (Bucket zval) → Nat → HashTable zval → M (List (Bucket zval) × HashTable zval)
  | [], _, ht => pure ([], ht)
  | p :: rest, idx, ht =>
    if p.val.is_undef then do
      let (rest1, ht1) ← php_parallel_copy_hash_permanent_loop E copy rest (idx + 1) ht
      pure (p :: rest1, ht1)
    else do
      let ht := if ht.nInternalPointer = HT_INVALID_IDX then { ht with nInternalPointer := idx } else ht
      let (key, ht) :=
        match p.key with
        | some k =>
          (some (E.php_parallel_copy_string k true),
            { ht with flags := { ht.flags with static_keys := false } })
        | none =>
          (none,
            if to_zend_long p.h ≥ ht.nNextFreeElement then
              { ht with nNextFreeElement := to_zend_long (p.h + 1) }
            else ht)
      let val ← copy p.val true
      let (rest1, ht1) ← php_parallel_copy_hash_permanent_loop E copy rest (idx + 1) ht
      pure ({ p with key := key, val := val } :: rest1, ht1)

/-- Function `php_parallel_copy_hash_permanent` (lines 134-183). -/
def php_parallel_copy_hash_permanent (E : Env) (copy : zval → Bool → M zval)
    (source : HashTable zval) : M (HashTable zval) :=
  let ht := php_parallel_copy_hash_permanent_header source
  if ht.nNumUsed = 0 then
    pure { ht with
      flags := HASH_FLAG_UNINITIALIZED
      nNextFreeElement := 0
      nTableMask := HT_MIN_MASK
      data := .php_parallel_copy_uninitialized_bucket }
  else do
    let ht := { ht with nNextFreeElement := 0, nInternalPointer := HT_INVALID_IDX,
                        data := .allocated true }
    let (buckets, ht1) ← php_parallel_copy_hash_permanent_loop E copy ht.arData 0 ht
    pure { ht1 with arData := buckets }

/-- Header of the request copy before the emptiness test (lines 186-197):
reference count 1, type info exactly `GC_ARRAY`, the engine's destructor. -/
def php_parallel_copy_hash_request_header (source : HashTable zval) : HashTable zval :=
  { source with
    gc_refcount := 1
    gc_flags := { collectable := true, immutable := false, persistent := false }
    pDestructor := .ZVAL_PTR_DTOR }

/-- The loop of the static-keys branch (lines 210-219): each bucket is copied
whole, and its value is duplicated when it is reference counted. -/
def php_parallel_copy_hash_request_static (copy : zval → Bool → M zval) :
    List (Bucket zval) → M (List (Bucket zval))
  | [] => pure []
  | q :: rest => do
    let p := q
    let p ← if Z_OPT_REFCOUNTED p.val then do
        let val ← copy p.val false
        pure { p with val := val }
      else pure p
    let rest1 ← php_parallel_copy_hash_request_static copy rest
    pure (p :: rest1)

/-- The loop of the other branch (lines 220-240).  The destination is fresh
`emalloc` memory: the `h` and `key` of a slot the loop marks undefined are never
written, and nothing in the file reads them; they are `0` and `NULL` here. -/
def php_parallel_copy_hash_request_keyed (E : Env) (copy : zval → Bool → M zval) :
    List (Bucket zval) → M (List (Bucket zval))
  | [] => pure []
  | q :: rest =>
    if q.val.is_undef then do
      let rest1 ← php_parallel_copy_hash_request_keyed E copy rest
      pure ({ val := .undef, h := 0, key := none } :: rest1)
    else do
      let key :=
        match q.key with
        | some k => some (E.php_parallel_copy_string k false)
        | none => none
      let val ← copy q.val false
      let rest1 ← php_parallel_copy_hash_request_keyed E copy rest
      pure ({ val := val, h := q.h, key := key } :: rest1)

/-- Function `php_parallel_copy_hash_request` (lines 185-243). -/
def php_parallel_copy_hash_request (E : Env) (copy : zval → Bool → M zval)
    (source : HashTable zval) : M (HashTable zval) :=
  let ht := php_parallel_copy_hash_request_header source
  if ht.nNumUsed = 0 then
    pure { ht with data := .php_parallel_copy_uninitialized_bucket }
  else
    let ht := { ht with data := .allocated false }
    if ht.flags.static_keys then do
      let buckets ← php_parallel_copy_hash_request_static copy source.arData
      pure { ht with arData := buckets }
    else do
      let buckets ← php_parallel_copy_hash_request_keyed E copy source.arData
      pure { ht with arData := buckets }

/-- Function `php_parallel_copy_hash_ctor` (lines 245-250), with `PARALLEL_ZVAL_COPY` as `copy`. -/
def php_parallel_copy_hash_ctor_with (E : Env) (copy : zval → Bool → M zval)
    (source : HashTable zval) (persistent : Bool) : M (HashTable zval) :=
  if persistent then php_parallel_copy_hash_permanent E copy source
  else php_parallel_copy_hash_request E copy source

/-! ### Release of a container -/

/-- Macro `GC_DELREF`: the decrement `--refcount` of a 32-bit unsigned reference
count, which wraps to `UINT32_MAX` at 0. -/
def GC_DELREF (refcount : Nat) : Nat := if refcount = 0 then 4294967295 else refcount - 1

/-- The loop of `php_parallel_copy_hash_dtor` (lines 257-271): the buckets with
their keys' counts decremented, and the releases made. -/
def php_parallel_copy_hash_dtor_loop (persistent : Bool) :
    List (Bucket zval) → List (Bucket zval) × List Release
  | [] => ([], [])
  | p :: rest =>
    let (rest1, out) := php_parallel_copy_hash_dtor_loop persistent rest
    if p.val.is_undef then (p :: rest1, out)
    else
      let (key, out1) :=
        match p.key with
        | some k =>
          let k1 := { k with refcount := GC_DELREF k.refcount }
          (some k1, if k1.refcount = 0 then [Release.key k1 persistent] else [])
        | none => (none, [])
      let out2 := if Z_OPT_REFCOUNTED p.val then [Release.zval_dtor p.val] else []
      ({ p with key := key } :: rest1, out1 ++ out2 ++ out)

/-- Function `php_parallel_copy_hash_dtor` (lines 252-279): the table after the call and
the releases made (none when the count did not reach the terminal value). -/
def php_parallel_copy_hash_dtor (table : HashTable zval) (persistent : Bool) :
    HashTable zval × List Release :=
  let table := { table with gc_refcount := GC_DELREF table.gc_refcount }
  if table.gc_refcount = (if persistent then 1 else 0) then
    let (buckets, out) := php_parallel_copy_hash_dtor_loop persistent table.arData
    let out1 :=
      if table.data ≠ .php_parallel_copy_uninitialized_bucket then
        [Release.data table.data persistent]
      else []
    ({ table with arData := buckets }, out ++ out1 ++ [Release.header persistent])
  else (table, [])

/-! ### Auto-global activation -/

/-- The engine's `zend_is_auto_global(name)`, seen from this file: a call to
the collaborator that declares auto-globals. -/
def zend_is_auto_global (name : zend_string) (w : World) : World :=
  { w with trace := w.trace ++ [Event.zend_is_auto_global name] }

/-- Function `php_parallel_copy_auto_globals_activate_variables` (lines 408-417). -/
def php_parallel_copy_auto_globals_activate_variables : List zend_string → World → World
  | [], w => w
  | v :: rest, w =>
    php_parallel_copy_auto_globals_activate_variables rest (zend_is_auto_global v w)

/-- Function `php_parallel_copy_auto_globals_activate_literals` (lines 420-431). -/
def php_parallel_copy_auto_globals_activate_literals : List zval → World → World
  | [], w => w
  | l :: rest, w =>
    match l with
    | .string s _ =>
      php_parallel_copy_auto_globals_activate_literals rest (zend_is_auto_global s w)
    | _ => php_parallel_copy_auto_globals_activate_literals rest w

/-- Function `php_parallel_copy_auto_globals_activate` (lines 434-443). -/
def php_parallel_copy_auto_globals_activate (function : zend_function zval) (w : World) : World :=
  if zend_hash_exists w.g.activated function.opcodes then w
  else
    let w := php_parallel_copy_auto_globals_activate_variables function.vars w
    let w := php_parallel_copy_auto_globals_activate_literals function.literals w
    { w with g := { w.g with
        activated := (zend_hash_add_ptr w.g.activated function.opcodes ()).1 } }

/-! ### Code units -/

/-- A call to a collaborator that acts on the tables: the call is recorded and
its effect applied. -/
def World.call (w : World) (ev : Event) (effect : Globals → Globals) : World :=
  { g := effect w.g, trace := w.trace ++ [ev] }

/-- Modelled from the spec: `php_parallel_copy_mem` is not defined in `copy.c`;
it is the raw allocator shim of section 2, which duplicates bytes in the chosen
domain.  The bytes are the value copied; for a function object, whose address
the file stores and uses as a key, the shim hands out a fresh address. -/
def php_parallel_copy_mem_function (w : World) : Nat × World :=
  (w.g.brk, { w with g := { w.g with brk := w.g.brk + 1 } })

/-- Function `php_parallel_copy_function_permanent` (lines 445-477), with
`PARALLEL_ZVAL_COPY` as `copy`. -/
def php_parallel_copy_function_permanent (E : Env) (copy : zval → Bool → M zval)
    (function : zend_function zval) : M FuncRef := fun w =>
  match zend_hash_find_ptr w.g.cache function.opcodes with
  | some cached => .ok (cached, w)
  | none =>
    let (addr, w) := php_parallel_copy_mem_function w
    let fn : zend_function zval :=
      { function with
        refcount := none
        fn_flags := { function.fn_flags with closure := false, immutable := true } }
    let statics : Except Fault (Option (HashTable zval) × World) :=
      match fn.static_variables with
      | some sv =>
        match php_parallel_copy_hash_ctor_with E copy sv true w with
        | .error e => .error e
        | .ok (sv1, w1) => .ok (some sv1, w1)
      | none => .ok (none, w)
    match statics with
    | .error e => .error e
    | .ok (sv, w) =>
      let ref : FuncRef := { addr := addr, func := { fn with static_variables := sv } }
      let w := w.call (Event.php_parallel_dependencies_store ref)
        (E.php_parallel_dependencies_store ref)
      let w := { w with g := { w.g with
        cache := zend_hash_update_ptr w.g.cache function.opcodes ref } }
      .ok (ref, w)

/-- Function `php_parallel_copy_function_request` (lines 479-512), with
`PARALLEL_ZVAL_COPY` as `copy`.  The result is `none` when
`zend_hash_index_add_ptr` returns `NULL`. -/
def php_parallel_copy_function_request (E : Env) (copy : zval → Bool → M zval)
    (function : zend_function zval) : M (Option FuncRef) := fun w =>
  match zend_hash_find_ptr w.g.uncopied function.opcodes with
  | some found => .ok (some found, w)
  | none =>
    let w := w.call (Event.php_parallel_dependencies_load function)
      (E.php_parallel_dependencies_load function)
    let w := php_parallel_copy_auto_globals_activate function w
    match zend_hash_find_ptr w.g.cache function.opcodes with
    | none => .error Fault.null_deref
    | some cached =>
      let (addr, w) := php_parallel_copy_mem_function w
      let fn : zend_function zval := cached.func
      let statics : Except Fault (Option (HashTable zval) × World) :=
        match fn.static_variables with
        | some sv =>
          match php_parallel_copy_hash_ctor_with E copy sv false w with
          | .error e => .error e
          | .ok (sv1, w1) => .ok (some sv1, w1)
        | none => .ok (none, w)
      match statics with
      | .error e => .error e
      | .ok (sv, w) =>
        let ref : FuncRef :=
          { addr := addr
            func := { fn with static_variables := sv, run_time_cache := .map_ptr_new } }
        let (uncopied, added) := zend_hash_add_ptr w.g.uncopied function.opcodes ref
        .ok (if added then some ref else none, { w with g := { w.g with uncopied := uncopied } })

/-- Function `php_parallel_copy_function` (lines 514-519), with `PARALLEL_ZVAL_COPY` as `copy`. -/
def php_parallel_copy_function_with (E : Env) (copy : zval → Bool → M zval)
    (function : zend_function zval) (persistent : Bool) : M (Option FuncRef) :=
  if persistent then fun w =>
    match php_parallel_copy_function_permanent E copy function w with
    | .error e => .error e
    | .ok (r, w1) => .ok (some r, w1)
  else php_parallel_copy_function_request E copy function

/-! ### Closures and values -/

/-- The engine's `zend_object_std_init`: a fresh object header. -/
def zend_object_std_init (_std : zend_object_std) : zend_object_std := { refcount := 1 }

/-- Function `php_parallel_copy_closure_init_run_time_cache` (lines 281-305): the heap
flag and a zeroed buffer of `cache_size` bytes. -/
def php_parallel_copy_closure_init_run_time_cache (closure : zend_closure zval) :
    zend_closure zval :=
  { closure with func := { closure.func with
      fn_flags := { closure.func.fn_flags with heap_rt_cache := true }
      run_time_cache := .heap (List.replicate closure.func.cache_size 0) } }

/-- Function `php_parallel_copy_closure` (lines 307-365), with `PARALLEL_ZVAL_COPY` as
`copy`.  Reading through the `NULL` a function duplication returned is a fault. -/
def php_parallel_copy_closure (E : Env) (copy : zval → Bool → M zval)
    (closure : zend_closure zval) (persistent : Bool) : M zval := fun w =>
  let cp : zend_closure zval := closure
  if persistent then
    let picked : Option (zend_function zval) × World :=
      match cp.func.refcount with
      | some _ =>
        let r := E.php_parallel_cache_function cp.func w.g
        (r.1, { g := r.2, trace := w.trace ++ [Event.php_parallel_cache_function cp.func] })
      | none => (some cp.func, w)
    match picked with
    | (none, _) => .error Fault.null_deref
    | (some function, w) =>
      match php_parallel_copy_function_with E copy function true w with
      | .error e => .error e
      | .ok (none, _) => .error Fault.null_deref
      | .ok (some r, w) =>
        let cp := { cp with func := r.func }
        let cp := { cp with func := { cp.func with
          fn_flags := { cp.func.fn_flags with closure := true } } }
        .ok (.object (.closure cp) 1, w)
  else
    let cp := { cp with std := zend_object_std_init cp.std }
    match php_parallel_copy_function_with E copy cp.func false w with
    | .error e => .error e
    | .ok (none, _) => .error Fault.null_deref
    | .ok (some r, w) =>
      let cp := { cp with func := r.func }
      let statics : Except Fault (Option (HashTable zval) × World) :=
        match cp.func.static_variables with
        | some sv =>
          match php_parallel_copy_hash_ctor_with E copy sv false w with
          | .error e => .error e
          | .ok (sv1, w1) => .ok (some sv1, w1)
        | none => .ok (none, w)
      match statics with
      | .error e => .error e
      | .ok (sv, w) =>
        let cp := { cp with func := { cp.func with static_variables := sv } }
        let cp := php_parallel_copy_closure_init_run_time_cache cp
        let cp := { cp with called_scope :=
          match cp.called_scope with
          | some scope => E.zend_lookup_class scope.name
          | none => none }
        let cp := { cp with this_ptr := zval.undef }
        .ok (.object (.closure cp) 0, w)

/-- The body of `php_parallel_copy_zval_ctor` (lines 367-405), with the
recursive use `PARALLEL_ZVAL_COPY` as `copy`. -/
def php_parallel_copy_zval_ctor_with (E : Env) (copy : zval → Bool → M zval)
    (source : zval) (persistent : Bool) : M zval :=
  match source with
  | .null => pure source
  | .bool _ => pure source
  | .long _ => pure source
  | .double _ => pure source
  | .undef => pure source
  | .string s _ => pure (ZVAL_STR (E.php_parallel_copy_string s persistent))
  | .array ht _ => do
    let r ← php_parallel_copy_hash_ctor_with E copy ht persistent
    pure (ZVAL_ARR r)
  | .object (.closure c) _ => php_parallel_copy_closure E copy c persistent
  | .object (.other _) _ => pure (.bool true)
  | .resource r =>
    if E.php_parallel_check_resource r then pure (php_parallel_copy_resource E r)
    else pure (.bool (E.zend_is_true source))
  | .other _ _ => pure (.bool (E.zend_is_true source))

/-- Function `php_parallel_copy_zval_ctor`.  The macro `PARALLEL_ZVAL_COPY`, which
`copy.c` uses and does not define, is this function (section 2: the container
duplicator recurses back into the value duplicator for each element).  The
recursion is bounded by `fuel`, the number of nested value duplications allowed. -/
def php_parallel_copy_zval_ctor (E : Env) : Nat → zval → Bool → M zval
  | 0 => fun _ _ => M.fail Fault.out_of_fuel
  | fuel + 1 => php_parallel_copy_zval_ctor_with E (php_parallel_copy_zval_ctor E fuel)

/-- Function `php_parallel_copy_hash_ctor`, contained values duplicated with `fuel`. -/
def php_parallel_copy_hash_ctor (E : Env) (fuel : Nat) (source : HashTable zval)
    (persistent : Bool) : M (HashTable zval) :=
  php_parallel_copy_hash_ctor_with E (php_parallel_copy_zval_ctor E fuel) source persistent

/-- Function `php_parallel_copy_function`, contained values duplicated with `fuel`. -/
def php_parallel_copy_function (E : Env) (fuel : Nat) (function : zend_function zval)
    (persistent : Bool) : M (Option FuncRef) :=
  php_parallel_copy_function_with E (php_parallel_copy_zval_ctor E fuel) function persistent

/-- The address a `zend_function*` casts to; `NULL` is 0. -/
def FuncRef.to_ulong : Option FuncRef → Nat
  | some r => r.addr
  | none => 0

/-- Function `php_parallel_copy_function_use` (lines 521-527). -/
def php_parallel_copy_function_use (E : Env) (fuel : Nat) (key : zend_string)
    (function : zend_function zval) : M Unit := fun w =>
  match php_parallel_copy_function E fuel function false w with
  | .error e => .error e
  | .ok (dependency, w) =>
    let w := { w with g := { w.g with
      function_table := (zend_hash_add_ptr w.g.function_table key.val dependency).1 } }
    let w := { w with g := { w.g with
      used := (zend_hash_add_ptr w.g.used (FuncRef.to_ulong dependency) key).1 } }
    .ok ((), w)

/-! ### Lifecycle of the per-context tables -/

/-- Engine function `zend_hash_del` on the file's view of a table: the table
without the entry of the key. -/
def zend_hash_del {K V : Type} [DecidableEq K] (t : List (K × V)) (k : K) : List (K × V) :=
  match t with
  | [] => []
  | (k1, v) :: rest =>
    if k1 = k then zend_hash_del rest k else (k1, v) :: zend_hash_del rest k

/-- Engine function `zend_hash_del` on `EG(function_table)`: the entry of the
key is removed, and the table's `pDestructor`, unless it is `NULL`, is invoked
on the removed entry. -/
def zend_hash_del_function_table (key : String) (w : World) : World :=
  match zend_hash_find_ptr w.g.function_table key with
  | none => w
  | some entry =>
    let w := { w with g := { w.g with
      function_table := zend_hash_del w.g.function_table key } }
    match w.g.function_table_pDestructor with
    | .null => w
    | dtor => { w with trace := w.trace ++ [Event.pDestructor dtor entry] }

/-- Function `php_parallel_copy_uncopied_dtor` (lines 52-77), the destructor of the
entries of `PCG(uncopied)`. -/
def php_parallel_copy_uncopied_dtor (function : FuncRef) (w : World) : World :=
  let w :=
    match zend_hash_find_ptr w.g.used function.addr with
    | some key =>
      if zend_hash_exists w.g.function_table key.val then
        let dtor := w.g.function_table_pDestructor
        let w := { w with g := { w.g with function_table_pDestructor := .null } }
        let w := zend_hash_del_function_table key.val w
        { w with g := { w.g with function_table_pDestructor := dtor } }
      else w
    | none => w
  let w :=
    match function.func.static_variables with
    | some sv =>
      { w with trace := w.trace ++
          [Event.php_parallel_copy_hash_dtor sv false (php_parallel_copy_hash_dtor sv false).2] }
    | none => w
  { w with trace := w.trace ++ [Event.pefree_function function.addr false] }

/-- Function `php_parallel_copy_startup` (lines 79-83): the three per-context tables
start empty. -/
def php_parallel_copy_startup (w : World) : World :=
  { w with g := { w.g with uncopied := [], used := [], activated := [] } }

/-- The engine's `zend_hash_destroy` on `PCG(uncopied)`: the table's destructor
runs on every entry, in order. -/
def zend_hash_destroy_uncopied : List (Nat × FuncRef) → World → World
  | [], w => w
  | (_, function) :: rest, w =>
    zend_hash_destroy_uncopied rest (php_parallel_copy_uncopied_dtor function w)

/-- Function `php_parallel_copy_shutdown` (lines 85-89): the three per-context tables
are destroyed, `uncopied` with its destructor, the other two without one. -/
def php_parallel_copy_shutdown (w : World) : World :=
  let w := zend_hash_destroy_uncopied w.g.uncopied w
  { w with g := { w.g with uncopied := [], used := [], activated := [] } }

/-! ## Observations used by the statements -/

/-- The key of a slot as a reader of the table sees it. -/
inductive SlotKey where
  | index (h : Nat)
  | text (s : String)
deriving DecidableEq, Repr

/-- The content of a plain value: a scalar, a text, or the live slots of a
container in order, each with its key and the content of its value. -/
inductive Content where
  | null
  | bool (b : Bool)
  | long (n : Int)
  | double (bits : Nat)
  | text (s : String)
  | container (slots : List (SlotKey × Content))

/-- The key of a bucket: its text key when it has one, its integer key otherwise. -/
def Bucket.slot_key (b : Bucket zval) : SlotKey :=
  match b.key with
  | some k => .text k.val
  | none => .index b.h

mutual
/-- Content of a value; `none` for a value that is not null, a boolean, an
integer, a float, a text or a container of such values. -/
def zval.content : zval → Option Content
  | .null => some .null
  | .bool b => some (.bool b)
  | .long n => some (.long n)
  | .double d => some (.double d)
  | .string s _ => some (.text s.val)
  | .array ht _ =>
    match slots_content ht.arData with
    | some l => some (.container l)
    | none => none
  | _ => none
termination_by v => sizeOf v
decreasing_by
  cases ht
  simp only [zval.array.sizeOf_spec, HashTable.mk.sizeOf_spec]
  omega
/-- Content of the live slots of a bucket list, in order. -/
def slots_content : List (Bucket zval) → Option (List (SlotKey × Content))
  | [] => some []
  | q :: rest =>
    if q.val.is_undef then slots_content rest
    else
      match zval.content q.val, slots_content rest with
      | some c, some l => some ((q.slot_key, c) :: l)
      | _, _ => none
termination_by l => sizeOf l
decreasing_by
  all_goals cases q
  all_goals simp only [List.cons.sizeOf_spec, Bucket.mk.sizeOf_spec]
  all_goals omega
end

/-- Content of a container: its live slots in order, with keys and value contents. -/
def HashTable.content (ht : HashTable zval) : Option (List (SlotKey × Content)) :=
  slots_content ht.arData

/-- The string duplicator keeps the bytes of the text it copies. -/
def KeepsText (E : Env) : Prop :=
  ∀ (s : zend_string) (persistent : Bool), (E.php_parallel_copy_string s persistent).val = s.val

/-- A value duplicator that handles every plain value whose content has size
at most `K`: it returns, leaves the state alone and keeps the content. -/
def CopiesPlain (copy : zval → Bool → M zval) (K : Nat) : Prop :=
  ∀ (v : zval) (c : Content), v.content = some c → sizeOf c ≤ K →
    ∀ (persistent : Bool) (w : World), ∃ v1, copy v persistent w = .ok (v1, w) ∧ v1.content = some c

/-! ## Example data -/

/-- Modelled from the spec: collaborators for evaluating the code on examples.
The string duplicator returns a fresh text with the bytes and hash of the
source, reference count 1, not interned, owned by the target domain (section 2,
"String duplicator"); a handle is transferable when it is a stream (section
4.6), streams have type 2 or 3 and the descriptor of stream `s` is `s`; the
dependency collaborators leave the tables alone; no class is found by name. -/
def exampleEnv : Env where
  php_file_le_stream := 2
  php_file_le_pstream := 3
  php_parallel_check_resource := fun r => r.type = 2 || r.type = 3
  php_stream_cast := fun s => some (s : Int)
  zend_is_true := fun v =>
    match v with
    | .bool b => b
    | .long n => n != 0
    | .resource r => r.handle != 0
    | .object _ _ => true
    | _ => false
  php_parallel_copy_string := fun s persistent =>
    { refcount := 1, interned := false, persistent := persistent, h := s.h, val := s.val }
  zend_lookup_class := fun _ => none
  php_parallel_cache_function := fun f g => (some f, g)
  php_parallel_dependencies_store := fun _ g => g
  php_parallel_dependencies_load := fun _ g => g

/-- A state with empty tables and no call made; the callable table has a
destructor installed. -/
def emptyWorld : World :=
  { g := { cache := [], uncopied := [], used := [], activated := [], function_table := [],
           function_table_pDestructor := .other 1, brk := 1 },
    trace := [] }

/-- A request-owned text. -/
def mkString (s : String) : zend_string :=
  { refcount := 1, interned := false, persistent := false, h := 0, val := s }

/-- A request-owned table holding the given buckets. -/
def mkTable (buckets : List (Bucket zval)) (static_keys : Bool) : HashTable zval :=
  { gc_refcount := 1
    gc_flags := { collectable := true, immutable := false, persistent := false }
    flags := { packed := false, uninitialized := false, static_keys := static_keys,
               has_empty_ind := false, allow_cow_violation := false }
    nTableMask := 4294967288
    data := .allocated false
    arData := buckets
    nNumOfElements := buckets.length
    nTableSize := 8
    nInternalPointer := 0
    nNextFreeElement := 0
    pDestructor := .ZVAL_PTR_DTOR }

/-- The container `{ "a": 1, "b": [2, 3] }` of the spec's scenario. -/
def exampleTable : HashTable zval :=
  mkTable
    [ { val := .long 1, h := 97, key := some (mkString "a") },
      { val := .array (mkTable [ { val := .long 2, h := 0, key := none },
                                 { val := .long 3, h := 1, key := none } ] true) true,
        h := 98, key := some (mkString "b") } ] false

/-- A code unit with opcode identity 100 and the static variable `count = 0`. -/
def exampleFunction : zend_function zval :=
  { opcodes := 100
    refcount := some 1
    fn_flags := { closure := true, immutable := false, heap_rt_cache := false }
    static_variables :=
      some (mkTable [ { val := .long 0, h := 7, key := some (mkString "count") } ] false)
    vars := [mkString "x", mkString "_SERVER"]
    literals := [.long 5, .string (mkString "GLOBALS") true, .null, .string (mkString "y") false]
    cache_size := 16
    run_time_cache := .null }

/-- The example container as a permanent, immutable table with reference count 7. -/
def examplePermanentTable : HashTable zval :=
  { exampleTable with
    gc_refcount := 7
    gc_flags := { collectable := false, immutable := true, persistent := true } }

/-- The declare-auto-global calls one activation of a code unit makes: one per
declared variable name, then one per literal of string type. -/
def auto_global_calls (function : zend_function zval) : List Event :=
  function.vars.map Event.zend_is_auto_global ++
    function.literals.filterMap fun l =>
      match l with
      | .string s _ => some (Event.zend_is_auto_global s)
      | _ => none

/-- The dependency loader leaves the entries of the unit it is called for, in
the per-context `uncopied` map and in the process cache, as they are. -/
def LoaderKeeps (E : Env) (function : zend_function zval) (g : Globals) : Prop :=
  zend_hash_find_ptr (E.php_parallel_dependencies_load function g).uncopied function.opcodes =
      zend_hash_find_ptr g.uncopied function.opcodes ∧
    zend_hash_find_ptr (E.php_parallel_dependencies_load function g).cache function.opcodes =
      zend_hash_find_ptr g.cache function.opcodes

/-- The permanent duplicate of the example code unit, as the process cache holds it. -/
def exampleCachedFunction : zend_function zval :=
  { exampleFunction with
    refcount := none
    fn_flags := { closure := false, immutable := true, heap_rt_cache := false }
    static_variables := some
      { gc_refcount := 2
        gc_flags := { collectable := true, immutable := true, persistent := true }
        flags := { packed := false, uninitialized := false, static_keys := false,
                   has_empty_ind := false, allow_cow_violation := false }
        nTableMask := 4294967288
        data := .allocated true
        arData := [ { val := .long 0, h := 7,
                      key := some { refcount := 1, interned := false, persistent := true,
                                    h := 0, val := "count" } } ]
        nNumOfElements := 1
        nTableSize := 8
        nInternalPointer := 0
        nNextFreeElement := 0
        pDestructor := .PARALLEL_ZVAL_DTOR } }

/-- The state after the example code unit has been duplicated as permanent in
the empty state: the cache holds the duplicate, at address 1. -/
def cachedWorld : World :=
  { g := { cache := [(100, { addr := 1, func := exampleCachedFunction })]
           uncopied := [], used := [], activated := [], function_table := []
           function_table_pDestructor := .other 1, brk := 2 }
    trace := [Event.php_parallel_dependencies_store { addr := 1, func := exampleCachedFunction }] }

/-- The table after `j` successive calls of `php_parallel_copy_hash_dtor`, read
on the header alone (a table that was torn down is gone). -/
def release_times (persistent : Bool) : Nat → HashTable zval → HashTable zval
  | 0, table => table
  | j + 1, table =>
    (php_parallel_copy_hash_dtor (release_times persistent j table) persistent).1

/-- The releases the teardown makes for one bucket: nothing for an undefined
slot; for a live slot its text key when the key's count drops to 0, then its
value when the value is reference counted. -/
def bucket_releases (persistent : Bool) (p : Bucket zval) : List Release :=
  if p.val.is_undef then []
  else
    (match p.key with
      | some k =>
        if GC_DELREF k.refcount = 0 then
          [Release.key { k with refcount := GC_DELREF k.refcount } persistent]
        else []
      | none => []) ++
    (if Z_OPT_REFCOUNTED p.val then [Release.zval_dtor p.val] else [])

/-- The terminal reference count of a release: 1 for permanent, 0 for request. -/
def terminal_refcount (persistent : Bool) : Nat := if persistent then 1 else 0

/-- The permanent duplicate of the example container. -/
def examplePermanentCopy : HashTable zval :=
  match php_parallel_copy_hash_ctor exampleEnv 2 exampleTable true emptyWorld with
  | .ok (r, _) => r
  | .error _ => exampleTable

/-- A state in which the example code unit is cached and the callable table
already holds the name `foo`, bound to another function object at address 77. -/
def fooWorld : World :=
  { cachedWorld with g := { cachedWorld.g with
      function_table :=
        [("foo", some { addr := 77, func := { exampleFunction with opcodes := 5 } })] } }

/-- The static variables of a code unit are absent, or a plain container (and
the string duplicator keeps the bytes of a text). -/
def PlainStatics (E : Env) (function : zend_function zval) : Prop :=
  function.static_variables = none ∨
    (KeepsText E ∧ ∃ sv t, function.static_variables = some sv ∧ sv.content = some t)

/-- The closure `function () { static $count = 0; }` bound to an object and
called in the scope of class `Counter`. -/
def exampleClosure : zend_closure zval :=
  { std := { refcount := 3 }
    func := exampleFunction
    this_ptr := .object (.other { name := mkString "Counter" }) 0
    called_scope := some { name := mkString "Counter" } }

/-- The integer key of a live slot that has no text key, read as a signed
64-bit integer; `none` for an undefined slot and for a slot with a text key. -/
def Bucket.integer_key (b : Bucket zval) : Option Int :=
  if b.val.is_undef then none
  else
    match b.key with
    | some _ => none
    | none => some (to_zend_long b.h)

/-- The next free integer key as the spec words it: 0 when no live slot has a
non-negative integer key, and 1 + the largest such key otherwise. -/
def next_free_spec : List (Bucket zval) → Int
  | [] => 0
  | b :: rest =>
    match b.integer_key with
    | some k => if 0 ≤ k then max (k + 1) (next_free_spec rest) else next_free_spec rest
    | none => next_free_spec rest

/-- The largest value of `zend_long`, `ZEND_LONG_MAX`. -/
def ZEND_LONG_MAX : Int := 9223372036854775807

/-- A table whose single live slot has the largest signed 64-bit integer as key. -/
def maxKeyTable : HashTable zval :=
  mkTable [ { val := .long 1, h := 9223372036854775807, key := none } ] true

/-- A table with the integer keys 4 and -1 (`h = 2^64 - 1`). -/
def mixedKeyTable : HashTable zval :=
  mkTable [ { val := .long 7, h := 4, key := none },
            { val := .long 8, h := 18446744073709551615, key := none } ] true

/-- An interned, permanent text `k`, as the engine keeps the keys of an array literal. -/
def internedKey : zend_string :=
  { refcount := 1, interned := true, persistent := true, h := 107, val := "k" }

/-- The engine-made table `[ "k" => 1 ]`: its key is interned, so the table has
`HASH_FLAG_STATIC_KEYS` set. -/
def internedKeyTable : HashTable zval :=
  mkTable [ { val := .long 1, h := 107, key := some internedKey } ] true

/-- The dependency loader, whatever state it runs in, leaves the entries of the
unit it is called for as they are and gives no address back. -/
def LoaderFrames (E : Env) (function : zend_function zval) : Prop :=
  ∀ g : Globals, LoaderKeeps E function g ∧
    g.brk ≤ (E.php_parallel_dependencies_load function g).brk

/-- The calls the teardown of one `uncopied` entry adds to the trace: one
release of the instance's static-variable container in request mode when it has
one, then the `pefree` of the instance. -/
def teardown_events (function : FuncRef) : List Event :=
  (match function.func.static_variables with
    | some sv =>
      [Event.php_parallel_copy_hash_dtor sv false (php_parallel_copy_hash_dtor sv false).2]
    | none => []) ++
  [Event.pefree_function function.addr false]

/-- The example code unit as a caller holds it after its static variable was
counted up to 5. -/
def exampleFunctionRun : zend_function zval :=
  { exampleFunction with
    static_variables :=
      some (mkTable [ { val := .long 5, h := 7, key := some (mkString "count") } ] false) }

mutual
/-- The form of a value as `php_parallel_copy_zval_ctor` leaves it: a text has the
reference-counted bit unless it is interned (`ZVAL_STR`), and a container has it
always (`ZVAL_ARR`) and is itself of the form `PermanentTable`. -/
inductive PermanentValue : zval → Prop
  | undef : PermanentValue .undef
  | null : PermanentValue .null
  | bool (b : Bool) : PermanentValue (.bool b)
  | long (n : Int) : PermanentValue (.long n)
  | double (bits : Nat) : PermanentValue (.double bits)
  | string (s : zend_string) (refcounted : Bool) (h : refcounted = false → s.interned = true) :
      PermanentValue (.string s refcounted)
  | array (ht : HashTable zval) (h : PermanentTable ht) : PermanentValue (.array ht true)
  | object (o : zend_object zval) (extra : Nat) : PermanentValue (.object o extra)
  | resource (r : zend_resource) : PermanentValue (.resource r)
  | other (type : Nat) (refcounted : Bool) : PermanentValue (.other type refcounted)
/-- The form of a container as `php_parallel_copy_hash_permanent` leaves it:
`HASH_FLAG_STATIC_KEYS` is set only when no live slot has a text key, and every
value is of the form `PermanentValue`. -/
inductive PermanentTable : HashTable zval → Prop
  | mk (ht : HashTable zval) (h : PermanentSlots ht.flags.static_keys ht.arData) :
      PermanentTable ht
/-- The slots of a container of the form `PermanentTable` whose
`HASH_FLAG_STATIC_KEYS` bit is `static_keys`. -/
inductive PermanentSlots : Bool → List (Bucket zval) → Prop
  | nil (static_keys : Bool) : PermanentSlots static_keys []
  | cons (static_keys : Bool) (p : Bucket zval) (rest : List (Bucket zval))
      (hkey : static_keys = true → p.val.is_undef = false → p.key = none)
      (hval : PermanentValue p.val) (hrest : PermanentSlots static_keys rest) :
      PermanentSlots static_keys (p :: rest)
end

mutual
/-- A request duplicate as the spec words it (section 3, Request: "owned
exclusively by the context that created it", "backing storage allocated fresh",
"keys duplicated as request-owned text"; section 4.2: values "recursively
duplicated").  `SeparateValue E q p`: the value `p` has no
reference-counted part in common with the value `q` it was duplicated from.  A
scalar is copied by value; a text is the copy the string duplicator made for
the request domain, or else an interned text without the reference-counted bit,
which no context writes or releases; a container is a new one that is
`SeparateTable` from the source container. -/
inductive SeparateValue (E : Env) : zval → zval → Prop
  | null : SeparateValue E .null .null
  | bool (b : Bool) : SeparateValue E (.bool b) (.bool b)
  | long (n : Int) : SeparateValue E (.long n) (.long n)
  | double (bits : Nat) : SeparateValue E (.double bits) (.double bits)
  | interned (s : zend_string) (h : s.interned = true) :
      SeparateValue E (.string s false) (.string s false)
  | text (s : zend_string) (refcounted : Bool) :
      SeparateValue E (.string s refcounted) (ZVAL_STR (E.php_parallel_copy_string s false))
  | container (S sv : HashTable zval) (refcounted : Bool) (h : SeparateTable E S sv) :
      SeparateValue E (.array S refcounted) (.array sv true)
/-- The container `sv` is a request duplicate that has nothing a write can
reach in common with the container `S`: its header is its own (reference count
1, not immutable, not permanent), its storage is a new allocation of the
per-context domain (the empty sentinel when `S` has no used slot), and its slots
are `SeparateSlots` from those of `S`. -/
inductive SeparateTable (E : Env) : HashTable zval → HashTable zval → Prop
  | mk (S sv : HashTable zval) (hcount : sv.gc_refcount = 1)
      (hflags : sv.gc_flags = { collectable := true, immutable := false, persistent := false })
      (hdata : sv.data =
        if S.nNumUsed = 0 then .php_parallel_copy_uninitialized_bucket else .allocated false)
      (hslots : SeparateSlots E S.arData sv.arData) : SeparateTable E S sv
/-- Slot by slot: an undefined slot stays undefined; a live slot keeps its
integer key, its text key is the copy the string duplicator made for the
request domain (never the key of the source), and its value is
`SeparateValue` from the source's value. -/
inductive SeparateSlots (E : Env) : List (Bucket zval) → List (Bucket zval) → Prop
  | nil : SeparateSlots E [] []
  | undef (q p : Bucket zval) (qs ps : List (Bucket zval)) (hq : q.val.is_undef = true)
      (hp : p.val.is_undef = true) (hrest : SeparateSlots E qs ps) :
      SeparateSlots E (q :: qs) (p :: ps)
  | live (q p : Bucket zval) (qs ps : List (Bucket zval)) (hq : q.val.is_undef = false)
      (hh : p.h = q.h)
      (hkey : p.key = q.key.map fun k => E.php_parallel_copy_string k false)
      (hval : SeparateValue E q.val p.val) (hrest : SeparateSlots E qs ps) :
      SeparateSlots E (q :: qs) (p :: ps)
end

/-! ## Theorems -/

/-! ## Basic facts -/

theorem M.pure_apply {α : Type} (a : α) (w : World) : (pure a : M α) w = .ok (a, w) := rfl

theorem M.bind_apply {α β : Type} (x : M α) (f : α → M β) (w : World) :
    (x >>= f) w = match x w with
      | .error e => .error e
      | .ok (a, w1) => f a w1 := rfl

theorem M.bind_ok {α β : Type} (x : M α) (f : α → M β) (w w1 : World) (a : α)
    (h : x w = .ok (a, w1)) : (x >>= f) w = f a w1 := by
  rw [M.bind_apply, h]

theorem Content.sizeOf_pos (c : Content) : 0 < sizeOf c := by
  cases c <;> simp

theorem slots_content_nil : slots_content [] = some [] := by
  rw [slots_content]

theorem slots_content_cons_undef (q : Bucket zval) (rest : List (Bucket zval))
    (h : q.val.is_undef = true) : slots_content (q :: rest) = slots_content rest := by
  rw [slots_content]; simp [h]

theorem slots_content_cons_live (q : Bucket zval) (rest : List (Bucket zval))
    (h : q.val.is_undef = false) :
    slots_content (q :: rest) =
      match zval.content q.val, slots_content rest with
      | some c, some l => some ((q.slot_key, c) :: l)
      | _, _ => none := by
  rw [slots_content]; simp [h]

theorem zval.content_array (ht : HashTable zval) (rc : Bool) :
    (zval.array ht rc).content =
      match slots_content ht.arData with
      | some l => some (.container l)
      | none => none := by
  rw [zval.content]

theorem slots_content_cons_some {q : Bucket zval} {rest : List (Bucket zval)}
    {l : List (SlotKey × Content)} (hl : q.val.is_undef = false)
    (h : slots_content (q :: rest) = some l) :
    ∃ c l1, zval.content q.val = some c ∧ slots_content rest = some l1 ∧
      l = (q.slot_key, c) :: l1 := by
  rw [slots_content_cons_live q rest hl] at h
  cases hc : zval.content q.val with
  | none => simp [hc] at h
  | some c =>
    cases hr : slots_content rest with
    | none => simp [hc, hr] at h
    | some l1 =>
      simp [hc, hr] at h
      exact ⟨c, l1, rfl, rfl, h.symm⟩

theorem zval.is_undef_of_content {v : zval} {c : Content} (h : v.content = some c) :
    v.is_undef = false := by
  cases v
  case undef => simp [zval.content] at h
  all_goals rfl

theorem permanent_loop_plain (E : Env) (hE : KeepsText E) (copy : zval → Bool → M zval) (K : Nat)
    (hcopy : CopiesPlain copy K) :
    ∀ (bs : List (Bucket zval)) (l : List (SlotKey × Content)),
      slots_content bs = some l → sizeOf l ≤ K →
      ∀ (idx : Nat) (ht : HashTable zval) (w : World),
        ∃ bs1 ht1, php_parallel_copy_hash_permanent_loop E copy bs idx ht w = .ok ((bs1, ht1), w) ∧
          slots_content bs1 = some l := by
  intro bs
  induction bs with
  | nil =>
    intro l hl _ idx ht w
    refine ⟨[], ht, rfl, hl⟩
  | cons q rest ih =>
    intro l hl hK idx ht w
    cases hu : q.val.is_undef with
    | true =>
      rw [slots_content_cons_undef q rest hu] at hl
      obtain ⟨bs1, ht1, h1, h2⟩ := ih l hl hK (idx + 1) ht w
      refine ⟨q :: bs1, ht1, ?_, ?_⟩
      · simp only [php_parallel_copy_hash_permanent_loop, hu, if_true]
        rw [M.bind_ok _ _ _ _ _ h1]
        rfl
      · rw [slots_content_cons_undef q bs1 hu]; exact h2
    | false =>
      obtain ⟨c, l1, hc, hr, rfl⟩ := slots_content_cons_some hu hl
      have hsz : sizeOf c ≤ K ∧ sizeOf l1 ≤ K := by
        simp at hK
        omega
      obtain ⟨v1, hv1, hv1c⟩ := hcopy q.val c hc hsz.1 true w
      have hv1u : v1.is_undef = false := zval.is_undef_of_content hv1c
      cases hk : q.key with
      | none =>
        simp only [php_parallel_copy_hash_permanent_loop, hu, hk]
        simp only [Bool.false_eq_true, if_false]
        rw [M.bind_ok _ _ _ _ _ hv1]
        obtain ⟨bs1, ht1, h1, h2⟩ := ih l1 hr hsz.2 (idx + 1)
          (if to_zend_long q.h ≥ (if ht.nInternalPointer = HT_INVALID_IDX then
              { ht with nInternalPointer := idx } else ht).nNextFreeElement then
            { (if ht.nInternalPointer = HT_INVALID_IDX then
              { ht with nInternalPointer := idx } else ht) with
              nNextFreeElement := to_zend_long (q.h + 1) }
           else (if ht.nInternalPointer = HT_INVALID_IDX then
              { ht with nInternalPointer := idx } else ht)) w
        rw [M.bind_ok _ _ _ _ _ h1]
        refine ⟨_, _, rfl, ?_⟩
        rw [slots_content_cons_live _ _ hv1u]
        simp [hv1c, h2, Bucket.slot_key, hk]
      | some k =>
        simp only [php_parallel_copy_hash_permanent_loop, hu, hk]
        simp only [Bool.false_eq_true, if_false]
        rw [M.bind_ok _ _ _ _ _ hv1]
        obtain ⟨bs1, ht1, h1, h2⟩ := ih l1 hr hsz.2 (idx + 1)
          { (if ht.nInternalPointer = HT_INVALID_IDX then
              { ht with nInternalPointer := idx } else ht) with
            flags := { (if ht.nInternalPointer = HT_INVALID_IDX then
              { ht with nInternalPointer := idx } else ht).flags with static_keys := false } } w
        rw [M.bind_ok _ _ _ _ _ h1]
        refine ⟨_, _, rfl, ?_⟩
        rw [slots_content_cons_live _ _ hv1u]
        simp [hv1c, h2, Bucket.slot_key, hk, hE k true]

theorem request_static_plain (copy : zval → Bool → M zval) (K : Nat)
    (hcopy : CopiesPlain copy K) :
    ∀ (bs : List (Bucket zval)) (l : List (SlotKey × Content)),
      slots_content bs = some l → sizeOf l ≤ K →
      ∀ (w : World),
        ∃ bs1, php_parallel_copy_hash_request_static copy bs w = .ok (bs1, w) ∧
          slots_content bs1 = some l := by
  intro bs
  induction bs with
  | nil =>
    intro l hl _ w
    exact ⟨[], rfl, hl⟩
  | cons q rest ih =>
    intro l hl hK w
    cases hu : q.val.is_undef with
    | true =>
      rw [slots_content_cons_undef q rest hu] at hl
      obtain ⟨bs1, h1, h2⟩ := ih l hl hK w
      have hrc : Z_OPT_REFCOUNTED q.val = false := by
        cases hv : q.val <;> simp [hv, zval.is_undef] at hu
        rfl
      refine ⟨q :: bs1, ?_, ?_⟩
      · simp only [php_parallel_copy_hash_request_static, hrc]
        simp only [Bool.false_eq_true, if_false]
        rw [M.bind_ok _ _ w w q rfl, M.bind_ok _ _ _ _ _ h1]
        rfl
      · rw [slots_content_cons_undef q bs1 hu]; exact h2
    | false =>
      obtain ⟨c, l1, hc, hr, rfl⟩ := slots_content_cons_some hu hl
      have hsz : sizeOf c ≤ K ∧ sizeOf l1 ≤ K := by
        simp at hK
        omega
      obtain ⟨bs1, h1, h2⟩ := ih l1 hr hsz.2 w
      cases hrc : Z_OPT_REFCOUNTED q.val with
      | false =>
        refine ⟨q :: bs1, ?_, ?_⟩
        · simp only [php_parallel_copy_hash_request_static, hrc]
          simp only [Bool.false_eq_true, if_false]
          rw [M.bind_ok _ _ w w q rfl, M.bind_ok _ _ _ _ _ h1]
          rfl
        · rw [slots_content_cons_live _ _ hu]
          simp [hc, h2]
      | true =>
        obtain ⟨v1, hv1, hv1c⟩ := hcopy q.val c hc hsz.1 false w
        have hv1u : v1.is_undef = false := zval.is_undef_of_content hv1c
        refine ⟨{ q with val := v1 } :: bs1, ?_, ?_⟩
        · simp only [php_parallel_copy_hash_request_static, hrc]
          simp only [if_true]
          rw [M.bind_ok _ _ _ _ _ hv1,
            M.bind_ok _ _ w w ({ q with val := v1 } : Bucket zval) rfl, M.bind_ok _ _ _ _ _ h1]
          rfl
        · rw [slots_content_cons_live _ _ hv1u]
          simp [hv1c, h2, Bucket.slot_key]

theorem request_keyed_plain (E : Env) (hE : KeepsText E) (copy : zval → Bool → M zval) (K : Nat)
    (hcopy : CopiesPlain copy K) :
    ∀ (bs : List (Bucket zval)) (l : List (SlotKey × Content)),
      slots_content bs = some l → sizeOf l ≤ K →
      ∀ (w : World),
        ∃ bs1, php_parallel_copy_hash_request_keyed E copy bs w = .ok (bs1, w) ∧
          slots_content bs1 = some l := by
  intro bs
  induction bs with
  | nil =>
    intro l hl _ w
    exact ⟨[], rfl, hl⟩
  | cons q rest ih =>
    intro l hl hK w
    cases hu : q.val.is_undef with
    | true =>
      rw [slots_content_cons_undef q rest hu] at hl
      obtain ⟨bs1, h1, h2⟩ := ih l hl hK w
      refine ⟨{ val := .undef, h := 0, key := none } :: bs1, ?_, ?_⟩
      · simp only [php_parallel_copy_hash_request_keyed, hu, if_true]
        rw [M.bind_ok _ _ _ _ _ h1]
        rfl
      · rw [slots_content_cons_undef ({ val := .undef, h := 0, key := none } : Bucket zval) bs1 rfl]
        exact h2
    | false =>
      obtain ⟨c, l1, hc, hr, rfl⟩ := slots_content_cons_some hu hl
      have hsz : sizeOf c ≤ K ∧ sizeOf l1 ≤ K := by
        simp at hK
        omega
      obtain ⟨bs1, h1, h2⟩ := ih l1 hr hsz.2 w
      obtain ⟨v1, hv1, hv1c⟩ := hcopy q.val c hc hsz.1 false w
      have hv1u : v1.is_undef = false := zval.is_undef_of_content hv1c
      refine ⟨({ val := v1, h := q.h, key := (match q.key with
                | some k => some (E.php_parallel_copy_string k false)
                | none => none) } : Bucket zval) :: bs1, ?_, ?_⟩
      · simp only [php_parallel_copy_hash_request_keyed, hu]
        simp only [Bool.false_eq_true, if_false]
        rw [M.bind_ok _ _ _ _ _ hv1, M.bind_ok _ _ _ _ _ h1]
        rfl
      · rw [slots_content_cons_live _ _ hv1u]
        cases hk : q.key <;> simp [hv1c, h2, Bucket.slot_key, hk, hE _ false]

theorem hash_ctor_plain (E : Env) (hE : KeepsText E) (copy : zval → Bool → M zval) (K : Nat)
    (hcopy : CopiesPlain copy K) (source : HashTable zval) (l : List (SlotKey × Content))
    (hl : source.content = some l) (hK : sizeOf l ≤ K) (persistent : Bool) (w : World) :
    ∃ r, php_parallel_copy_hash_ctor_with E copy source persistent w = .ok (r, w) ∧
      r.content = some l := by
  unfold HashTable.content at hl
  cases persistent with
  | true =>
    simp only [php_parallel_copy_hash_ctor_with, if_true, php_parallel_copy_hash_permanent]
    by_cases h0 : (php_parallel_copy_hash_permanent_header source).nNumUsed = 0
    · rw [if_pos h0]
      refine ⟨_, rfl, ?_⟩
      simpa [HashTable.content, php_parallel_copy_hash_permanent_header] using hl
    · rw [if_neg h0]
      obtain ⟨bs1, ht1, h1, h2⟩ := permanent_loop_plain E hE copy K hcopy source.arData l hl hK 0
        { php_parallel_copy_hash_permanent_header source with
          nNextFreeElement := 0, nInternalPointer := HT_INVALID_IDX, data := .allocated true } w
      refine ⟨{ ht1 with arData := bs1 }, ?_, h2⟩
      exact M.bind_ok _ _ _ _ _ h1
  | false =>
    simp only [php_parallel_copy_hash_ctor_with, Bool.false_eq_true, if_false,
      php_parallel_copy_hash_request]
    by_cases h0 : (php_parallel_copy_hash_request_header source).nNumUsed = 0
    · rw [if_pos h0]
      refine ⟨_, rfl, ?_⟩
      simpa [HashTable.content, php_parallel_copy_hash_request_header] using hl
    · rw [if_neg h0]
      cases hs : source.flags.static_keys with
      | true =>
        obtain ⟨bs1, h1, h2⟩ := request_static_plain copy K hcopy source.arData l hl hK w
        refine ⟨{ php_parallel_copy_hash_request_header source with
          data := .allocated false, arData := bs1 }, ?_, ?_⟩
        · simp only [php_parallel_copy_hash_request_header, hs, if_true]
          exact M.bind_ok _ _ _ _ _ h1
        · exact h2
      | false =>
        obtain ⟨bs1, h1, h2⟩ := request_keyed_plain E hE copy K hcopy source.arData l hl hK w
        refine ⟨{ php_parallel_copy_hash_request_header source with
          data := .allocated false, arData := bs1 }, ?_, ?_⟩
        · simp only [php_parallel_copy_hash_request_header, hs, Bool.false_eq_true, if_false]
          exact M.bind_ok _ _ _ _ _ h1
        · exact h2

theorem zval_ctor_plain (E : Env) (hE : KeepsText E) :
    ∀ (n : Nat), CopiesPlain (php_parallel_copy_zval_ctor E n) n := by
  intro n
  induction n with
  | zero =>
    intro v c _ hsz
    have := Content.sizeOf_pos c
    omega
  | succ n ih =>
    intro v c hc hsz persistent w
    cases v with
    | array ht rc =>
      rw [zval.content_array] at hc
      cases hl : slots_content ht.arData with
      | none => simp [hl] at hc
      | some l =>
        simp [hl] at hc
        subst hc
        have hK : sizeOf l ≤ n := by
          simp at hsz
          omega
        obtain ⟨r, hr, hrc⟩ := hash_ctor_plain E hE _ n ih ht l hl hK persistent w
        refine ⟨ZVAL_ARR r, ?_, ?_⟩
        · simp only [php_parallel_copy_zval_ctor, php_parallel_copy_zval_ctor_with]
          rw [M.bind_ok _ _ _ _ _ hr]
          rfl
        · unfold HashTable.content at hrc
          rw [ZVAL_ARR, zval.content_array, hrc]
    | string s rc =>
      refine ⟨ZVAL_STR (E.php_parallel_copy_string s persistent), rfl, ?_⟩
      simp [zval.content] at hc
      simp [ZVAL_STR, zval.content, hE s persistent, hc]
    | null => exact ⟨_, rfl, hc⟩
    | bool b => exact ⟨_, rfl, hc⟩
    | long k => exact ⟨_, rfl, hc⟩
    | double d => exact ⟨_, rfl, hc⟩
    | undef => simp [zval.content] at hc
    | object o e => simp [zval.content] at hc
    | resource r => simp [zval.content] at hc
    | other t rc => simp [zval.content] at hc

theorem zval.content_long (n : Int) : (zval.long n).content = some (.long n) := by
  rw [zval.content]

theorem slots_content_cons_eval (q : Bucket zval) (rest : List (Bucket zval)) (k : SlotKey)
    (c : Content) (l : List (SlotKey × Content)) (hu : q.val.is_undef = false)
    (hk : q.slot_key = k) (hc : q.val.content = some c) (hr : slots_content rest = some l) :
    slots_content (q :: rest) = some ((k, c) :: l) := by
  rw [slots_content_cons_live q rest hu, hc, hr, hk]

theorem zval.content_array_eval (ht : HashTable zval) (rc : Bool) (l : List (SlotKey × Content))
    (h : slots_content ht.arData = some l) :
    (zval.array ht rc).content = some (.container l) := by
  rw [zval.content_array, h]

/-- C1: for every container `c` whose values are null, booleans, integers,
floats, text or (recursively) such containers, duplicating `c` as permanent and
the result as request returns, given enough fuel, a container with exactly the
live slots of `c`, in the same order, with the same keys and equal values at
every nesting level; the permanent intermediate has that content too, and
neither call changes the state it runs in.  The string duplicator is assumed to
keep the bytes of a text. -/
theorem hash_roundtrip_keeps_content (E : Env) (hE : KeepsText E) (c : HashTable zval)
    (t : List (SlotKey × Content)) (hc : c.content = some t) :
    ∃ N, ∀ fuel, N ≤ fuel → ∀ w1 w2 : World, ∃ p r,
      php_parallel_copy_hash_ctor E fuel c true w1 = .ok (p, w1) ∧
      php_parallel_copy_hash_ctor E fuel p false w2 = .ok (r, w2) ∧
      p.content = some t ∧ r.content = some t := by
  refine ⟨sizeOf t, fun fuel hfuel w1 w2 => ?_⟩
  obtain ⟨p, hp, hpc⟩ := hash_ctor_plain E hE _ fuel (zval_ctor_plain E hE fuel) c t hc hfuel true w1
  obtain ⟨r, hr, hrc⟩ := hash_ctor_plain E hE _ fuel (zval_ctor_plain E hE fuel) p t hpc hfuel false w2
  exact ⟨p, r, hp, hr, hpc, hrc⟩

theorem exampleTable_content :
    exampleTable.content =
      some [(.text "a", .long 1),
            (.text "b", .container [(.index 0, .long 2), (.index 1, .long 3)])] :=
  slots_content_cons_eval _ _ _ _ _ (by rfl) (by rfl) (zval.content_long 1)
    (slots_content_cons_eval _ _ _ _ _ (by rfl) (by rfl)
      (zval.content_array_eval _ _ _
        (slots_content_cons_eval _ _ _ _ _ (by rfl) (by rfl) (zval.content_long 2)
          (slots_content_cons_eval _ _ _ _ _ (by rfl) (by rfl) (zval.content_long 3)
            slots_content_nil)))
      slots_content_nil)

theorem hash_roundtrip_keeps_content_witness :
    ∃ N, ∀ fuel, N ≤ fuel → ∀ w1 w2 : World, ∃ p r,
      php_parallel_copy_hash_ctor exampleEnv fuel exampleTable true w1 = .ok (p, w1) ∧
      php_parallel_copy_hash_ctor exampleEnv fuel p false w2 = .ok (r, w2) ∧
      p.content = some [(.text "a", .long 1),
            (.text "b", .container [(.index 0, .long 2), (.index 1, .long 3)])] ∧
      r.content = some [(.text "a", .long 1),
            (.text "b", .container [(.index 0, .long 2), (.index 1, .long 3)])] :=
  hash_roundtrip_keeps_content exampleEnv (fun _ _ => rfl) exampleTable _ exampleTable_content

theorem exampleFunction_plain : PlainStatics exampleEnv exampleFunction :=
  Or.inr ⟨fun _ _ => rfl, _, [(.text "count", .long 0)], rfl,
    slots_content_cons_eval _ _ _ _ _ (by rfl) (by rfl) (zval.content_long 0) slots_content_nil⟩

theorem exampleCachedFunction_plain : PlainStatics exampleEnv exampleCachedFunction :=
  Or.inr ⟨fun _ _ => rfl, _, [(.text "count", .long 0)], rfl,
    slots_content_cons_eval _ _ _ _ _ (by rfl) (by rfl) (zval.content_long 0) slots_content_nil⟩

theorem zend_hash_find_update_same {K V : Type} [DecidableEq K] (t : List (K × V)) (k : K) (v : V) :
    zend_hash_find_ptr (zend_hash_update_ptr t k v) k = some v := by
  induction t with
  | nil => simp [zend_hash_update_ptr, zend_hash_find_ptr]
  | cons x rest ih =>
    obtain ⟨k1, v1⟩ := x
    by_cases h : k1 = k
    · simp [zend_hash_update_ptr, zend_hash_find_ptr, h]
    · simp [zend_hash_update_ptr, zend_hash_find_ptr, h, ih]

theorem zend_hash_find_append_absent {K V : Type} [DecidableEq K] (t : List (K × V)) (k : K) (v : V)
    (h : zend_hash_find_ptr t k = none) : zend_hash_find_ptr (t ++ [(k, v)]) k = some v := by
  induction t with
  | nil => simp [zend_hash_find_ptr]
  | cons x rest ih =>
    obtain ⟨k1, v1⟩ := x
    by_cases hk : k1 = k
    · simp [zend_hash_find_ptr, hk] at h
    · simp only [zend_hash_find_ptr, hk, if_false] at h
      simp [zend_hash_find_ptr, hk, ih h]

theorem zend_hash_find_append_present {K V : Type} [DecidableEq K] (t : List (K × V)) (k k1 : K)
    (v old : V) (h : zend_hash_find_ptr t k = some old) :
    zend_hash_find_ptr (t ++ [(k1, v)]) k = some old := by
  induction t with
  | nil => simp [zend_hash_find_ptr] at h
  | cons x rest ih =>
    obtain ⟨k2, v2⟩ := x
    by_cases hk : k2 = k
    · simp [zend_hash_find_ptr, hk] at h ⊢
      exact h
    · simp only [zend_hash_find_ptr, hk, if_false] at h
      simp [zend_hash_find_ptr, hk, ih h]

theorem zend_hash_add_absent {K V : Type} [DecidableEq K] (t : List (K × V)) (k : K) (v : V)
    (h : zend_hash_find_ptr t k = none) :
    zend_hash_add_ptr t k v = (t ++ [(k, v)], true) := by
  simp [zend_hash_add_ptr, zend_hash_exists, h]

theorem zend_hash_add_present {K V : Type} [DecidableEq K] (t : List (K × V)) (k : K) (v old : V)
    (h : zend_hash_find_ptr t k = some old) :
    zend_hash_add_ptr t k v = (t, false) := by
  simp [zend_hash_add_ptr, zend_hash_exists, h]

theorem copy_function_permanent_hit (E : Env) (copy : zval → Bool → M zval)
    (function : zend_function zval) (w : World) (e : FuncRef)
    (h : zend_hash_find_ptr w.g.cache function.opcodes = some e) :
    php_parallel_copy_function_permanent E copy function w = .ok (e, w) := by
  simp [php_parallel_copy_function_permanent, h]

theorem copy_function_permanent_ok (E : Env) (copy : zval → Bool → M zval)
    (function : zend_function zval) (w w1 : World) (r : FuncRef)
    (h : php_parallel_copy_function_permanent E copy function w = .ok (r, w1)) :
    zend_hash_find_ptr w1.g.cache function.opcodes = some r := by
  unfold php_parallel_copy_function_permanent at h
  cases hf : zend_hash_find_ptr w.g.cache function.opcodes with
  | some e =>
    simp [hf] at h
    obtain ⟨rfl, rfl⟩ := h
    exact hf
  | none =>
    simp only [hf] at h
    cases hs : function.static_variables with
    | none =>
      simp [hs] at h
      obtain ⟨rfl, rfl⟩ := h
      exact zend_hash_find_update_same _ _ _
    | some sv =>
      simp only [hs] at h
      cases hc : php_parallel_copy_hash_ctor_with E copy sv true (php_parallel_copy_mem_function w).2 with
      | error e => simp [hc] at h
      | ok p =>
        obtain ⟨sv1, w2⟩ := p
        simp [hc] at h
        obtain ⟨rfl, rfl⟩ := h
        exact zend_hash_find_update_same _ _ _

theorem copy_function_permanent_returns (E : Env) (hE : KeepsText E) (copy : zval → Bool → M zval)
    (K : Nat) (hcopy : CopiesPlain copy K) (function : zend_function zval) (w : World)
    (hs : function.static_variables = none ∨
      ∃ sv t, function.static_variables = some sv ∧ sv.content = some t ∧ sizeOf t ≤ K) :
    ∃ r w1, php_parallel_copy_function_permanent E copy function w = .ok (r, w1) := by
  unfold php_parallel_copy_function_permanent
  cases hf : zend_hash_find_ptr w.g.cache function.opcodes with
  | some e => exact ⟨e, w, rfl⟩
  | none =>
    rcases hs with hs | ⟨sv, t, hs, ht, hK⟩
    · simp [hs]
    · obtain ⟨r, hr, -⟩ := hash_ctor_plain E hE copy K hcopy sv t ht hK true
        (php_parallel_copy_mem_function w).2
      simp [hs, hr]

/-- C2: for every state of the process-wide cache and every two code units `f`
and `g` with the same opcode identity, a permanent `php_parallel_copy_function`
of `f` followed by one of `g` returns the same cached entry both times, and the
second call leaves the whole state (the cache included) as the first call left
it.  The first call returns, with enough fuel, whenever the unit is already
cached or its static variables are absent or plain. -/
theorem copy_function_permanent_twice (E : Env) (f g : zend_function zval) (w : World)
    (hid : f.opcodes = g.opcodes) :
    (∀ fuel r1 w1, php_parallel_copy_function E fuel f true w = .ok (r1, w1) →
      (∃ e, r1 = some e ∧ zend_hash_find_ptr w1.g.cache f.opcodes = some e) ∧
      ∀ fuel2, php_parallel_copy_function E fuel2 g true w1 = .ok (r1, w1)) ∧
    (((∃ e, zend_hash_find_ptr w.g.cache f.opcodes = some e) ∨ PlainStatics E f) →
      ∃ N, ∀ fuel, N ≤ fuel →
        ∃ r1 w1, php_parallel_copy_function E fuel f true w = .ok (r1, w1)) := by
  constructor
  · intro fuel r1 w1 h
    simp only [php_parallel_copy_function, php_parallel_copy_function_with, if_true] at h
    cases hp : php_parallel_copy_function_permanent E (php_parallel_copy_zval_ctor E fuel) f w with
    | error e => simp [hp] at h
    | ok p =>
      obtain ⟨e, w2⟩ := p
      simp [hp] at h
      obtain ⟨rfl, rfl⟩ := h
      have hc := copy_function_permanent_ok E _ f w w2 e hp
      refine ⟨⟨e, rfl, hc⟩, ?_⟩
      intro fuel2
      rw [hid] at hc
      simp only [php_parallel_copy_function, php_parallel_copy_function_with, if_true]
      rw [copy_function_permanent_hit E _ g w2 e hc]
  · intro h
    rcases h with ⟨e, he⟩ | hs | ⟨hE, sv, t, hs, ht⟩
    · refine ⟨0, fun fuel _ => ⟨some e, w, ?_⟩⟩
      simp only [php_parallel_copy_function, php_parallel_copy_function_with, if_true]
      rw [copy_function_permanent_hit E _ f w e he]
    · refine ⟨0, fun fuel _ => ?_⟩
      cases hf : zend_hash_find_ptr w.g.cache f.opcodes with
      | some e =>
        refine ⟨some e, w, ?_⟩
        simp only [php_parallel_copy_function, php_parallel_copy_function_with, if_true]
        rw [copy_function_permanent_hit E _ f w e hf]
      | none =>
        simp [php_parallel_copy_function, php_parallel_copy_function_with,
          php_parallel_copy_function_permanent, hf, hs]
    · refine ⟨sizeOf t, fun fuel hfuel => ?_⟩
      obtain ⟨r, w1, hr⟩ := copy_function_permanent_returns E hE _ fuel (zval_ctor_plain E hE fuel)
        f w (Or.inr ⟨sv, t, hs, ht, hfuel⟩)
      refine ⟨some r, w1, ?_⟩
      simp only [php_parallel_copy_function, php_parallel_copy_function_with, if_true]
      rw [hr]

theorem copy_function_permanent_twice_witness :
    (∃ r1 w1,
      php_parallel_copy_function exampleEnv 2 exampleFunction true emptyWorld = .ok (r1, w1) ∧
      php_parallel_copy_function exampleEnv 0
        { exampleFunction with static_variables := none } true w1 = .ok (r1, w1)) ∧
    (∃ N, ∀ fuel, N ≤ fuel →
      ∃ r1 w1,
        php_parallel_copy_function exampleEnv fuel exampleFunction true emptyWorld =
          .ok (r1, w1)) :=
  ⟨⟨_, _, rfl,
    ((copy_function_permanent_twice exampleEnv exampleFunction
      { exampleFunction with static_variables := none } emptyWorld rfl).1 2 _ _ rfl).2 0⟩,
    (copy_function_permanent_twice exampleEnv exampleFunction
      { exampleFunction with static_variables := none } emptyWorld rfl).2
      (Or.inr exampleFunction_plain)⟩

theorem activate_variables_eq (vs : List zend_string) (w : World) :
    php_parallel_copy_auto_globals_activate_variables vs w =
      { w with trace := w.trace ++ vs.map Event.zend_is_auto_global } := by
  induction vs generalizing w with
  | nil => simp [php_parallel_copy_auto_globals_activate_variables]
  | cons v rest ih =>
    simp [php_parallel_copy_auto_globals_activate_variables, ih, zend_is_auto_global]

theorem activate_literals_eq (ls : List zval) (w : World) :
    php_parallel_copy_auto_globals_activate_literals ls w =
      { w with trace := w.trace ++ ls.filterMap fun l =>
          match l with
          | .string s _ => some (Event.zend_is_auto_global s)
          | _ => none } := by
  induction ls generalizing w with
  | nil => simp [php_parallel_copy_auto_globals_activate_literals]
  | cons l rest ih =>
    cases l <;>
      simp [php_parallel_copy_auto_globals_activate_literals, ih, zend_is_auto_global]

theorem activate_fresh (function : zend_function zval) (w : World)
    (h : zend_hash_exists w.g.activated function.opcodes = false) :
    php_parallel_copy_auto_globals_activate function w =
      { g := { w.g with activated := w.g.activated ++ [(function.opcodes, ())] },
        trace := w.trace ++ auto_global_calls function } := by
  simp [php_parallel_copy_auto_globals_activate, h, activate_variables_eq, activate_literals_eq,
    zend_hash_add_ptr, auto_global_calls]

theorem activate_done (function : zend_function zval) (w : World)
    (h : zend_hash_exists w.g.activated function.opcodes = true) :
    php_parallel_copy_auto_globals_activate function w = w := by
  simp [php_parallel_copy_auto_globals_activate, h]

theorem activate_marks (function : zend_function zval) (w : World) :
    zend_hash_exists (php_parallel_copy_auto_globals_activate function w).g.activated
      function.opcodes = true := by
  cases h : zend_hash_exists w.g.activated function.opcodes with
  | true => rw [activate_done function w h]; exact h
  | false =>
    rw [activate_fresh function w h]
    simp only [zend_hash_exists] at h ⊢
    have hn : zend_hash_find_ptr w.g.activated function.opcodes = none := by
      cases hf : zend_hash_find_ptr w.g.activated function.opcodes <;> simp [hf] at h ⊢
    rw [zend_hash_find_append_absent _ _ _ hn]
    rfl

/-- C4: in a context where an opcode identity is not yet activated, activating a
code unit `f` of that identity makes exactly the declare-auto-global calls of
`f` (one per declared variable name, then one per string literal, other
literals skipped), and every later activation for the same identity, by `f`
again or by any other unit `g` of that identity, leaves the state and the calls
made unchanged; so `n >= 1` activations equal one. -/
theorem auto_globals_activate_once (f : zend_function zval) (w : World)
    (hnew : zend_hash_exists w.g.activated f.opcodes = false) :
    (php_parallel_copy_auto_globals_activate f w).trace = w.trace ++ auto_global_calls f ∧
    (∀ gs : List (zend_function zval), (∀ g ∈ gs, g.opcodes = f.opcodes) →
      gs.foldl (fun w1 g => php_parallel_copy_auto_globals_activate g w1)
        (php_parallel_copy_auto_globals_activate f w) =
        php_parallel_copy_auto_globals_activate f w) ∧
    (∀ n : Nat, 1 ≤ n →
      (php_parallel_copy_auto_globals_activate f)^[n] w =
        php_parallel_copy_auto_globals_activate f w) := by
  refine ⟨by rw [activate_fresh f w hnew], ?_, ?_⟩
  · intro gs
    induction gs with
    | nil => intro _; rfl
    | cons g rest ih =>
      intro hgs
      have hg : g.opcodes = f.opcodes := hgs g (List.mem_cons_self _ _)
      have hm := activate_marks f w
      rw [← hg] at hm
      rw [List.foldl_cons, activate_done g _ hm]
      exact ih (fun g1 hg1 => hgs g1 (List.mem_cons_of_mem _ hg1))
  · intro n hn
    obtain ⟨m, rfl⟩ : ∃ m, n = m + 1 := ⟨n - 1, by omega⟩
    clear hn
    induction m with
    | zero => rfl
    | succ m ih =>
      rw [Function.iterate_succ_apply', ih]
      exact activate_done f _ (activate_marks f w)

theorem auto_globals_activate_once_witness :
    (php_parallel_copy_auto_globals_activate exampleFunction emptyWorld).trace =
      [ Event.zend_is_auto_global (mkString "x"), Event.zend_is_auto_global (mkString "_SERVER"),
        Event.zend_is_auto_global (mkString "GLOBALS"), Event.zend_is_auto_global (mkString "y") ] ∧
    (php_parallel_copy_auto_globals_activate exampleFunction)^[3] emptyWorld =
      php_parallel_copy_auto_globals_activate exampleFunction emptyWorld :=
  ⟨(auto_globals_activate_once exampleFunction emptyWorld rfl).1,
    (auto_globals_activate_once exampleFunction emptyWorld rfl).2.2 3 (by decide)⟩

theorem activate_g (function : zend_function zval) (w : World) :
    (php_parallel_copy_auto_globals_activate function w).g.cache = w.g.cache ∧
    (php_parallel_copy_auto_globals_activate function w).g.uncopied = w.g.uncopied ∧
    (php_parallel_copy_auto_globals_activate function w).g.brk = w.g.brk := by
  cases h : zend_hash_exists w.g.activated function.opcodes with
  | true => rw [activate_done function w h]; exact ⟨rfl, rfl, rfl⟩
  | false => rw [activate_fresh function w h]; exact ⟨rfl, rfl, rfl⟩

theorem copy_function_request_hit (E : Env) (copy : zval → Bool → M zval)
    (function : zend_function zval) (w : World) (e : FuncRef)
    (h : zend_hash_find_ptr w.g.uncopied function.opcodes = some e) :
    php_parallel_copy_function_request E copy function w = .ok (some e, w) := by
  simp [php_parallel_copy_function_request, h]

theorem zend_hash_add_true {K V : Type} [DecidableEq K] (t : List (K × V)) (k : K) (v : V)
    (h : (zend_hash_add_ptr t k v).2 = true) :
    zend_hash_find_ptr (zend_hash_add_ptr t k v).1 k = some v := by
  cases hf : zend_hash_find_ptr t k with
  | some old => rw [zend_hash_add_present t k v old hf] at h; simp at h
  | none => rw [zend_hash_add_absent t k v hf]; exact zend_hash_find_append_absent t k v hf

theorem copy_function_request_ok (E : Env) (copy : zval → Bool → M zval)
    (function : zend_function zval) (w w1 : World) (e : FuncRef)
    (h : php_parallel_copy_function_request E copy function w = .ok (some e, w1)) :
    zend_hash_find_ptr w1.g.uncopied function.opcodes = some e := by
  unfold php_parallel_copy_function_request at h
  cases hf : zend_hash_find_ptr w.g.uncopied function.opcodes with
  | some e1 =>
    simp [hf] at h
    obtain ⟨rfl, rfl⟩ := h
    exact hf
  | none =>
    simp only [hf] at h
    generalize php_parallel_copy_auto_globals_activate function
      (w.call (Event.php_parallel_dependencies_load function)
        (E.php_parallel_dependencies_load function)) = wa at h
    cases hc : zend_hash_find_ptr wa.g.cache function.opcodes with
    | none => simp [hc] at h
    | some cached =>
      simp only [hc] at h
      cases hs : cached.func.static_variables with
      | none =>
        simp only [hs] at h
        generalize hadd : zend_hash_add_ptr (php_parallel_copy_mem_function wa).2.g.uncopied
          function.opcodes _ = added at h
        obtain ⟨t, b⟩ := added
        cases b with
        | false => simp at h
        | true =>
          simp at h
          obtain ⟨rfl, rfl⟩ := h
          have := zend_hash_add_true _ _ _ (by rw [hadd])
          rw [hadd] at this
          exact this
      | some sv =>
        simp only [hs] at h
        cases hh : php_parallel_copy_hash_ctor_with E copy sv false
            (php_parallel_copy_mem_function wa).2 with
        | error err => simp [hh] at h
        | ok p =>
          obtain ⟨sv1, w2⟩ := p
          simp only [hh] at h
          generalize hadd : zend_hash_add_ptr w2.g.uncopied function.opcodes _ = added at h
          obtain ⟨t, b⟩ := added
          cases b with
          | false => simp at h
          | true =>
            simp at h
            obtain ⟨rfl, rfl⟩ := h
            have := zend_hash_add_true _ _ _ (by rw [hadd])
            rw [hadd] at this
            exact this

theorem copy_function_request_returns (E : Env) (copy : zval → Bool → M zval)
    (K : Nat) (hcopy : CopiesPlain copy K) (function : zend_function zval) (w : World)
    (cached : FuncRef) (hload : LoaderKeeps E function w.g)
    (hcache : zend_hash_find_ptr w.g.cache function.opcodes = some cached)
    (hmiss : zend_hash_find_ptr w.g.uncopied function.opcodes = none)
    (hs : cached.func.static_variables = none ∨
      (KeepsText E ∧
        ∃ sv t, cached.func.static_variables = some sv ∧ sv.content = some t ∧ sizeOf t ≤ K)) :
    ∃ e w1, php_parallel_copy_function_request E copy function w = .ok (some e, w1) ∧
      (cached.func.static_variables = none → e.func.static_variables = none) ∧
      (∀ sv t, cached.func.static_variables = some sv → sv.content = some t →
        ∃ sv1, e.func.static_variables = some sv1 ∧ sv1.content = some t) := by
  obtain ⟨hl1, hl2⟩ := hload
  have ha := activate_g function (w.call (Event.php_parallel_dependencies_load function)
        (E.php_parallel_dependencies_load function))
  unfold php_parallel_copy_function_request
  simp only [hmiss]
  generalize php_parallel_copy_auto_globals_activate function
      (w.call (Event.php_parallel_dependencies_load function)
        (E.php_parallel_dependencies_load function)) = wa at ha
  obtain ⟨ha1, ha2, -⟩ := ha
  have hc : zend_hash_find_ptr wa.g.cache function.opcodes = some cached := by
    rw [ha1]; simp only [World.call]; rw [hl2, hcache]
  have hu : zend_hash_find_ptr wa.g.uncopied function.opcodes = none := by
    rw [ha2]; simp only [World.call]; rw [hl1, hmiss]
  simp only [hc]
  rcases hs with hs | ⟨hE, sv, t, hs, ht, hK⟩
  · simp only [hs]
    have hu2 : zend_hash_find_ptr (php_parallel_copy_mem_function wa).2.g.uncopied
        function.opcodes = none := hu
    rw [zend_hash_add_absent _ _ _ hu2]
    refine ⟨_, _, rfl, fun _ => rfl, ?_⟩
    intro sv t h
    simp at h
  · obtain ⟨r, hr, hrc⟩ := hash_ctor_plain E hE copy K hcopy sv t ht hK false
        (php_parallel_copy_mem_function wa).2
    simp only [hs, hr]
    have hu2 : zend_hash_find_ptr (php_parallel_copy_mem_function wa).2.g.uncopied
        function.opcodes = none := hu
    rw [zend_hash_add_absent _ _ _ hu2]
    refine ⟨_, _, rfl, fun h => by simp at h, ?_⟩
    intro sv2 t2 h2 hc2
    simp only [Option.some.injEq] at h2
    subst h2
    rw [ht] at hc2
    simp only [Option.some.injEq] at hc2
    subst hc2
    exact ⟨r, rfl, hrc⟩

theorem copy_function_request_total (E : Env) (f : zend_function zval) (w : World)
    (cached : FuncRef) (hcache : zend_hash_find_ptr w.g.cache f.opcodes = some cached)
    (hload : LoaderKeeps E f w.g)
    (hs : PlainStatics E cached.func) :
    ∃ N, ∀ fuel, N ≤ fuel →
      ∃ e w1, php_parallel_copy_function E fuel f false w = .ok (some e, w1) := by
  cases hu : zend_hash_find_ptr w.g.uncopied f.opcodes with
  | some e =>
    refine ⟨0, fun fuel _ => ⟨e, w, ?_⟩⟩
    simp only [php_parallel_copy_function, php_parallel_copy_function_with, Bool.false_eq_true,
      if_false]
    exact copy_function_request_hit E _ f w e hu
  | none =>
    rcases hs with hs | ⟨hE, sv, t, hs, ht⟩
    · refine ⟨0, fun fuel _ => ?_⟩
      have hcp : CopiesPlain (php_parallel_copy_zval_ctor E fuel) 0 := by
        intro v c _ hsz
        have := Content.sizeOf_pos c
        omega
      obtain ⟨e, w1, h, -⟩ := copy_function_request_returns E
        (php_parallel_copy_zval_ctor E fuel) 0 hcp f w cached hload hcache hu (Or.inl hs)
      exact ⟨e, w1, h⟩
    · refine ⟨sizeOf t, fun fuel hfuel => ?_⟩
      obtain ⟨e, w1, h, -⟩ := copy_function_request_returns E _ fuel
        (zval_ctor_plain E hE fuel) f w cached hload hcache hu
        (Or.inr ⟨hE, sv, t, hs, ht, hfuel⟩)
      exact ⟨e, w1, h⟩

/-- C3: within one context, when a request `php_parallel_copy_function` of a
code unit returns an instance, the `uncopied` map holds that instance under the
unit's opcode identity, and a second call returns the identical instance and
leaves the whole state as it was: the map is unchanged and no call (to the
dependency loader or to the declare-auto-global collaborator) is added to the
trace.  The first call does return an instance, with enough fuel, when the unit
has a permanent cache entry whose static variables are absent or plain and the
loader leaves the unit's own entries alone. -/
theorem copy_function_request_twice (E : Env) (f : zend_function zval) (w : World) :
    (∀ fuel e w1, php_parallel_copy_function E fuel f false w = .ok (some e, w1) →
      zend_hash_find_ptr w1.g.uncopied f.opcodes = some e ∧
      ∀ fuel2, php_parallel_copy_function E fuel2 f false w1 = .ok (some e, w1)) ∧
    (∀ cached, zend_hash_find_ptr w.g.cache f.opcodes = some cached →
      LoaderKeeps E f w.g →
      PlainStatics E cached.func →
      ∃ N, ∀ fuel, N ≤ fuel →
        ∃ e w1, php_parallel_copy_function E fuel f false w = .ok (some e, w1)) := by
  constructor
  · intro fuel e w1 h
    simp only [php_parallel_copy_function, php_parallel_copy_function_with, Bool.false_eq_true,
      if_false] at h
    have hu := copy_function_request_ok E _ f w w1 e h
    refine ⟨hu, fun fuel2 => ?_⟩
    simp only [php_parallel_copy_function, php_parallel_copy_function_with, Bool.false_eq_true,
      if_false]
    exact copy_function_request_hit E _ f w1 e hu
  · intro cached hcache hload hs
    exact copy_function_request_total E f w cached hcache hload hs

theorem M.bind_eq_ok {α β : Type} {x : M α} {f : α → M β} {w w2 : World} {b : β}
    (h : (x >>= f) w = .ok (b, w2)) : ∃ a w1, x w = .ok (a, w1) ∧ f a w1 = .ok (b, w2) := by
  rw [M.bind_apply] at h
  cases hx : x w with
  | error e => simp [hx] at h
  | ok p =>
    obtain ⟨a, w1⟩ := p
    simp only [hx] at h
    exact ⟨a, w1, rfl, h⟩

theorem M.pure_eq_ok {α : Type} {a b : α} {w w2 : World}
    (h : (pure a : M α) w = .ok (b, w2)) : b = a ∧ w2 = w := by
  rw [M.pure_apply] at h
  simp only [Except.ok.injEq, Prod.mk.injEq] at h
  exact ⟨h.1.symm, h.2.symm⟩

theorem permanent_loop_header (E : Env) (copy : zval → Bool → M zval) :
    ∀ (bs : List (Bucket zval)) (idx : Nat) (ht : HashTable zval) (w w1 : World)
      (bs1 : List (Bucket zval)) (ht1 : HashTable zval),
      php_parallel_copy_hash_permanent_loop E copy bs idx ht w = .ok ((bs1, ht1), w1) →
      ht1.gc_refcount = ht.gc_refcount ∧ ht1.gc_flags = ht.gc_flags ∧ ht1.data = ht.data ∧
        ht1.nTableMask = ht.nTableMask ∧ ht1.pDestructor = ht.pDestructor := by
  intro bs
  induction bs with
  | nil =>
    intro idx ht w w1 bs1 ht1 h
    simp only [php_parallel_copy_hash_permanent_loop] at h
    obtain ⟨h1, -⟩ := M.pure_eq_ok h
    simp only [Prod.mk.injEq] at h1
    obtain ⟨-, rfl⟩ := h1
    exact ⟨rfl, rfl, rfl, rfl, rfl⟩
  | cons q rest ih =>
    intro idx ht w w1 bs1 ht1 h
    cases hu : q.val.is_undef with
    | true =>
      simp only [php_parallel_copy_hash_permanent_loop, hu, if_true] at h
      obtain ⟨⟨r, ht2⟩, w2, h2, h3⟩ := M.bind_eq_ok h
      obtain ⟨h4, -⟩ := M.pure_eq_ok h3
      simp only [Prod.mk.injEq] at h4
      obtain ⟨-, rfl⟩ := h4
      exact ih _ _ _ _ _ _ h2
    | false =>
      simp only [php_parallel_copy_hash_permanent_loop, hu, Bool.false_eq_true, if_false] at h
      obtain ⟨v, w2, -, h3⟩ := M.bind_eq_ok h
      obtain ⟨⟨r, ht2⟩, w3, h4, h5⟩ := M.bind_eq_ok h3
      obtain ⟨h6, -⟩ := M.pure_eq_ok h5
      simp only [Prod.mk.injEq] at h6
      obtain ⟨-, rfl⟩ := h6
      have := ih _ _ _ _ _ _ h4
      cases hk : q.key <;> simp only [hk] at this <;> split_ifs at this <;> exact this

theorem hash_permanent_header (E : Env) (copy : zval → Bool → M zval) (source : HashTable zval)
    (w w1 : World) (r : HashTable zval)
    (h : php_parallel_copy_hash_permanent E copy source w = .ok (r, w1)) :
    r.gc_refcount = 2 ∧
      r.gc_flags = { collectable := true, immutable := true, persistent := true } ∧
      r.pDestructor = .PARALLEL_ZVAL_DTOR := by
  unfold php_parallel_copy_hash_permanent at h
  simp only [] at h
  split_ifs at h with h0
  · obtain ⟨rfl, -⟩ := M.pure_eq_ok h
    exact ⟨rfl, rfl, rfl⟩
  · obtain ⟨⟨bs1, ht1⟩, w2, h2, h3⟩ := M.bind_eq_ok h
    obtain ⟨rfl, -⟩ := M.pure_eq_ok h3
    obtain ⟨a, b, -, -, c⟩ := permanent_loop_header E copy _ _ _ _ _ _ _ h2
    exact ⟨a, b, c⟩

theorem hash_request_header (E : Env) (copy : zval → Bool → M zval) (source : HashTable zval)
    (w w1 : World) (r : HashTable zval)
    (h : php_parallel_copy_hash_request E copy source w = .ok (r, w1)) :
    r.gc_refcount = 1 ∧
      r.gc_flags = { collectable := true, immutable := false, persistent := false } ∧
      r.pDestructor = .ZVAL_PTR_DTOR := by
  unfold php_parallel_copy_hash_request at h
  simp only [] at h
  split_ifs at h with h0 h1
  · obtain ⟨rfl, -⟩ := M.pure_eq_ok h
    exact ⟨rfl, rfl, rfl⟩
  · obtain ⟨bs1, w2, -, h3⟩ := M.bind_eq_ok h
    obtain ⟨rfl, -⟩ := M.pure_eq_ok h3
    exact ⟨rfl, rfl, rfl⟩
  · obtain ⟨bs1, w2, -, h3⟩ := M.bind_eq_ok h
    obtain ⟨rfl, -⟩ := M.pure_eq_ok h3
    exact ⟨rfl, rfl, rfl⟩

/-- C9: for every source container, whatever its own reference count and flags
(a permanent, immutable source included), the header `php_parallel_copy_hash_ctor`
returns has reference count exactly 2 and the immutable flag set in permanent
mode, and reference count exactly 1 and the immutable flag cleared in request
mode.  The call returns, with enough fuel, for every plain source. -/
theorem hash_ctor_header (E : Env) (source : HashTable zval) :
    (∀ fuel w r w1, php_parallel_copy_hash_ctor E fuel source true w = .ok (r, w1) →
      r.gc_refcount = 2 ∧ r.gc_flags.immutable = true) ∧
    (∀ fuel w r w1, php_parallel_copy_hash_ctor E fuel source false w = .ok (r, w1) →
      r.gc_refcount = 1 ∧ r.gc_flags.immutable = false) ∧
    (KeepsText E → ∀ t, source.content = some t →
      ∃ N, ∀ fuel, N ≤ fuel → ∀ persistent w,
        ∃ r, php_parallel_copy_hash_ctor E fuel source persistent w = .ok (r, w)) := by
  refine ⟨?_, ?_, ?_⟩
  · intro fuel w r w1 h
    simp only [php_parallel_copy_hash_ctor, php_parallel_copy_hash_ctor_with, if_true] at h
    obtain ⟨h1, h2, -⟩ := hash_permanent_header E _ source w w1 r h
    exact ⟨h1, by rw [h2]⟩
  · intro fuel w r w1 h
    simp only [php_parallel_copy_hash_ctor, php_parallel_copy_hash_ctor_with, Bool.false_eq_true,
      if_false] at h
    obtain ⟨h1, h2, -⟩ := hash_request_header E _ source w w1 r h
    exact ⟨h1, by rw [h2]⟩
  · intro hE t ht
    refine ⟨sizeOf t, fun fuel hfuel persistent w => ?_⟩
    obtain ⟨r, hr, -⟩ := hash_ctor_plain E hE _ fuel (zval_ctor_plain E hE fuel) source t ht hfuel
      persistent w
    exact ⟨r, hr⟩

theorem hash_ctor_header_witness :
    (∃ r, php_parallel_copy_hash_ctor exampleEnv 2
        examplePermanentTable
        true emptyWorld = .ok (r, emptyWorld) ∧
      r.gc_refcount = 2 ∧ r.gc_flags.immutable = true) ∧
    (∃ r, php_parallel_copy_hash_ctor exampleEnv 2
        examplePermanentTable
        false emptyWorld = .ok (r, emptyWorld) ∧
      r.gc_refcount = 1 ∧ r.gc_flags.immutable = false) :=
  ⟨⟨_, rfl, (hash_ctor_header exampleEnv examplePermanentTable).1 2 emptyWorld _ emptyWorld rfl⟩,
    ⟨_, rfl, (hash_ctor_header exampleEnv examplePermanentTable).2.1 2 emptyWorld _ emptyWorld rfl⟩⟩

theorem permanent_loop_undef (E : Env) (copy : zval → Bool → M zval) :
    ∀ (bs : List (Bucket zval)), (∀ b ∈ bs, b.val.is_undef = true) →
      ∀ (idx : Nat) (ht : HashTable zval) (w : World),
        php_parallel_copy_hash_permanent_loop E copy bs idx ht w = .ok ((bs, ht), w) := by
  intro bs
  induction bs with
  | nil => intro _ idx ht w; rfl
  | cons q rest ih =>
    intro h idx ht w
    have hq : q.val.is_undef = true := h q (List.mem_cons_self _ _)
    simp only [php_parallel_copy_hash_permanent_loop, hq, if_true]
    rw [M.bind_ok _ _ _ _ _ (ih (fun b hb => h b (List.mem_cons_of_mem _ hb)) (idx + 1) ht w)]
    rfl

/-- C6 (amended): for every source container whose used-slot count is zero,
the permanent-mode duplicate is backed by the shared empty-bucket sentinel, with
no bucket in it, next-free integer key 0 and the minimum table mask.  A source
whose used-slot count is not zero and whose slots are all undefined is not
treated so: its duplicate gets duplicated backing storage, keeps the table mask
of the source and the undefined slots, and has next-free integer key 0. -/
theorem hash_permanent_no_live_slots (E : Env) (fuel : Nat) (source : HashTable zval)
    (w : World) :
    (source.nNumUsed = 0 →
      ∃ r, php_parallel_copy_hash_ctor E fuel source true w = .ok (r, w) ∧
        r.data = .php_parallel_copy_uninitialized_bucket ∧ r.arData = [] ∧
        r.nNextFreeElement = 0 ∧ r.nTableMask = HT_MIN_MASK) ∧
    (source.nNumUsed ≠ 0 → (∀ b ∈ source.arData, b.val.is_undef = true) →
      ∃ r, php_parallel_copy_hash_ctor E fuel source true w = .ok (r, w) ∧
        r.data = .allocated true ∧ r.arData = source.arData ∧
        r.nNextFreeElement = 0 ∧ r.nTableMask = source.nTableMask) := by
  constructor
  · intro h0
    have h1 : (php_parallel_copy_hash_permanent_header source).nNumUsed = 0 := h0
    have h2 : source.arData = [] := List.length_eq_zero.mp h0
    refine ⟨{ php_parallel_copy_hash_permanent_header source with
      flags := HASH_FLAG_UNINITIALIZED, nNextFreeElement := 0, nTableMask := HT_MIN_MASK,
      data := .php_parallel_copy_uninitialized_bucket }, ?_, rfl, ?_, rfl, rfl⟩
    · simp only [php_parallel_copy_hash_ctor, php_parallel_copy_hash_ctor_with, if_true,
        php_parallel_copy_hash_permanent]
      rw [if_pos h1]
      rfl
    · exact h2
  · intro h0 hall
    have h1 : ¬ (php_parallel_copy_hash_permanent_header source).nNumUsed = 0 := h0
    refine ⟨{ php_parallel_copy_hash_permanent_header source with
      nNextFreeElement := 0, nInternalPointer := HT_INVALID_IDX, data := .allocated true },
      ?_, rfl, rfl, rfl, rfl⟩
    simp only [php_parallel_copy_hash_ctor, php_parallel_copy_hash_ctor_with, if_true,
      php_parallel_copy_hash_permanent]
    rw [if_neg h1]
    exact M.bind_ok _ _ _ _ _ (permanent_loop_undef E _ source.arData hall 0 _ w)

theorem hash_permanent_no_live_slots_witness :
    ∃ r, php_parallel_copy_hash_ctor exampleEnv 0 (mkTable [] false) true emptyWorld =
        .ok (r, emptyWorld) ∧
      r.data = .php_parallel_copy_uninitialized_bucket ∧ r.arData = [] ∧
      r.nNextFreeElement = 0 ∧ r.nTableMask = HT_MIN_MASK :=
  (hash_permanent_no_live_slots exampleEnv 0 (mkTable [] false) emptyWorld).1 rfl

/-- C6 fails as stated: a table whose only slot is a deleted (undefined) one has
no live slot, yet its permanent duplicate is not backed by the sentinel: it owns
a permanent allocation and keeps the source's table mask, which is not the
minimum mask. -/
theorem hash_permanent_deleted_slot_counterexample :
    (∀ b ∈ (mkTable [{ val := .undef, h := 0, key := none }] false).arData,
      b.val.is_undef = true) ∧
    ∃ r, php_parallel_copy_hash_ctor exampleEnv 0
        (mkTable [{ val := .undef, h := 0, key := none }] false) true emptyWorld =
        .ok (r, emptyWorld) ∧
      r.data = .allocated true ∧ r.data ≠ .php_parallel_copy_uninitialized_bucket ∧
      r.nTableMask = 4294967288 ∧ r.nTableMask ≠ HT_MIN_MASK :=
  ⟨by simp [mkTable, zval.is_undef], _, rfl, rfl, by simp, rfl, by decide⟩

theorem cachedWorld_eq :
    php_parallel_copy_function exampleEnv 2 exampleFunction true emptyWorld =
      .ok (some { addr := 1, func := exampleCachedFunction }, cachedWorld) := rfl

theorem copy_function_request_twice_witness :
    (∃ e w1,
      php_parallel_copy_function exampleEnv 2 exampleFunction false cachedWorld =
        .ok (some e, w1) ∧
      zend_hash_find_ptr w1.g.uncopied exampleFunction.opcodes = some e ∧
      php_parallel_copy_function exampleEnv 2 exampleFunction false w1 = .ok (some e, w1)) ∧
    (∃ N, ∀ fuel, N ≤ fuel →
      ∃ e w1,
        php_parallel_copy_function exampleEnv fuel exampleFunction false cachedWorld =
          .ok (some e, w1)) :=
  ⟨⟨_, _, rfl,
    ((copy_function_request_twice exampleEnv exampleFunction cachedWorld).1 2 _ _ rfl).1,
    ((copy_function_request_twice exampleEnv exampleFunction cachedWorld).1 2 _ _ rfl).2 2⟩,
    (copy_function_request_twice exampleEnv exampleFunction cachedWorld).2 _ rfl ⟨rfl, rfl⟩
      exampleCachedFunction_plain⟩

/-- C5 (amended): in either mode `php_parallel_copy_zval_ctor` maps a resource
that passes the transferable check to what `php_parallel_copy_resource` yields:
the integer descriptor when the handle is a stream whose pointer resolves and
whose cast succeeds, and null in every other case; a resource that fails the
check is not translated at all and yields the boolean `zend_is_true` gives for
it.  An integer is produced only for a checked stream handle whose cast
succeeds. -/
theorem zval_ctor_resource (E : Env) (fuel : Nat) (r : zend_resource) (persistent : Bool)
    (w : World) :
    (E.php_parallel_check_resource r = true →
      php_parallel_copy_zval_ctor E (fuel + 1) (.resource r) persistent w =
        .ok (php_parallel_copy_resource E r, w)) ∧
    (E.php_parallel_check_resource r = false →
      php_parallel_copy_zval_ctor E (fuel + 1) (.resource r) persistent w =
        .ok (.bool (E.zend_is_true (.resource r)), w)) ∧
    (∀ fd, php_parallel_copy_resource E r = .long fd ↔
      (r.type = E.php_file_le_stream ∨ r.type = E.php_file_le_pstream) ∧
        ∃ stream, r.ptr = some stream ∧ E.php_stream_cast stream = some fd) ∧
    (php_parallel_copy_resource E r = .null ∨ ∃ fd, php_parallel_copy_resource E r = .long fd) ∧
    (∀ fd, php_parallel_copy_zval_ctor E (fuel + 1) (.resource r) persistent w =
        .ok (.long fd, w) →
      E.php_parallel_check_resource r = true ∧
      (r.type = E.php_file_le_stream ∨ r.type = E.php_file_le_pstream) ∧
        ∃ stream, r.ptr = some stream ∧ E.php_stream_cast stream = some fd) := by
  have hiff : ∀ fd, php_parallel_copy_resource E r = .long fd ↔
      (r.type = E.php_file_le_stream ∨ r.type = E.php_file_le_pstream) ∧
        ∃ stream, r.ptr = some stream ∧ E.php_stream_cast stream = some fd := by
    intro fd
    unfold php_parallel_copy_resource zend_fetch_resource2_ex
    by_cases ht : r.type = E.php_file_le_stream ∨ r.type = E.php_file_le_pstream
    · simp only [ht, if_true, true_and]
      cases hp : r.ptr with
      | none => simp
      | some s =>
        cases hc : E.php_stream_cast s with
        | none => simp [hc]
        | some fd1 => simp [hc]
    · simp [ht]
  have htrue : E.php_parallel_check_resource r = true →
      php_parallel_copy_zval_ctor E (fuel + 1) (.resource r) persistent w =
        .ok (php_parallel_copy_resource E r, w) := by
    intro h
    simp only [php_parallel_copy_zval_ctor, php_parallel_copy_zval_ctor_with, h, if_true]
    rfl
  have hfalse : E.php_parallel_check_resource r = false →
      php_parallel_copy_zval_ctor E (fuel + 1) (.resource r) persistent w =
        .ok (.bool (E.zend_is_true (.resource r)), w) := by
    intro h
    simp only [php_parallel_copy_zval_ctor, php_parallel_copy_zval_ctor_with, h,
      Bool.false_eq_true, if_false]
    rfl
  refine ⟨htrue, hfalse, hiff, ?_, ?_⟩
  · unfold php_parallel_copy_resource zend_fetch_resource2_ex
    by_cases ht : r.type = E.php_file_le_stream ∨ r.type = E.php_file_le_pstream
    · simp only [ht, if_true]
      cases hp : r.ptr with
      | none => simp
      | some s =>
        cases hc : E.php_stream_cast s with
        | none => simp [hc]
        | some fd1 => simp [hc]
    · simp [ht]
  · intro fd h
    cases hck : E.php_parallel_check_resource r with
    | false =>
      rw [hfalse hck] at h
      simp at h
    | true =>
      rw [htrue hck] at h
      simp only [Except.ok.injEq, Prod.mk.injEq, and_true] at h
      exact ⟨rfl, (hiff fd).mp h⟩

theorem zval_ctor_resource_witness :
    php_parallel_copy_zval_ctor exampleEnv 1 (.resource { handle := 4, type := 2, ptr := some 9 })
        false emptyWorld = .ok (.long 9, emptyWorld) ∧
    php_parallel_copy_zval_ctor exampleEnv 1 (.resource { handle := 4, type := 2, ptr := none })
        true emptyWorld = .ok (.null, emptyWorld) :=
  ⟨(zval_ctor_resource exampleEnv 0 { handle := 4, type := 2, ptr := some 9 } false
      emptyWorld).1 rfl,
    (zval_ctor_resource exampleEnv 0 { handle := 4, type := 2, ptr := none } true
      emptyWorld).1 rfl⟩

/-- C5 fails as stated: a handle of a kind that is not transferable (type 9 is
not a stream type, the check rejects it) is not turned into null in either
mode; it becomes the boolean `true`. -/
theorem zval_ctor_resource_counterexample :
    exampleEnv.php_parallel_check_resource { handle := 5, type := 9, ptr := none } = false ∧
    php_parallel_copy_zval_ctor exampleEnv 1 (.resource { handle := 5, type := 9, ptr := none })
        false emptyWorld = .ok (.bool true, emptyWorld) ∧
    php_parallel_copy_zval_ctor exampleEnv 1 (.resource { handle := 5, type := 9, ptr := none })
        true emptyWorld = .ok (.bool true, emptyWorld) ∧
    (zval.bool true ≠ zval.null) :=
  ⟨rfl, rfl, rfl, by simp⟩

theorem GC_DELREF_pred (n : Nat) (h0 : 0 < n) : GC_DELREF n = n - 1 := by
  unfold GC_DELREF
  rw [if_neg (by omega)]

theorem hash_dtor_refcount (table : HashTable zval) (persistent : Bool) :
    (php_parallel_copy_hash_dtor table persistent).1.gc_refcount =
      GC_DELREF table.gc_refcount := by
  unfold php_parallel_copy_hash_dtor
  simp only []
  split_ifs <;> rfl

theorem hash_dtor_loop_releases (persistent : Bool) (bs : List (Bucket zval)) :
    (php_parallel_copy_hash_dtor_loop persistent bs).2 =
      bs.flatMap (bucket_releases persistent) := by
  induction bs with
  | nil => rfl
  | cons p rest ih =>
    simp only [php_parallel_copy_hash_dtor_loop, List.flatMap_cons, bucket_releases]
    cases hu : p.val.is_undef with
    | true => simp [ih]
    | false =>
      cases hk : p.key with
      | none => simp [ih]
      | some k => simp [ih]

theorem hash_dtor_terminal (table : HashTable zval) (persistent : Bool)
    (h : GC_DELREF table.gc_refcount = terminal_refcount persistent) :
    (php_parallel_copy_hash_dtor table persistent).2 =
      table.arData.flatMap (bucket_releases persistent) ++
        (if table.data ≠ .php_parallel_copy_uninitialized_bucket then
          [Release.data table.data persistent] else []) ++
        [Release.header persistent] := by
  unfold terminal_refcount at h
  unfold php_parallel_copy_hash_dtor
  simp only [h, if_true]
  rw [← hash_dtor_loop_releases]

theorem hash_dtor_not_terminal (table : HashTable zval) (persistent : Bool)
    (h : GC_DELREF table.gc_refcount ≠ terminal_refcount persistent) :
    php_parallel_copy_hash_dtor table persistent =
      ({ table with gc_refcount := GC_DELREF table.gc_refcount }, []) := by
  unfold terminal_refcount at h
  unfold php_parallel_copy_hash_dtor
  simp only [h, if_false]

theorem hash_dtor_tears_down_iff (table : HashTable zval) (persistent : Bool) :
    (php_parallel_copy_hash_dtor table persistent).2 ≠ [] ↔
      GC_DELREF table.gc_refcount = terminal_refcount persistent := by
  constructor
  · intro h
    by_contra hne
    rw [hash_dtor_not_terminal table persistent hne] at h
    exact h rfl
  · intro h
    rw [hash_dtor_terminal table persistent h]
    simp

theorem release_times_refcount (persistent : Bool) (table : HashTable zval) :
    ∀ j, j ≤ table.gc_refcount →
      (release_times persistent j table).gc_refcount = table.gc_refcount - j := by
  intro j
  induction j with
  | zero => intro _; rfl
  | succ j ih =>
    intro hj
    have := ih (by omega)
    simp only [release_times]
    rw [hash_dtor_refcount, this, GC_DELREF_pred _ (by omega)]
    omega

/-- C8: for every container and either mode, `php_parallel_copy_hash_dtor`
decrements the reference count by one (as a 32-bit unsigned count: `n - 1` for
`n > 0`) and tears the container down if and only if the decremented count
equals the terminal value, 1 for permanent and 0 for request.  A teardown
releases, for each live slot in order, the text key (freed when its count drops
to 0) and the value when it is reference counted, then the backing storage
unless it is the shared sentinel, then the header; otherwise nothing is
released.  A freshly duplicated container is torn down by its first release, and
among the first `n` releases of a container of count `n` above the terminal
value exactly the release number `n - terminal` tears it down. -/
theorem hash_dtor_release (table : HashTable zval) (persistent : Bool) :
    (php_parallel_copy_hash_dtor table persistent).1.gc_refcount =
      GC_DELREF table.gc_refcount ∧
    (0 < table.gc_refcount → GC_DELREF table.gc_refcount = table.gc_refcount - 1) ∧
    ((php_parallel_copy_hash_dtor table persistent).2 ≠ [] ↔
      GC_DELREF table.gc_refcount = terminal_refcount persistent) ∧
    (GC_DELREF table.gc_refcount = terminal_refcount persistent →
      (php_parallel_copy_hash_dtor table persistent).2 =
        table.arData.flatMap (bucket_releases persistent) ++
          (if table.data ≠ .php_parallel_copy_uninitialized_bucket then
            [Release.data table.data persistent] else []) ++
          [Release.header persistent]) ∧
    (GC_DELREF table.gc_refcount ≠ terminal_refcount persistent →
      (php_parallel_copy_hash_dtor table persistent).2 = []) ∧
    (∀ (E : Env) (fuel : Nat) (source : HashTable zval) (w w1 : World),
      php_parallel_copy_hash_ctor E fuel source persistent w = .ok (table, w1) →
      (php_parallel_copy_hash_dtor table persistent).2 ≠ []) ∧
    (terminal_refcount persistent < table.gc_refcount →
      ∀ j, 1 ≤ j → j ≤ table.gc_refcount →
        ((php_parallel_copy_hash_dtor (release_times persistent (j - 1) table) persistent).2 ≠ []
          ↔ j = table.gc_refcount - terminal_refcount persistent)) := by
  refine ⟨hash_dtor_refcount table persistent, GC_DELREF_pred _,
    hash_dtor_tears_down_iff table persistent, hash_dtor_terminal table persistent,
    fun h => by rw [hash_dtor_not_terminal table persistent h], ?_, ?_⟩
  · intro E fuel source w w1 h
    rw [hash_dtor_tears_down_iff]
    cases persistent with
    | true =>
      simp only [php_parallel_copy_hash_ctor, php_parallel_copy_hash_ctor_with, if_true] at h
      obtain ⟨h1, -⟩ := hash_permanent_header E _ source w w1 table h
      rw [h1]
      rfl
    | false =>
      simp only [php_parallel_copy_hash_ctor, php_parallel_copy_hash_ctor_with,
        Bool.false_eq_true, if_false] at h
      obtain ⟨h1, -⟩ := hash_request_header E _ source w w1 table h
      rw [h1]
      rfl
  · intro ht j hj1 hjn
    rw [hash_dtor_tears_down_iff, release_times_refcount persistent table (j - 1) (by omega),
      GC_DELREF_pred _ (by omega)]
    omega

theorem hash_dtor_release_witness :
    (php_parallel_copy_hash_dtor examplePermanentCopy true).2 ≠ [] ∧
    (php_parallel_copy_hash_dtor examplePermanentTable true).2 = [] ∧
    ((php_parallel_copy_hash_dtor (release_times true (6 - 1) examplePermanentTable) true).2 ≠ []
      ↔ 6 = examplePermanentTable.gc_refcount - terminal_refcount true) :=
  ⟨(hash_dtor_release examplePermanentCopy true).2.2.2.2.2.1 exampleEnv 2 exampleTable
      emptyWorld emptyWorld rfl,
    (hash_dtor_release examplePermanentTable true).2.2.2.2.1 (by decide),
    (hash_dtor_release examplePermanentTable true).2.2.2.2.2.2 (by decide) 6 (by decide)
      (by decide)⟩

theorem zend_hash_add_find {K V : Type} [DecidableEq K] (t : List (K × V)) (k : K) (v : V) :
    (zend_hash_find_ptr t k = none → zend_hash_find_ptr (zend_hash_add_ptr t k v).1 k = some v) ∧
    (∀ old, zend_hash_find_ptr t k = some old →
      zend_hash_find_ptr (zend_hash_add_ptr t k v).1 k = some old) := by
  constructor
  · intro h
    rw [zend_hash_add_absent t k v h]
    exact zend_hash_find_append_absent t k v h
  · intro old h
    rw [zend_hash_add_present t k v old h]
    exact h

/-- C7 (amended): `php_parallel_copy_function_use(name, unit)` duplicates the
unit in request mode and then inserts only where no entry exists.  If `name` is
absent from the context's callable table at that point, the table afterwards
maps `name` to the duplicate; if `name` is already present, its entry is kept.
Likewise the `used` side table afterwards maps the duplicate's identity to
`name` if that identity was absent, and keeps the name it has if the unit was
already registered.  The call returns, with enough fuel, when the unit has a
permanent cache entry whose static variables are absent or plain and the loader
leaves the unit's own entries alone. -/
theorem function_use_registers (E : Env) (key : zend_string) (f : zend_function zval)
    (w : World) :
    (∀ fuel d w1, php_parallel_copy_function E fuel f false w = .ok (d, w1) →
      ∃ w2, php_parallel_copy_function_use E fuel key f w = .ok ((), w2) ∧
        (zend_hash_find_ptr w1.g.function_table key.val = none →
          zend_hash_find_ptr w2.g.function_table key.val = some d) ∧
        (∀ old, zend_hash_find_ptr w1.g.function_table key.val = some old →
          zend_hash_find_ptr w2.g.function_table key.val = some old) ∧
        (zend_hash_find_ptr w1.g.used (FuncRef.to_ulong d) = none →
          zend_hash_find_ptr w2.g.used (FuncRef.to_ulong d) = some key) ∧
        (∀ old, zend_hash_find_ptr w1.g.used (FuncRef.to_ulong d) = some old →
          zend_hash_find_ptr w2.g.used (FuncRef.to_ulong d) = some old) ∧
        w2.g.uncopied = w1.g.uncopied ∧ w2.g.cache = w1.g.cache ∧ w2.trace = w1.trace) ∧
    (∀ cached, zend_hash_find_ptr w.g.cache f.opcodes = some cached →
      LoaderKeeps E f w.g →
      PlainStatics E cached.func →
      ∃ N, ∀ fuel, N ≤ fuel →
        ∃ w2, php_parallel_copy_function_use E fuel key f w = .ok ((), w2)) := by
  constructor
  · intro fuel d w1 h
    refine ⟨{ w1 with g := { w1.g with
        function_table := (zend_hash_add_ptr w1.g.function_table key.val d).1
        used := (zend_hash_add_ptr w1.g.used (FuncRef.to_ulong d) key).1 } }, ?_, ?_⟩
    · simp only [php_parallel_copy_function_use, h]
    · exact ⟨(zend_hash_add_find _ _ _).1, (zend_hash_add_find _ _ _).2,
        (zend_hash_add_find _ _ _).1, (zend_hash_add_find _ _ _).2, rfl, rfl, rfl⟩
  · intro cached hcache hload hs
    obtain ⟨N, hN⟩ := copy_function_request_total E f w cached hcache hload hs
    refine ⟨N, fun fuel hfuel => ?_⟩
    obtain ⟨e, w1, h⟩ := hN fuel hfuel
    exact ⟨{ w1 with g := { w1.g with
        function_table := (zend_hash_add_ptr w1.g.function_table key.val (some e)).1
        used := (zend_hash_add_ptr w1.g.used (FuncRef.to_ulong (some e)) key).1 } },
      by simp only [php_parallel_copy_function_use, h]⟩

theorem function_use_registers_witness :
    (∃ d w1 w2,
      php_parallel_copy_function exampleEnv 2 exampleFunction false cachedWorld = .ok (d, w1) ∧
      php_parallel_copy_function_use exampleEnv 2 (mkString "foo") exampleFunction cachedWorld =
        .ok ((), w2) ∧
      zend_hash_find_ptr w2.g.function_table "foo" = some d ∧
      zend_hash_find_ptr w2.g.used (FuncRef.to_ulong d) = some (mkString "foo")) ∧
    (∃ N, ∀ fuel, N ≤ fuel →
      ∃ w2, php_parallel_copy_function_use exampleEnv fuel (mkString "foo") exampleFunction
        cachedWorld = .ok ((), w2)) := by
  obtain ⟨w2, h2, h3, -, h4, -⟩ :=
    (function_use_registers exampleEnv (mkString "foo") exampleFunction cachedWorld).1 2 _ _ rfl
  exact ⟨⟨_, _, w2, rfl, h2, h3 rfl, h4 rfl⟩,
    (function_use_registers exampleEnv (mkString "foo") exampleFunction cachedWorld).2 _ rfl
      ⟨rfl, rfl⟩ exampleCachedFunction_plain⟩

/-- C7 fails as stated: with the name `foo` already in the callable table, bound
to the function object at address 77, registering the example unit under `foo`
duplicates it (the duplicate is the object at address 2) and leaves `foo` bound
to the object at address 77. -/
theorem function_use_name_present_counterexample :
    ∃ d w1 w2,
      php_parallel_copy_function exampleEnv 2 exampleFunction false fooWorld =
        .ok (some d, w1) ∧
      php_parallel_copy_function_use exampleEnv 2 (mkString "foo") exampleFunction fooWorld =
        .ok ((), w2) ∧
      d.addr = 2 ∧
      (zend_hash_find_ptr w2.g.function_table "foo").map (Option.map FuncRef.addr) =
        some (some 77) :=
  ⟨_, _, _, rfl, rfl, rfl, rfl⟩

theorem closure_request_ok (E : Env) (copy : zval → Bool → M zval) (closure : zend_closure zval)
    (w w1 : World) (v : zval)
    (h : php_parallel_copy_closure E copy closure false w = .ok (v, w1)) :
    ∃ cp, v = .object (.closure cp) 0 ∧ cp.this_ptr = .undef ∧
      cp.called_scope =
        (match closure.called_scope with
          | some scope => E.zend_lookup_class scope.name
          | none => none) := by
  unfold php_parallel_copy_closure at h
  simp only [Bool.false_eq_true, if_false] at h
  cases hf : php_parallel_copy_function_with E copy closure.func false w with
  | error e => simp [hf] at h
  | ok p =>
    obtain ⟨r, w2⟩ := p
    cases r with
    | none => simp [hf] at h
    | some r =>
      simp only [hf] at h
      cases hs : r.func.static_variables with
      | none =>
        simp only [hs] at h
        simp only [Except.ok.injEq, Prod.mk.injEq] at h
        obtain ⟨rfl, -⟩ := h
        exact ⟨_, rfl, rfl, rfl⟩
      | some sv =>
        simp only [hs] at h
        cases hh : php_parallel_copy_hash_ctor_with E copy sv false w2 with
        | error e => simp [hh] at h
        | ok p2 =>
          obtain ⟨sv1, w3⟩ := p2
          simp only [hh] at h
          simp only [Except.ok.injEq, Prod.mk.injEq] at h
          obtain ⟨rfl, -⟩ := h
          exact ⟨_, rfl, rfl, rfl⟩

theorem closure_permanent_ok (E : Env) (copy : zval → Bool → M zval) (closure : zend_closure zval)
    (w w1 : World) (v : zval)
    (h : php_parallel_copy_closure E copy closure true w = .ok (v, w1)) :
    ∃ cp, v = .object (.closure cp) 1 := by
  unfold php_parallel_copy_closure at h
  simp only [if_true] at h
  split at h
  · simp at h
  · split at h
    · simp at h
    · simp at h
    · simp only [Except.ok.injEq, Prod.mk.injEq] at h
      obtain ⟨rfl, -⟩ := h
      exact ⟨_, rfl⟩

theorem closure_request_statics (E : Env) (copy : zval → Bool → M zval) (K : Nat)
    (hcopy : CopiesPlain copy K) (closure : zend_closure zval) (w w1 : World) (e : FuncRef)
    (hf : php_parallel_copy_function_with E copy closure.func false w = .ok (some e, w1))
    (hs : e.func.static_variables = none ∨
      (KeepsText E ∧ ∃ sv t, e.func.static_variables = some sv ∧ sv.content = some t ∧
        sizeOf t ≤ K)) :
    ∃ v w2, php_parallel_copy_closure E copy closure false w = .ok (v, w2) := by
  unfold php_parallel_copy_closure
  simp only [Bool.false_eq_true, if_false, hf]
  rcases hs with hs | ⟨hE, sv, t, hs, ht, hK⟩
  · simp only [hs]
    exact ⟨_, _, rfl⟩
  · obtain ⟨r, hr, -⟩ := hash_ctor_plain E hE copy K hcopy sv t ht hK false w1
    simp only [hs, hr]
    exact ⟨_, _, rfl⟩

theorem closure_request_returns (E : Env) (closure : zend_closure zval) (w : World)
    (h : (∃ e, zend_hash_find_ptr w.g.uncopied closure.func.opcodes = some e ∧
          PlainStatics E e.func) ∨
        (∃ cached, zend_hash_find_ptr w.g.cache closure.func.opcodes = some cached ∧
          zend_hash_find_ptr w.g.uncopied closure.func.opcodes = none ∧
          LoaderKeeps E closure.func w.g ∧ PlainStatics E cached.func)) :
    ∃ N, ∀ fuel, N ≤ fuel →
      ∃ v w1, php_parallel_copy_closure E (php_parallel_copy_zval_ctor E fuel) closure false w =
        .ok (v, w1) := by
  have hcp0 : ∀ fuel, CopiesPlain (php_parallel_copy_zval_ctor E fuel) 0 := by
    intro fuel v c _ hsz
    have := Content.sizeOf_pos c
    omega
  rcases h with ⟨e, he, hs⟩ | ⟨cached, hcache, hmiss, hload, hs⟩
  · have hf : ∀ fuel, php_parallel_copy_function_with E (php_parallel_copy_zval_ctor E fuel)
        closure.func false w = .ok (some e, w) := by
      intro fuel
      simp only [php_parallel_copy_function_with, Bool.false_eq_true, if_false]
      exact copy_function_request_hit E _ closure.func w e he
    rcases hs with hs | ⟨hE, sv, t, hs, ht⟩
    · exact ⟨0, fun fuel _ =>
        closure_request_statics E _ 0 (hcp0 fuel) closure w w e (hf fuel) (Or.inl hs)⟩
    · exact ⟨sizeOf t, fun fuel hfuel =>
        closure_request_statics E _ fuel (zval_ctor_plain E hE fuel) closure w w e (hf fuel)
          (Or.inr ⟨hE, sv, t, hs, ht, hfuel⟩)⟩
  · rcases hs with hs | ⟨hE, sv, t, hs, ht⟩
    · refine ⟨0, fun fuel _ => ?_⟩
      obtain ⟨e, w1, h1, h2, -⟩ := copy_function_request_returns E
        (php_parallel_copy_zval_ctor E fuel) 0 (hcp0 fuel) closure.func w cached hload hcache
        hmiss (Or.inl hs)
      have hf : php_parallel_copy_function_with E (php_parallel_copy_zval_ctor E fuel)
          closure.func false w = .ok (some e, w1) := by
        simp only [php_parallel_copy_function_with, Bool.false_eq_true, if_false]
        exact h1
      exact closure_request_statics E _ 0 (hcp0 fuel) closure w w1 e hf (Or.inl (h2 hs))
    · refine ⟨sizeOf t, fun fuel hfuel => ?_⟩
      obtain ⟨e, w1, h1, -, h3⟩ := copy_function_request_returns E
        (php_parallel_copy_zval_ctor E fuel) fuel (zval_ctor_plain E hE fuel) closure.func w
        cached hload hcache hmiss (Or.inr ⟨hE, sv, t, hs, ht, hfuel⟩)
      have hf : php_parallel_copy_function_with E (php_parallel_copy_zval_ctor E fuel)
          closure.func false w = .ok (some e, w1) := by
        simp only [php_parallel_copy_function_with, Bool.false_eq_true, if_false]
        exact h1
      obtain ⟨sv1, hsv1, hc1⟩ := h3 sv t hs ht
      exact closure_request_statics E _ fuel (zval_ctor_plain E hE fuel) closure w w1 e hf
        (Or.inr ⟨hE, sv1, t, hsv1, hc1, hfuel⟩)

/-- C10: for every closure, the request-mode duplicate `php_parallel_copy_closure`
produces has its bound receiver unset; its bound scope is what
`zend_lookup_class` finds for the name of the source's scope when the source
carries one (none when the lookup fails, never a fault) and none when the source
carries none; and the origin tag of the result value is the requested mode (0
for request, 1 for permanent).  The request-mode call returns, with enough fuel,
when the closure's code unit is already instantiated in the context, or has a
permanent cache entry and a loader that leaves the unit's own entries alone, the
static variables of that instance or entry being absent or plain. -/
theorem closure_request_duplicate (E : Env) (closure : zend_closure zval) (w : World) :
    (∀ fuel v w1,
      php_parallel_copy_closure E (php_parallel_copy_zval_ctor E fuel) closure false w =
        .ok (v, w1) →
      ∃ cp, v = .object (.closure cp) 0 ∧ cp.this_ptr = .undef ∧
        cp.called_scope =
          (match closure.called_scope with
            | some scope => E.zend_lookup_class scope.name
            | none => none)) ∧
    (∀ fuel v w1,
      php_parallel_copy_closure E (php_parallel_copy_zval_ctor E fuel) closure true w =
        .ok (v, w1) →
      ∃ cp, v = .object (.closure cp) 1) ∧
    (((∃ e, zend_hash_find_ptr w.g.uncopied closure.func.opcodes = some e ∧
          PlainStatics E e.func) ∨
        (∃ cached, zend_hash_find_ptr w.g.cache closure.func.opcodes = some cached ∧
          zend_hash_find_ptr w.g.uncopied closure.func.opcodes = none ∧
          LoaderKeeps E closure.func w.g ∧ PlainStatics E cached.func)) →
      ∃ N, ∀ fuel, N ≤ fuel →
        ∃ v w1, php_parallel_copy_closure E (php_parallel_copy_zval_ctor E fuel) closure false w =
          .ok (v, w1)) :=
  ⟨fun _ v w1 h => closure_request_ok E _ closure w w1 v h,
    fun _ v w1 h => closure_permanent_ok E _ closure w w1 v h,
    closure_request_returns E closure w⟩

theorem closure_request_duplicate_witness :
    (∃ v w1,
      php_parallel_copy_closure exampleEnv (php_parallel_copy_zval_ctor exampleEnv 2)
        exampleClosure false cachedWorld = .ok (v, w1) ∧
      ∃ cp, v = .object (.closure cp) 0 ∧ cp.this_ptr = .undef ∧ cp.called_scope = none) ∧
    (∃ N, ∀ fuel, N ≤ fuel →
      ∃ v w1, php_parallel_copy_closure exampleEnv (php_parallel_copy_zval_ctor exampleEnv fuel)
        exampleClosure false cachedWorld = .ok (v, w1)) :=
  ⟨⟨_, _, rfl, (closure_request_duplicate exampleEnv exampleClosure cachedWorld).1 2 _ _ rfl⟩,
    (closure_request_duplicate exampleEnv exampleClosure cachedWorld).2.2
      (Or.inr ⟨_, rfl, rfl, ⟨rfl, rfl⟩, exampleCachedFunction_plain⟩)⟩

/-- C13: for every object value whose class is not the closure class,
`php_parallel_copy_zval_ctor` yields the boolean `true` in both modes, whatever
the object is (nothing of it is carried into the result) and with the state
unchanged; an object of the closure class, and only such an object, is handed
to `php_parallel_copy_closure`. -/
theorem zval_ctor_object (E : Env) (fuel : Nat) (persistent : Bool) (w : World) :
    (∀ ce extra, php_parallel_copy_zval_ctor E (fuel + 1) (.object (.other ce) extra)
        persistent w = .ok (.bool true, w)) ∧
    (∀ c extra, php_parallel_copy_zval_ctor E (fuel + 1) (.object (.closure c) extra)
        persistent w =
      php_parallel_copy_closure E (php_parallel_copy_zval_ctor E fuel) c persistent w) :=
  ⟨fun _ _ => rfl, fun _ _ => rfl⟩

theorem hash_ctor_empty (E : Env) (fuel : Nat) (source : HashTable zval) (persistent : Bool)
    (w : World) (h0 : source.nNumUsed = 0) :
    ∃ r, php_parallel_copy_hash_ctor E fuel source persistent w = .ok (r, w) ∧
      r.data = .php_parallel_copy_uninitialized_bucket ∧ r.arData = [] ∧
      r.gc_refcount = (if persistent then 2 else 1) ∧
      r.nTableMask = (if persistent then HT_MIN_MASK else source.nTableMask) := by
  have h2 : source.arData = [] := List.length_eq_zero.mp h0
  cases persistent with
  | true =>
    have h1 : (php_parallel_copy_hash_permanent_header source).nNumUsed = 0 := h0
    refine ⟨{ php_parallel_copy_hash_permanent_header source with
      flags := HASH_FLAG_UNINITIALIZED, nNextFreeElement := 0, nTableMask := HT_MIN_MASK,
      data := .php_parallel_copy_uninitialized_bucket }, ?_, rfl, h2, rfl, rfl⟩
    simp only [php_parallel_copy_hash_ctor, php_parallel_copy_hash_ctor_with, if_true,
      php_parallel_copy_hash_permanent]
    rw [if_pos h1]
    rfl
  | false =>
    have h1 : (php_parallel_copy_hash_request_header source).nNumUsed = 0 := h0
    refine ⟨{ php_parallel_copy_hash_request_header source with
      data := .php_parallel_copy_uninitialized_bucket }, ?_, rfl, h2, rfl, rfl⟩
    simp only [php_parallel_copy_hash_ctor, php_parallel_copy_hash_ctor_with,
      Bool.false_eq_true, if_false, php_parallel_copy_hash_request]
    rw [if_pos h1]
    rfl

theorem hash_dtor_empty_sentinel (table : HashTable zval) (persistent : Bool)
    (hd : table.data = .php_parallel_copy_uninitialized_bucket) (ha : table.arData = [])
    (ht : GC_DELREF table.gc_refcount = terminal_refcount persistent) :
    (php_parallel_copy_hash_dtor table persistent).2 = [Release.header persistent] := by
  rw [hash_dtor_terminal table persistent ht, ha, hd]
  simp

/-- C15: for every empty source container (zero used slots), the permanent-mode
and the request-mode duplicate are both backed by the shared empty-bucket
sentinel and hold no slot, and the release that brings either duplicate to its
terminal count (the first release of the fresh duplicate) frees the header and
nothing else: no slot is visited and the sentinel storage is not freed.  The
same holds for every release of a slot-less, sentinel-backed container that
reaches the terminal count. -/
theorem hash_ctor_empty_release (E : Env) (fuel : Nat) (source : HashTable zval)
    (persistent : Bool) (w : World) (h0 : source.nNumUsed = 0) :
    (∃ r, php_parallel_copy_hash_ctor E fuel source persistent w = .ok (r, w) ∧
      r.data = .php_parallel_copy_uninitialized_bucket ∧ r.arData = [] ∧
      (php_parallel_copy_hash_dtor r persistent).2 = [Release.header persistent]) ∧
    (∀ table : HashTable zval, table.data = .php_parallel_copy_uninitialized_bucket →
      table.arData = [] → GC_DELREF table.gc_refcount = terminal_refcount persistent →
      (php_parallel_copy_hash_dtor table persistent).2 = [Release.header persistent]) := by
  refine ⟨?_, fun table hd ha ht => hash_dtor_empty_sentinel table persistent hd ha ht⟩
  obtain ⟨r, hr, hd, ha, hc, -⟩ := hash_ctor_empty E fuel source persistent w h0
  refine ⟨r, hr, hd, ha, hash_dtor_empty_sentinel r persistent hd ha ?_⟩
  rw [hc]
  cases persistent <;> rfl

theorem hash_ctor_empty_release_witness :
    (∃ r, php_parallel_copy_hash_ctor exampleEnv 0 (mkTable [] false) true emptyWorld =
        .ok (r, emptyWorld) ∧
      r.data = .php_parallel_copy_uninitialized_bucket ∧ r.arData = [] ∧
      (php_parallel_copy_hash_dtor r true).2 = [Release.header true]) ∧
    (∃ r, php_parallel_copy_hash_ctor exampleEnv 0 (mkTable [] false) false emptyWorld =
        .ok (r, emptyWorld) ∧
      r.data = .php_parallel_copy_uninitialized_bucket ∧ r.arData = [] ∧
      (php_parallel_copy_hash_dtor r false).2 = [Release.header false]) :=
  ⟨(hash_ctor_empty_release exampleEnv 0 (mkTable [] false) true emptyWorld rfl).1,
    (hash_ctor_empty_release exampleEnv 0 (mkTable [] false) false emptyWorld rfl).1⟩

theorem hash_permanent_data (E : Env) (copy : zval → Bool → M zval) (source : HashTable zval)
    (w w1 : World) (r : HashTable zval)
    (h : php_parallel_copy_hash_permanent E copy source w = .ok (r, w1)) :
    (source.nNumUsed = 0 ∧ r.data = .php_parallel_copy_uninitialized_bucket ∧
        r.nTableMask = HT_MIN_MASK) ∨
      (source.nNumUsed ≠ 0 ∧ r.data = .allocated true ∧ r.nTableMask = source.nTableMask) := by
  unfold php_parallel_copy_hash_permanent at h
  simp only [] at h
  split_ifs at h with h0
  · obtain ⟨rfl, -⟩ := M.pure_eq_ok h
    exact Or.inl ⟨h0, rfl, rfl⟩
  · obtain ⟨⟨bs1, ht1⟩, w2, h2, h3⟩ := M.bind_eq_ok h
    obtain ⟨rfl, -⟩ := M.pure_eq_ok h3
    obtain ⟨-, -, c, d, -⟩ := permanent_loop_header E copy _ _ _ _ _ _ _ h2
    exact Or.inr ⟨h0, c, d⟩

theorem hash_request_data (E : Env) (copy : zval → Bool → M zval) (source : HashTable zval)
    (w w1 : World) (r : HashTable zval)
    (h : php_parallel_copy_hash_request E copy source w = .ok (r, w1)) :
    (source.nNumUsed = 0 ∧ r.data = .php_parallel_copy_uninitialized_bucket ∨
        source.nNumUsed ≠ 0 ∧ r.data = .allocated false) ∧
      r.nTableMask = source.nTableMask ∧ r.flags = source.flags := by
  unfold php_parallel_copy_hash_request at h
  simp only [] at h
  split_ifs at h with h0 h1
  · obtain ⟨rfl, -⟩ := M.pure_eq_ok h
    exact ⟨Or.inl ⟨h0, rfl⟩, rfl, rfl⟩
  · obtain ⟨bs1, w2, -, h3⟩ := M.bind_eq_ok h
    obtain ⟨rfl, -⟩ := M.pure_eq_ok h3
    exact ⟨Or.inr ⟨h0, rfl⟩, rfl, rfl⟩
  · obtain ⟨bs1, w2, -, h3⟩ := M.bind_eq_ok h
    obtain ⟨rfl, -⟩ := M.pure_eq_ok h3
    exact ⟨Or.inr ⟨h0, rfl⟩, rfl, rfl⟩

/-- C19, evaluated on the code: in permanent mode every returned container that
is backed by the shared sentinel has the minimum table mask; in request mode a
returned container is backed by the sentinel exactly when the source has zero
used slots, and it then carries the table mask of the source, whatever that is.
For the empty table with mask `(uint32_t) -8` the request-mode duplicate is
backed by the two-entry sentinel and keeps the mask `(uint32_t) -8`, which is not
the minimum mask. -/
theorem hash_ctor_sentinel_mask (E : Env) (fuel : Nat) (source : HashTable zval) (w : World) :
    (∀ r w1, php_parallel_copy_hash_ctor E fuel source true w = .ok (r, w1) →
      r.data = .php_parallel_copy_uninitialized_bucket → r.nTableMask = HT_MIN_MASK) ∧
    (∀ r w1, php_parallel_copy_hash_ctor E fuel source false w = .ok (r, w1) →
      (r.data = .php_parallel_copy_uninitialized_bucket ↔ source.nNumUsed = 0) ∧
      r.nTableMask = source.nTableMask) ∧
    (∃ r, php_parallel_copy_hash_ctor exampleEnv 0 (mkTable [] false) false emptyWorld =
        .ok (r, emptyWorld) ∧
      r.data = .php_parallel_copy_uninitialized_bucket ∧ r.nTableMask = 4294967288 ∧
      r.nTableMask ≠ HT_MIN_MASK) := by
  refine ⟨?_, ?_, ⟨_, rfl, rfl, rfl, by decide⟩⟩
  · intro r w1 h hd
    simp only [php_parallel_copy_hash_ctor, php_parallel_copy_hash_ctor_with, if_true] at h
    rcases hash_permanent_data E _ source w w1 r h with ⟨-, -, hm⟩ | ⟨-, hd2, -⟩
    · exact hm
    · rw [hd2] at hd
      cases hd
  · intro r w1 h
    simp only [php_parallel_copy_hash_ctor, php_parallel_copy_hash_ctor_with,
      Bool.false_eq_true, if_false] at h
    obtain ⟨hd, hm, -⟩ := hash_request_data E _ source w w1 r h
    refine ⟨?_, hm⟩
    rcases hd with ⟨h0, hd⟩ | ⟨h0, hd⟩
    · exact ⟨fun _ => h0, fun _ => hd⟩
    · constructor
      · intro hs
        rw [hd] at hs
        cases hs
      · intro hz
        exact absurd hz h0

theorem copy_function_request_miss (E : Env) (copy : zval → Bool → M zval)
    (function : zend_function zval) (w w1 : World) (e : FuncRef)
    (hmiss : zend_hash_find_ptr w.g.uncopied function.opcodes = none)
    (h : php_parallel_copy_function_request E copy function w = .ok (some e, w1)) :
    ∃ cached,
      zend_hash_find_ptr (php_parallel_copy_auto_globals_activate function
          (w.call (Event.php_parallel_dependencies_load function)
            (E.php_parallel_dependencies_load function))).g.cache function.opcodes =
        some cached ∧
      e.addr = (E.php_parallel_dependencies_load function w.g).brk ∧
      e.func.run_time_cache = .map_ptr_new ∧
      e.func.cache_size = cached.func.cache_size ∧
      e.func.opcodes = cached.func.opcodes ∧
      (cached.func.static_variables = none ∧ e.func.static_variables = none ∨
        ∃ S sv wb wc, cached.func.static_variables = some S ∧
          php_parallel_copy_hash_ctor_with E copy S false wb = .ok (sv, wc) ∧
          e.func.static_variables = some sv) := by
  have ha := activate_g function (w.call (Event.php_parallel_dependencies_load function)
        (E.php_parallel_dependencies_load function))
  unfold php_parallel_copy_function_request at h
  simp only [hmiss] at h
  generalize php_parallel_copy_auto_globals_activate function
      (w.call (Event.php_parallel_dependencies_load function)
        (E.php_parallel_dependencies_load function)) = wa at h ha ⊢
  have hbrk : wa.g.brk = (E.php_parallel_dependencies_load function w.g).brk := ha.2.2
  cases hc : zend_hash_find_ptr wa.g.cache function.opcodes with
  | none => simp [hc] at h
  | some cached =>
    simp only [hc] at h
    refine ⟨cached, rfl, ?_⟩
    cases hs : cached.func.static_variables with
    | none =>
      simp only [hs] at h
      generalize hadd : zend_hash_add_ptr (php_parallel_copy_mem_function wa).2.g.uncopied
        function.opcodes _ = added at h
      obtain ⟨t, b⟩ := added
      cases b with
      | false => simp at h
      | true =>
        simp at h
        obtain ⟨rfl, -⟩ := h
        exact ⟨hbrk, rfl, rfl, rfl, Or.inl ⟨rfl, rfl⟩⟩
    | some sv =>
      simp only [hs] at h
      cases hh : php_parallel_copy_hash_ctor_with E copy sv false
          (php_parallel_copy_mem_function wa).2 with
      | error err => simp [hh] at h
      | ok p =>
        obtain ⟨sv1, w2⟩ := p
        simp only [hh] at h
        generalize hadd : zend_hash_add_ptr w2.g.uncopied function.opcodes _ = added at h
        obtain ⟨t, b⟩ := added
        cases b with
        | false => simp at h
        | true =>
          simp at h
          obtain ⟨rfl, -⟩ := h
          exact ⟨hbrk, rfl, rfl, rfl, Or.inr ⟨sv, sv1, _, _, rfl, hh, rfl⟩⟩

/-- C18 (amended): for every code unit whose permanent cache entry exists, the
instance the first request-mode `php_parallel_copy_function` in a context
returns has its execution-cache field reset to a fresh, empty slot
(`ZEND_MAP_PTR_NEW`), whatever the field of the permanent entry holds, and keeps
the declared cache size of the permanent entry; no buffer is allocated or
zeroed by this path (the closure duplicator allocates one for closures).  The
call returns an instance, with enough fuel, when the entry's static variables
are absent or plain and the loader leaves the unit's own entries alone. -/
theorem copy_function_request_run_time_cache (E : Env) (f : zend_function zval) (w : World)
    (hfirst : zend_hash_find_ptr w.g.uncopied f.opcodes = none) :
    (∀ fuel e w1, php_parallel_copy_function E fuel f false w = .ok (some e, w1) →
      e.func.run_time_cache = .map_ptr_new ∧
      (∀ cells, e.func.run_time_cache ≠ .heap cells) ∧
      ∃ cached, zend_hash_find_ptr
          (E.php_parallel_dependencies_load f w.g).cache f.opcodes = some cached ∧
        e.func.cache_size = cached.func.cache_size) ∧
    (∀ cached, zend_hash_find_ptr w.g.cache f.opcodes = some cached →
      LoaderKeeps E f w.g → PlainStatics E cached.func →
      ∃ N, ∀ fuel, N ≤ fuel →
        ∃ e w1, php_parallel_copy_function E fuel f false w = .ok (some e, w1)) := by
  refine ⟨?_, fun cached hc hl hs => copy_function_request_total E f w cached hc hl hs⟩
  intro fuel e w1 h
  simp only [php_parallel_copy_function, php_parallel_copy_function_with, Bool.false_eq_true,
    if_false] at h
  obtain ⟨cached, hc, -, hr, hsz, -⟩ := copy_function_request_miss E _ f w w1 e hfirst h
  refine ⟨hr, ?_, cached, ?_, hsz⟩
  · intro cells hcells
    rw [hr] at hcells
    cases hcells
  · rw [(activate_g f _).1] at hc
    exact hc

theorem copy_function_request_run_time_cache_witness :
    ∃ e w1, php_parallel_copy_function exampleEnv 2 exampleFunction false cachedWorld =
        .ok (some e, w1) ∧
      e.func.run_time_cache = .map_ptr_new ∧ e.func.cache_size = 16 := by
  obtain ⟨h1, -, cached, h2, h3⟩ :=
    (copy_function_request_run_time_cache exampleEnv exampleFunction cachedWorld rfl).1 2 _ _ rfl
  exact ⟨_, _, rfl, h1, rfl⟩

/-- C18 fails as stated: the instance the first request-mode duplication of the
example unit returns (declared cache size 16) carries no zero-filled buffer of
16 bytes; its execution-cache field is the empty slot. -/
theorem copy_function_request_no_buffer_counterexample :
    ∃ e w1, php_parallel_copy_function exampleEnv 2 exampleFunction false cachedWorld =
        .ok (some e, w1) ∧
      e.func.cache_size = 16 ∧
      e.func.run_time_cache = .map_ptr_new ∧
      e.func.run_time_cache ≠ .heap (List.replicate 16 0) :=
  ⟨_, _, rfl, rfl, rfl, by decide⟩

theorem closure_permanent_fields (E : Env) (copy : zval → Bool → M zval)
    (closure : zend_closure zval) (w w1 : World) (v : zval)
    (h : php_parallel_copy_closure E copy closure true w = .ok (v, w1)) :
    ∃ cp, v = .object (.closure cp) 1 ∧ cp.this_ptr = closure.this_ptr ∧
      cp.called_scope = closure.called_scope ∧ cp.std = closure.std ∧
      cp.func.fn_flags.closure = true := by
  unfold php_parallel_copy_closure at h
  simp only [if_true] at h
  split at h
  · simp at h
  · split at h
    · simp at h
    · simp at h
    · simp only [Except.ok.injEq, Prod.mk.injEq] at h
      obtain ⟨rfl, -⟩ := h
      exact ⟨_, rfl, rfl, rfl, rfl, rfl⟩

theorem copy_function_permanent_total (E : Env) (f : zend_function zval) (w : World)
    (h : (∃ e, zend_hash_find_ptr w.g.cache f.opcodes = some e) ∨ PlainStatics E f) :
    ∃ N, ∀ fuel, N ≤ fuel →
      ∃ r w1, php_parallel_copy_function_with E (php_parallel_copy_zval_ctor E fuel) f true w =
        .ok (some r, w1) := by
  rcases h with ⟨e, he⟩ | hs | ⟨hE, sv, t, hs, ht⟩
  · refine ⟨0, fun fuel _ => ⟨e, w, ?_⟩⟩
    simp only [php_parallel_copy_function_with, if_true]
    rw [copy_function_permanent_hit E _ f w e he]
  · refine ⟨0, fun fuel _ => ?_⟩
    cases hf : zend_hash_find_ptr w.g.cache f.opcodes with
    | some e =>
      refine ⟨e, w, ?_⟩
      simp only [php_parallel_copy_function_with, if_true]
      rw [copy_function_permanent_hit E _ f w e hf]
    | none =>
      simp [php_parallel_copy_function_with, php_parallel_copy_function_permanent, hf, hs]
  · refine ⟨sizeOf t, fun fuel hfuel => ?_⟩
    obtain ⟨r, w1, hr⟩ := copy_function_permanent_returns E hE _ fuel (zval_ctor_plain E hE fuel)
      f w (Or.inr ⟨sv, t, hs, ht, hfuel⟩)
    refine ⟨r, w1, ?_⟩
    simp only [php_parallel_copy_function_with, if_true]
    rw [hr]

/-- C11 (amended): for every closure, the permanent-mode duplicate
`php_parallel_copy_closure` produces is marked as a closure kind and carries
the bound receiver, the bound scope and the object header of the source
unchanged, as the byte copy left them: the permanent branch does not strip the
receiver (it is unset by the request-mode duplication).  The call returns, with
enough fuel, when the function it duplicates (the closure's own when its
`refcount` pointer is null, else the one `php_parallel_cache_function` returns)
is already cached or has absent or plain static variables. -/
theorem closure_permanent_duplicate (E : Env) (closure : zend_closure zval) (w : World) :
    (∀ fuel v w1,
      php_parallel_copy_closure E (php_parallel_copy_zval_ctor E fuel) closure true w =
        .ok (v, w1) →
      ∃ cp, v = .object (.closure cp) 1 ∧ cp.func.fn_flags.closure = true ∧
        cp.this_ptr = closure.this_ptr ∧ cp.called_scope = closure.called_scope) ∧
    (closure.func.refcount = none →
      ((∃ e, zend_hash_find_ptr w.g.cache closure.func.opcodes = some e) ∨
        PlainStatics E closure.func) →
      ∃ N, ∀ fuel, N ≤ fuel →
        ∃ v w1, php_parallel_copy_closure E (php_parallel_copy_zval_ctor E fuel) closure true w =
          .ok (v, w1)) ∧
    (∀ n fn g1, closure.func.refcount = some n →
      E.php_parallel_cache_function closure.func w.g = (some fn, g1) →
      ((∃ e, zend_hash_find_ptr g1.cache fn.opcodes = some e) ∨ PlainStatics E fn) →
      ∃ N, ∀ fuel, N ≤ fuel →
        ∃ v w1, php_parallel_copy_closure E (php_parallel_copy_zval_ctor E fuel) closure true w =
          .ok (v, w1)) := by
  refine ⟨?_, ?_, ?_⟩
  · intro fuel v w1 h
    obtain ⟨cp, h1, h2, h3, -, h5⟩ := closure_permanent_fields E _ closure w w1 v h
    exact ⟨cp, h1, h5, h2, h3⟩
  · intro hrc hs
    obtain ⟨N, hN⟩ := copy_function_permanent_total E closure.func w hs
    refine ⟨N, fun fuel hfuel => ?_⟩
    obtain ⟨r, w1, hr⟩ := hN fuel hfuel
    unfold php_parallel_copy_closure
    simp only [if_true, hrc, hr]
    exact ⟨_, _, rfl⟩
  · intro n fn g1 hrc hcf hs
    obtain ⟨N, hN⟩ := copy_function_permanent_total E fn
      { g := g1, trace := w.trace ++ [Event.php_parallel_cache_function closure.func] } hs
    refine ⟨N, fun fuel hfuel => ?_⟩
    obtain ⟨r, w1, hr⟩ := hN fuel hfuel
    unfold php_parallel_copy_closure
    simp only [if_true, hrc, hcf, hr]
    exact ⟨_, _, rfl⟩

theorem closure_permanent_duplicate_witness :
    (∃ v w1,
      php_parallel_copy_closure exampleEnv (php_parallel_copy_zval_ctor exampleEnv 2)
        exampleClosure true emptyWorld = .ok (v, w1) ∧
      ∃ cp, v = .object (.closure cp) 1 ∧ cp.func.fn_flags.closure = true ∧
        cp.this_ptr = exampleClosure.this_ptr ∧
        cp.called_scope = exampleClosure.called_scope) ∧
    (∃ N, ∀ fuel, N ≤ fuel →
      ∃ v w1, php_parallel_copy_closure exampleEnv (php_parallel_copy_zval_ctor exampleEnv fuel)
        exampleClosure true emptyWorld = .ok (v, w1)) :=
  ⟨⟨_, _, rfl, (closure_permanent_duplicate exampleEnv exampleClosure emptyWorld).1 2 _ _ rfl⟩,
    (closure_permanent_duplicate exampleEnv exampleClosure emptyWorld).2.2 1 exampleFunction
      emptyWorld.g rfl rfl (Or.inr exampleFunction_plain)⟩

/-- C11 fails as stated: the example closure carries a bound receiver (an
object of class `Counter`), and its permanent-mode duplicate carries the same
receiver; it is not unset. -/
theorem closure_permanent_receiver_counterexample :
    ∃ cp w1,
      php_parallel_copy_closure exampleEnv (php_parallel_copy_zval_ctor exampleEnv 2)
        exampleClosure true emptyWorld = .ok (.object (.closure cp) 1, w1) ∧
      cp.this_ptr = .object (.other { name := mkString "Counter" }) 0 ∧
      cp.this_ptr.is_undef = false :=
  ⟨_, _, rfl, rfl, rfl⟩

theorem to_zend_long_succ (x : Nat) (h : to_zend_long x ≠ ZEND_LONG_MAX) :
    to_zend_long (x + 1) = to_zend_long x + 1 := by
  have h64 : (2 : Nat) ^ 64 = 18446744073709551616 := by norm_num
  have h63 : (2 : Nat) ^ 63 = 9223372036854775808 := by norm_num
  have i64 : (2 : Int) ^ 64 = 18446744073709551616 := by norm_num
  unfold to_zend_long ZEND_LONG_MAX at *
  rw [h64, h63, i64] at *
  split_ifs at h ⊢ <;> omega

theorem next_free_spec_nonneg (bs : List (Bucket zval)) : 0 ≤ next_free_spec bs := by
  induction bs with
  | nil => simp [next_free_spec]
  | cons b rest ih =>
    simp only [next_free_spec]
    cases b.integer_key with
    | none => exact ih
    | some k =>
      simp only []
      split_ifs
      · omega
      · exact ih

theorem next_free_spec_gt (bs : List (Bucket zval)) :
    ∀ b ∈ bs, ∀ k, b.integer_key = some k → k < next_free_spec bs := by
  induction bs with
  | nil => intro b hb; cases hb
  | cons q rest ih =>
    intro b hb k hk
    have hnn := next_free_spec_nonneg rest
    simp only [next_free_spec]
    rcases List.mem_cons.mp hb with rfl | hb
    · rw [hk]
      simp only []
      split_ifs <;> omega
    · have := ih b hb k hk
      cases q.integer_key with
      | none => exact this
      | some k1 =>
        simp only []
        split_ifs <;> omega

theorem next_free_spec_zero (bs : List (Bucket zval))
    (h : ∀ b ∈ bs, ∀ k, b.integer_key = some k → k < 0) : next_free_spec bs = 0 := by
  induction bs with
  | nil => rfl
  | cons q rest ih =>
    have hr := ih (fun b hb => h b (List.mem_cons_of_mem _ hb))
    simp only [next_free_spec]
    cases hq : q.integer_key with
    | none => exact hr
    | some k =>
      have := h q (List.mem_cons_self _ _) k hq
      simp only []
      rw [if_neg (by omega)]
      exact hr

theorem next_free_spec_attained (bs : List (Bucket zval)) (h : next_free_spec bs ≠ 0) :
    ∃ b ∈ bs, b.integer_key = some (next_free_spec bs - 1) := by
  induction bs with
  | nil => exact absurd rfl h
  | cons q rest ih =>
    simp only [next_free_spec] at h ⊢
    cases hq : q.integer_key with
    | none =>
      simp only [hq] at h
      obtain ⟨b, hb, hk⟩ := ih h
      exact ⟨b, List.mem_cons_of_mem _ hb, hk⟩
    | some k =>
      simp only [hq] at h
      simp only []
      by_cases h0 : 0 ≤ k
      · rw [if_pos h0] at h ⊢
        by_cases hle : next_free_spec rest ≤ k + 1
        · refine ⟨q, List.mem_cons_self _ _, ?_⟩
          rw [hq, max_eq_left hle]
          simp
        · have hr : next_free_spec rest ≠ 0 := by
            have := next_free_spec_nonneg rest
            omega
          obtain ⟨b, hb, hk⟩ := ih hr
          refine ⟨b, List.mem_cons_of_mem _ hb, ?_⟩
          rw [hk, max_eq_right (by omega)]
      · rw [if_neg h0] at h ⊢
        obtain ⟨b, hb, hk⟩ := ih h
        exact ⟨b, List.mem_cons_of_mem _ hb, hk⟩

theorem permanent_loop_next_free (E : Env) (copy : zval → Bool → M zval) :
    ∀ (bs : List (Bucket zval)) (idx : Nat) (ht : HashTable zval) (w w1 : World)
      (bs1 : List (Bucket zval)) (ht1 : HashTable zval),
      php_parallel_copy_hash_permanent_loop E copy bs idx ht w = .ok ((bs1, ht1), w1) →
      0 ≤ ht.nNextFreeElement →
      (∀ b ∈ bs, ∀ k, b.integer_key = some k → k < ZEND_LONG_MAX) →
      ht1.nNextFreeElement = max ht.nNextFreeElement (next_free_spec bs) := by
  intro bs
  induction bs with
  | nil =>
    intro idx ht w w1 bs1 ht1 h h0 _
    simp only [php_parallel_copy_hash_permanent_loop] at h
    obtain ⟨h1, -⟩ := M.pure_eq_ok h
    simp only [Prod.mk.injEq] at h1
    obtain ⟨-, rfl⟩ := h1
    simp only [next_free_spec]
    omega
  | cons q rest ih =>
    intro idx ht w w1 bs1 ht1 h h0 hmax
    have hrest : ∀ b ∈ rest, ∀ k, b.integer_key = some k → k < ZEND_LONG_MAX :=
      fun b hb => hmax b (List.mem_cons_of_mem _ hb)
    have hnn := next_free_spec_nonneg rest
    cases hu : q.val.is_undef with
    | true =>
      simp only [php_parallel_copy_hash_permanent_loop, hu, if_true] at h
      obtain ⟨⟨r, ht2⟩, w2, h2, h3⟩ := M.bind_eq_ok h
      obtain ⟨h4, -⟩ := M.pure_eq_ok h3
      simp only [Prod.mk.injEq] at h4
      obtain ⟨-, rfl⟩ := h4
      have := ih _ _ _ _ _ _ h2 h0 hrest
      simp only [next_free_spec, Bucket.integer_key, hu, if_true]
      exact this
    | false =>
      simp only [php_parallel_copy_hash_permanent_loop, hu, Bool.false_eq_true, if_false] at h
      obtain ⟨v, w2, -, h3⟩ := M.bind_eq_ok h
      obtain ⟨⟨r, ht2⟩, w3, h4, h5⟩ := M.bind_eq_ok h3
      obtain ⟨h6, -⟩ := M.pure_eq_ok h5
      simp only [Prod.mk.injEq] at h6
      obtain ⟨-, rfl⟩ := h6
      cases hk : q.key with
      | some key =>
        simp only [hk] at h4
        have := ih _ _ _ _ _ _ h4 (by split_ifs <;> exact h0) hrest
        simp only [next_free_spec, Bucket.integer_key, hu, hk, Bool.false_eq_true, if_false]
        rw [this]
        split_ifs <;> rfl
      | none =>
        simp only [hk] at h4
        have hq : q.integer_key = some (to_zend_long q.h) := by
          simp [Bucket.integer_key, hu, hk]
        have hlt := hmax q (List.mem_cons_self _ _) _ hq
        have hsucc := to_zend_long_succ q.h (by omega)
        simp only [next_free_spec, hq]
        by_cases hi : ht.nInternalPointer = HT_INVALID_IDX
        · simp only [hi, if_true] at h4
          by_cases hge : to_zend_long q.h ≥ ht.nNextFreeElement
          · rw [if_pos hge] at h4
            have := ih _ _ _ _ _ _ h4 (by simp only []; omega) hrest
            rw [this]
            try simp only []
            rw [if_pos (by omega)]
            omega
          · rw [if_neg hge] at h4
            have := ih _ _ _ _ _ _ h4 h0 hrest
            rw [this]
            try simp only []
            split_ifs <;> omega
        · simp only [hi, if_false] at h4
          by_cases hge : to_zend_long q.h ≥ ht.nNextFreeElement
          · rw [if_pos hge] at h4
            have := ih _ _ _ _ _ _ h4 (by simp only []; omega) hrest
            rw [this]
            try simp only []
            rw [if_pos (by omega)]
            omega
          · rw [if_neg hge] at h4
            have := ih _ _ _ _ _ _ h4 h0 hrest
            rw [this]
            try simp only []
            split_ifs <;> omega

theorem hash_permanent_next_free_eq (E : Env) (copy : zval → Bool → M zval)
    (source : HashTable zval) (w w1 : World) (r : HashTable zval)
    (hmax : ∀ b ∈ source.arData, ∀ k, b.integer_key = some k → k < ZEND_LONG_MAX)
    (h : php_parallel_copy_hash_permanent E copy source w = .ok (r, w1)) :
    r.nNextFreeElement = next_free_spec source.arData := by
  unfold php_parallel_copy_hash_permanent at h
  simp only [] at h
  split_ifs at h with h0
  · obtain ⟨rfl, -⟩ := M.pure_eq_ok h
    have h2 : source.arData = [] := List.length_eq_zero.mp h0
    rw [h2]
    rfl
  · obtain ⟨⟨bs1, ht1⟩, w2, h2, h3⟩ := M.bind_eq_ok h
    obtain ⟨rfl, -⟩ := M.pure_eq_ok h3
    have := permanent_loop_next_free E copy _ _ _ _ _ _ _ h2 (le_refl _) hmax
    have hnn := next_free_spec_nonneg source.arData
    simp only [php_parallel_copy_hash_permanent_header] at this ⊢
    rw [this]
    omega

/-- C17 (amended): for every source container none of whose live key-less slots
holds the largest signed 64-bit integer as key, the next-free-integer-key
counter of the permanent-mode duplicate is strictly greater than the integer
key of every live key-less slot (keys read as signed 64-bit integers), equals 0
when no live slot has a non-negative integer key, and equals 1 + the largest
such key otherwise.  The call returns, with enough fuel, for every plain
source. -/
theorem hash_permanent_next_free (E : Env) (source : HashTable zval) (w : World)
    (hmax : ∀ b ∈ source.arData, ∀ k, b.integer_key = some k → k < ZEND_LONG_MAX) :
    (∀ fuel r w1, php_parallel_copy_hash_ctor E fuel source true w = .ok (r, w1) →
      r.nNextFreeElement = next_free_spec source.arData ∧
      (∀ b ∈ source.arData, ∀ k, b.integer_key = some k → k < r.nNextFreeElement) ∧
      ((∀ b ∈ source.arData, ∀ k, b.integer_key = some k → k < 0) →
        r.nNextFreeElement = 0) ∧
      ((∃ b ∈ source.arData, ∃ k, b.integer_key = some k ∧ 0 ≤ k) →
        ∃ b ∈ source.arData, b.integer_key = some (r.nNextFreeElement - 1))) ∧
    (KeepsText E → ∀ t, source.content = some t →
      ∃ N, ∀ fuel, N ≤ fuel →
        ∃ r, php_parallel_copy_hash_ctor E fuel source true w = .ok (r, w)) := by
  constructor
  · intro fuel r w1 h
    simp only [php_parallel_copy_hash_ctor, php_parallel_copy_hash_ctor_with, if_true] at h
    have heq := hash_permanent_next_free_eq E _ source w w1 r hmax h
    refine ⟨heq, ?_, ?_, ?_⟩
    · rw [heq]
      exact next_free_spec_gt source.arData
    · intro hneg
      rw [heq]
      exact next_free_spec_zero source.arData hneg
    · rintro ⟨b, hb, k, hk, h0⟩
      rw [heq]
      apply next_free_spec_attained
      have := next_free_spec_gt source.arData b hb k hk
      omega
  · intro hE t ht
    refine ⟨sizeOf t, fun fuel hfuel => ?_⟩
    obtain ⟨r, hr, -⟩ := hash_ctor_plain E hE _ fuel (zval_ctor_plain E hE fuel) source t ht hfuel
      true w
    exact ⟨r, hr⟩

theorem mixedKeyTable_below_max :
    ∀ b ∈ mixedKeyTable.arData,
      ∀ k, b.integer_key = some k → k < ZEND_LONG_MAX := by
  intro b hb k hk
  simp only [mixedKeyTable, mkTable, List.mem_cons, List.mem_singleton, List.not_mem_nil, or_false] at hb
  rcases hb with rfl | rfl
  · simp only [Bucket.integer_key, zval.is_undef, Bool.false_eq_true, if_false,
      Option.some.injEq] at hk
    subst hk
    decide
  · simp only [Bucket.integer_key, zval.is_undef, Bool.false_eq_true, if_false,
      Option.some.injEq] at hk
    subst hk
    decide

theorem hash_permanent_next_free_witness :
    ∃ r w1, php_parallel_copy_hash_ctor exampleEnv 1 mixedKeyTable true emptyWorld =
        .ok (r, w1) ∧
      r.nNextFreeElement = 5 := by
  obtain ⟨h1, -⟩ := (hash_permanent_next_free exampleEnv mixedKeyTable emptyWorld
    mixedKeyTable_below_max).1 1 _ _ rfl
  exact ⟨_, _, rfl, by rw [h1]; decide⟩

/-- C17 fails as stated: for the table whose single live slot has the largest
signed 64-bit integer as key, the counter of the permanent duplicate wraps to
the smallest signed 64-bit integer; it is not greater than the key. -/
theorem hash_permanent_next_free_counterexample :
    maxKeyTable.arData.map Bucket.integer_key = [some 9223372036854775807] ∧
    ∃ r, php_parallel_copy_hash_ctor exampleEnv 1 maxKeyTable true emptyWorld =
        .ok (r, emptyWorld) ∧
      r.nNextFreeElement = -9223372036854775808 ∧
      ¬ (9223372036854775807 < r.nNextFreeElement) :=
  ⟨by decide, _, rfl, by decide, by decide⟩

theorem request_static_keys (copy : zval → Bool → M zval) :
    ∀ (bs bs1 : List (Bucket zval)) (w w1 : World),
      php_parallel_copy_hash_request_static copy bs w = .ok (bs1, w1) →
      List.Forall₂ (fun q p => p.key = q.key ∧ p.h = q.h) bs bs1 := by
  intro bs
  induction bs with
  | nil =>
    intro bs1 w w1 h
    simp only [php_parallel_copy_hash_request_static] at h
    obtain ⟨rfl, -⟩ := M.pure_eq_ok h
    exact List.Forall₂.nil
  | cons q rest ih =>
    intro bs1 w w1 h
    simp only [php_parallel_copy_hash_request_static] at h
    split_ifs at h
    · obtain ⟨v, w2, -, h3⟩ := M.bind_eq_ok h
      obtain ⟨p, w3, h4, h5⟩ := M.bind_eq_ok h3
      obtain ⟨rfl, rfl⟩ := M.pure_eq_ok h4
      obtain ⟨rest1, w4, h6, h7⟩ := M.bind_eq_ok h5
      obtain ⟨rfl, -⟩ := M.pure_eq_ok h7
      exact List.Forall₂.cons ⟨rfl, rfl⟩ (ih _ _ _ h6)
    · obtain ⟨p, w3, h4, h5⟩ := M.bind_eq_ok h
      obtain ⟨rfl, rfl⟩ := M.pure_eq_ok h4
      obtain ⟨rest1, w4, h6, h7⟩ := M.bind_eq_ok h5
      obtain ⟨rfl, -⟩ := M.pure_eq_ok h7
      exact List.Forall₂.cons ⟨rfl, rfl⟩ (ih _ _ _ h6)

theorem request_keyed_keys (E : Env) (copy : zval → Bool → M zval) :
    ∀ (bs bs1 : List (Bucket zval)) (w w1 : World),
      php_parallel_copy_hash_request_keyed E copy bs w = .ok (bs1, w1) →
      List.Forall₂ (fun q p => p.val.is_undef = false →
        q.val.is_undef = false ∧ p.h = q.h ∧
        p.key = q.key.map fun k => E.php_parallel_copy_string k false) bs bs1 := by
  intro bs
  induction bs with
  | nil =>
    intro bs1 w w1 h
    simp only [php_parallel_copy_hash_request_keyed] at h
    obtain ⟨rfl, -⟩ := M.pure_eq_ok h
    exact List.Forall₂.nil
  | cons q rest ih =>
    intro bs1 w w1 h
    cases hu : q.val.is_undef with
    | true =>
      simp only [php_parallel_copy_hash_request_keyed, hu, if_true] at h
      obtain ⟨rest1, w3, h4, h5⟩ := M.bind_eq_ok h
      obtain ⟨rfl, -⟩ := M.pure_eq_ok h5
      refine List.Forall₂.cons ?_ (ih _ _ _ h4)
      intro hp
      simp [zval.is_undef] at hp
    | false =>
      simp only [php_parallel_copy_hash_request_keyed, hu, Bool.false_eq_true, if_false] at h
      obtain ⟨v, w2, -, h3⟩ := M.bind_eq_ok h
      obtain ⟨rest1, w3, h4, h5⟩ := M.bind_eq_ok h3
      obtain ⟨rfl, -⟩ := M.pure_eq_ok h5
      refine List.Forall₂.cons ?_ (ih _ _ _ h4)
      intro _
      refine ⟨hu, rfl, ?_⟩
      cases q.key <;> rfl

/-- C14: the keys of a request-mode duplicate, as the code makes them.  For a
source that does not take the static-keys fast path the claim holds: every live
slot comes from a live slot of the source at the same position, and its text
key, when it has one, is the copy the string duplicator makes of the source's
key for the request domain (line 233).  For a source that takes the fast path
every slot is copied whole (`*p = *q`, line 215), so each key is the source's own
key, not a copy: there the code departs from the claim.  The call returns, with
enough fuel, for every plain source. -/
theorem hash_request_keys (E : Env) (source : HashTable zval) (w : World) :
    (∀ fuel r w1, php_parallel_copy_hash_ctor E fuel source false w = .ok (r, w1) →
      (source.flags.static_keys = false →
        List.Forall₂ (fun q p => p.val.is_undef = false →
          q.val.is_undef = false ∧ p.h = q.h ∧
          p.key = q.key.map fun k => E.php_parallel_copy_string k false)
          source.arData r.arData) ∧
      (source.flags.static_keys = true →
        List.Forall₂ (fun q p => p.key = q.key ∧ p.h = q.h) source.arData r.arData)) ∧
    (KeepsText E → ∀ t, source.content = some t →
      ∃ N, ∀ fuel, N ≤ fuel →
        ∃ r, php_parallel_copy_hash_ctor E fuel source false w = .ok (r, w)) := by
  constructor
  · intro fuel r w1 h
    simp only [php_parallel_copy_hash_ctor, php_parallel_copy_hash_ctor_with,
      Bool.false_eq_true, if_false] at h
    unfold php_parallel_copy_hash_request at h
    simp only [] at h
    split_ifs at h with h0 h1
    · obtain ⟨rfl, -⟩ := M.pure_eq_ok h
      have h2 : source.arData = [] := List.length_eq_zero.mp h0
      simp only [php_parallel_copy_hash_request_header, h2]
      exact ⟨fun _ => List.Forall₂.nil, fun _ => List.Forall₂.nil⟩
    · obtain ⟨bs1, w2, h2, h3⟩ := M.bind_eq_ok h
      obtain ⟨rfl, -⟩ := M.pure_eq_ok h3
      have hs : source.flags.static_keys = true := h1
      refine ⟨fun hf => ?_, fun _ => request_static_keys _ _ _ _ _ h2⟩
      rw [hs] at hf
      cases hf
    · obtain ⟨bs1, w2, h2, h3⟩ := M.bind_eq_ok h
      obtain ⟨rfl, -⟩ := M.pure_eq_ok h3
      refine ⟨fun _ => request_keyed_keys E _ _ _ _ _ h2, fun hs => ?_⟩
      exact absurd hs h1
  · intro hE t ht
    refine ⟨sizeOf t, fun fuel hfuel => ?_⟩
    obtain ⟨r, hr, -⟩ := hash_ctor_plain E hE _ fuel (zval_ctor_plain E hE fuel) source t ht hfuel
      false w
    exact ⟨r, hr⟩

theorem hash_request_keys_witness :
    ∃ r w1, php_parallel_copy_hash_ctor exampleEnv 2 exampleTable false emptyWorld =
        .ok (r, w1) ∧
      List.Forall₂ (fun q p => p.val.is_undef = false →
          q.val.is_undef = false ∧ p.h = q.h ∧
          p.key = q.key.map fun k => exampleEnv.php_parallel_copy_string k false)
        exampleTable.arData r.arData :=
  ⟨_, _, rfl, ((hash_request_keys exampleEnv exampleTable emptyWorld).1 2 _ _ rfl).1 rfl⟩

/-- C14, the failing input: the engine-made table `[ "k" => 1 ]` has an interned
key and takes the static-keys fast path; the key of its request-mode duplicate
is the source's own key (interned, permanent), not the copy the string
duplicator would make, and releasing the duplicate decrements that key to 0 and
frees it (lines 262-266), while the source still holds it. -/
theorem hash_request_static_key_counterexample :
    internedKeyTable.flags.static_keys = true ∧
    ∃ r, php_parallel_copy_hash_ctor exampleEnv 1 internedKeyTable false emptyWorld =
        .ok (r, emptyWorld) ∧
      r.arData.map (fun p => p.key) = [some internedKey] ∧
      internedKey ≠ exampleEnv.php_parallel_copy_string internedKey false ∧
      (php_parallel_copy_hash_dtor r false).2 =
        [Release.key { internedKey with refcount := 0 } false,
         Release.data (.allocated false) false, Release.header false] :=
  ⟨rfl, _, rfl, rfl, by decide, rfl⟩

theorem permanent_loop_shape (E : Env) (copy : zval → Bool → M zval)
    (hcopy : ∀ v w v1 w1, copy v true w = .ok (v1, w1) → PermanentValue v1) :
    ∀ (bs : List (Bucket zval)) (idx : Nat) (ht : HashTable zval) (w w1 : World)
      (bs1 : List (Bucket zval)) (ht1 : HashTable zval),
      php_parallel_copy_hash_permanent_loop E copy bs idx ht w = .ok ((bs1, ht1), w1) →
      (ht1.flags.static_keys = true → ht.flags.static_keys = true) ∧
        PermanentSlots ht1.flags.static_keys bs1 := by
  intro bs
  induction bs with
  | nil =>
    intro idx ht w w1 bs1 ht1 h
    simp only [php_parallel_copy_hash_permanent_loop] at h
    obtain ⟨h1, -⟩ := M.pure_eq_ok h
    simp only [Prod.mk.injEq] at h1
    obtain ⟨rfl, rfl⟩ := h1
    exact ⟨fun h => h, PermanentSlots.nil _⟩
  | cons q rest ih =>
    intro idx ht w w1 bs1 ht1 h
    cases hu : q.val.is_undef with
    | true =>
      simp only [php_parallel_copy_hash_permanent_loop, hu, if_true] at h
      obtain ⟨⟨r, ht2⟩, w2, h2, h3⟩ := M.bind_eq_ok h
      obtain ⟨h4, -⟩ := M.pure_eq_ok h3
      simp only [Prod.mk.injEq] at h4
      obtain ⟨rfl, rfl⟩ := h4
      obtain ⟨i1, i2⟩ := ih _ _ _ _ _ _ h2
      refine ⟨i1, PermanentSlots.cons _ _ _ ?_ ?_ i2⟩
      · intro _ hl
        rw [hu] at hl
        cases hl
      · cases hv : q.val <;> simp [hv, zval.is_undef] at hu
        exact PermanentValue.undef
    | false =>
      simp only [php_parallel_copy_hash_permanent_loop, hu, Bool.false_eq_true, if_false] at h
      obtain ⟨v, w2, hv, h3⟩ := M.bind_eq_ok h
      obtain ⟨⟨r, ht2⟩, w3, h4, h5⟩ := M.bind_eq_ok h3
      obtain ⟨h6, -⟩ := M.pure_eq_ok h5
      simp only [Prod.mk.injEq] at h6
      obtain ⟨rfl, rfl⟩ := h6
      obtain ⟨i1, i2⟩ := ih _ _ _ _ _ _ h4
      have hpv := hcopy _ _ _ _ hv
      cases hk : q.key with
      | none =>
        simp only [hk] at i1 ⊢
        refine ⟨?_, PermanentSlots.cons _ _ _ (fun _ _ => rfl) hpv i2⟩
        intro hs
        have := i1 hs
        split_ifs at this <;> exact this
      | some k =>
        simp only [hk] at i1 ⊢
        refine ⟨fun hs => ?_, PermanentSlots.cons _ _ _ (fun hs => ?_) hpv i2⟩
        · have := i1 hs
          simp at this
        · have := i1 hs
          simp at this

theorem hash_permanent_shape (E : Env) (copy : zval → Bool → M zval)
    (hcopy : ∀ v w v1 w1, copy v true w = .ok (v1, w1) → PermanentValue v1)
    (source : HashTable zval) (w w1 : World) (r : HashTable zval)
    (h : php_parallel_copy_hash_permanent E copy source w = .ok (r, w1)) :
    PermanentTable r := by
  unfold php_parallel_copy_hash_permanent at h
  simp only [] at h
  split_ifs at h with h0
  · obtain ⟨rfl, -⟩ := M.pure_eq_ok h
    have h2 : source.arData = [] := List.length_eq_zero.mp h0
    refine PermanentTable.mk _ ?_
    simp only [php_parallel_copy_hash_permanent_header, h2]
    exact PermanentSlots.nil _
  · obtain ⟨⟨bs1, ht1⟩, w2, h2, h3⟩ := M.bind_eq_ok h
    obtain ⟨rfl, -⟩ := M.pure_eq_ok h3
    exact PermanentTable.mk _ (permanent_loop_shape E copy hcopy _ _ _ _ _ _ _ h2).2

theorem zval_ctor_permanent_shape (E : Env) :
    ∀ (fuel : Nat) (v : zval) (w : World) (v1 : zval) (w1 : World),
      php_parallel_copy_zval_ctor E fuel v true w = .ok (v1, w1) → PermanentValue v1 := by
  intro fuel
  induction fuel with
  | zero =>
    intro v w v1 w1 h
    simp [php_parallel_copy_zval_ctor, M.fail] at h
  | succ n ih =>
    intro v w v1 w1 h
    simp only [php_parallel_copy_zval_ctor] at h
    cases v with
    | undef =>
      obtain ⟨rfl, -⟩ := M.pure_eq_ok h
      exact PermanentValue.undef
    | null =>
      obtain ⟨rfl, -⟩ := M.pure_eq_ok h
      exact PermanentValue.null
    | bool b =>
      obtain ⟨rfl, -⟩ := M.pure_eq_ok h
      exact PermanentValue.bool b
    | long k =>
      obtain ⟨rfl, -⟩ := M.pure_eq_ok h
      exact PermanentValue.long k
    | double d =>
      obtain ⟨rfl, -⟩ := M.pure_eq_ok h
      exact PermanentValue.double d
    | string s rc =>
      obtain ⟨rfl, -⟩ := M.pure_eq_ok h
      refine PermanentValue.string _ _ ?_
      intro hi
      simpa using hi
    | array ht rc =>
      simp only [php_parallel_copy_zval_ctor_with] at h
      obtain ⟨r, w2, h2, h3⟩ := M.bind_eq_ok h
      obtain ⟨rfl, -⟩ := M.pure_eq_ok h3
      simp only [php_parallel_copy_hash_ctor_with, if_true] at h2
      exact PermanentValue.array _ (hash_permanent_shape E _ ih ht _ _ _ h2)
    | object o extra =>
      cases o with
      | closure c =>
        simp only [php_parallel_copy_zval_ctor_with] at h
        obtain ⟨cp, rfl, -⟩ := closure_permanent_fields E _ c w w1 v1 h
        exact PermanentValue.object _ _
      | other ce =>
        obtain ⟨rfl, -⟩ := M.pure_eq_ok h
        exact PermanentValue.bool _
    | resource r =>
      simp only [php_parallel_copy_zval_ctor_with] at h
      split_ifs at h
      · obtain ⟨rfl, -⟩ := M.pure_eq_ok h
        unfold php_parallel_copy_resource
        split_ifs
        · split
          · split
            · exact PermanentValue.long _
            · exact PermanentValue.null
          · exact PermanentValue.null
        · exact PermanentValue.null
      · obtain ⟨rfl, -⟩ := M.pure_eq_ok h
        exact PermanentValue.bool _
    | other t rc =>
      obtain ⟨rfl, -⟩ := M.pure_eq_ok h
      exact PermanentValue.bool _

theorem separate_of_not_refcounted (E : Env) (v : zval) (c : Content) (hp : PermanentValue v)
    (hc : v.content = some c) (hrc : Z_OPT_REFCOUNTED v = false) : SeparateValue E v v := by
  cases hp with
  | undef => simp [zval.content] at hc
  | null => exact SeparateValue.null
  | bool b => exact SeparateValue.bool b
  | long n => exact SeparateValue.long n
  | double d => exact SeparateValue.double d
  | string s rc h =>
    simp only [Z_OPT_REFCOUNTED] at hrc
    subst hrc
    exact SeparateValue.interned s (h rfl)
  | array ht h => simp [Z_OPT_REFCOUNTED] at hrc
  | object o extra => simp [Z_OPT_REFCOUNTED] at hrc
  | resource r => simp [Z_OPT_REFCOUNTED] at hrc
  | other t rc => simp [zval.content] at hc

theorem request_static_separate (E : Env) (copy : zval → Bool → M zval)
    (hcopy : ∀ v c v1 w w1, PermanentValue v → v.content = some c →
      copy v false w = .ok (v1, w1) → SeparateValue E v v1) :
    ∀ (bs : List (Bucket zval)) (l : List (SlotKey × Content)) (bs1 : List (Bucket zval))
      (w w1 : World),
      PermanentSlots true bs → slots_content bs = some l →
      php_parallel_copy_hash_request_static copy bs w = .ok (bs1, w1) →
      SeparateSlots E bs bs1 := by
  intro bs
  induction bs with
  | nil =>
    intro l bs1 w w1 _ _ h
    simp only [php_parallel_copy_hash_request_static] at h
    obtain ⟨rfl, -⟩ := M.pure_eq_ok h
    exact SeparateSlots.nil
  | cons q rest ih =>
    intro l bs1 w w1 hp hl h
    cases hp with
    | cons _ _ _ hkey hval hrest =>
    simp only [php_parallel_copy_hash_request_static] at h
    split_ifs at h with hrc
    · obtain ⟨v, w2, hv, h3⟩ := M.bind_eq_ok h
      obtain ⟨p, w3, h4, h5⟩ := M.bind_eq_ok h3
      obtain ⟨rfl, rfl⟩ := M.pure_eq_ok h4
      obtain ⟨rest1, w4, h6, h7⟩ := M.bind_eq_ok h5
      obtain ⟨rfl, -⟩ := M.pure_eq_ok h7
      have hu : q.val.is_undef = false := by
        cases hq : q.val <;> simp [hq, Z_OPT_REFCOUNTED] at hrc <;> rfl
      obtain ⟨c, l1, hc, hr, -⟩ := slots_content_cons_some hu hl
      refine SeparateSlots.live _ _ _ _ hu rfl ?_ (hcopy _ _ _ _ _ hval hc hv)
        (ih _ _ _ _ hrest hr h6)
      simp only [hkey rfl hu, Option.map_none']
    · obtain ⟨p, w3, h4, h5⟩ := M.bind_eq_ok h
      obtain ⟨rfl, rfl⟩ := M.pure_eq_ok h4
      obtain ⟨rest1, w4, h6, h7⟩ := M.bind_eq_ok h5
      obtain ⟨rfl, -⟩ := M.pure_eq_ok h7
      have hrc1 : Z_OPT_REFCOUNTED p.val = false := by
        simpa using hrc
      cases hu : p.val.is_undef with
      | true =>
        rw [slots_content_cons_undef p rest hu] at hl
        exact SeparateSlots.undef _ _ _ _ hu hu (ih _ _ _ _ hrest hl h6)
      | false =>
        obtain ⟨c, l1, hc, hr, -⟩ := slots_content_cons_some hu hl
        refine SeparateSlots.live _ _ _ _ hu rfl ?_
          (separate_of_not_refcounted E _ c hval hc hrc1) (ih _ _ _ _ hrest hr h6)
        simp only [hkey rfl hu, Option.map_none']

theorem request_keyed_separate (E : Env) (copy : zval → Bool → M zval)
    (hcopy : ∀ v c v1 w w1, PermanentValue v → v.content = some c →
      copy v false w = .ok (v1, w1) → SeparateValue E v v1) :
    ∀ (bs : List (Bucket zval)) (l : List (SlotKey × Content)) (bs1 : List (Bucket zval))
      (w w1 : World) (static_keys : Bool),
      PermanentSlots static_keys bs → slots_content bs = some l →
      php_parallel_copy_hash_request_keyed E copy bs w = .ok (bs1, w1) →
      SeparateSlots E bs bs1 := by
  intro bs
  induction bs with
  | nil =>
    intro l bs1 w w1 sk _ _ h
    simp only [php_parallel_copy_hash_request_keyed] at h
    obtain ⟨rfl, -⟩ := M.pure_eq_ok h
    exact SeparateSlots.nil
  | cons q rest ih =>
    intro l bs1 w w1 sk hp hl h
    cases hp with
    | cons _ _ _ hkey hval hrest =>
    cases hu : q.val.is_undef with
    | true =>
      simp only [php_parallel_copy_hash_request_keyed, hu, if_true] at h
      obtain ⟨rest1, w3, h4, h5⟩ := M.bind_eq_ok h
      obtain ⟨rfl, -⟩ := M.pure_eq_ok h5
      rw [slots_content_cons_undef q rest hu] at hl
      exact SeparateSlots.undef _ _ _ _ hu rfl (ih _ _ _ _ _ hrest hl h4)
    | false =>
      simp only [php_parallel_copy_hash_request_keyed, hu, Bool.false_eq_true, if_false] at h
      obtain ⟨v, w2, hv, h3⟩ := M.bind_eq_ok h
      obtain ⟨rest1, w3, h4, h5⟩ := M.bind_eq_ok h3
      obtain ⟨rfl, -⟩ := M.pure_eq_ok h5
      obtain ⟨c, l1, hc, hr, -⟩ := slots_content_cons_some hu hl
      refine SeparateSlots.live _ _ _ _ hu rfl ?_ (hcopy _ _ _ _ _ hval hc hv)
        (ih _ _ _ _ _ hrest hr h4)
      cases q.key <;> rfl

theorem hash_request_separate (E : Env) (copy : zval → Bool → M zval)
    (hcopy : ∀ v c v1 w w1, PermanentValue v → v.content = some c →
      copy v false w = .ok (v1, w1) → SeparateValue E v v1)
    (S : HashTable zval) (t : List (SlotKey × Content)) (sv : HashTable zval) (w w1 : World)
    (hp : PermanentTable S) (ht : S.content = some t)
    (h : php_parallel_copy_hash_request E copy S w = .ok (sv, w1)) :
    SeparateTable E S sv := by
  cases hp with
  | mk _ hslots =>
  unfold php_parallel_copy_hash_request at h
  simp only [] at h
  split_ifs at h with h0 h1
  · obtain ⟨rfl, -⟩ := M.pure_eq_ok h
    have h2 : S.arData = [] := List.length_eq_zero.mp h0
    have h3 : S.nNumUsed = 0 := h0
    refine SeparateTable.mk _ _ rfl rfl ?_ ?_
    · simp only [h3, if_true]
    · simp only [php_parallel_copy_hash_request_header, h2]
      exact SeparateSlots.nil
  · obtain ⟨bs1, w2, h2, h3⟩ := M.bind_eq_ok h
    obtain ⟨rfl, -⟩ := M.pure_eq_ok h3
    have h4 : S.nNumUsed ≠ 0 := h0
    have h5 : S.flags.static_keys = true := h1
    rw [h5] at hslots
    refine SeparateTable.mk _ _ rfl rfl ?_ ?_
    · simp only [h4, if_false]
    · exact request_static_separate E copy hcopy _ _ _ _ _ hslots ht h2
  · obtain ⟨bs1, w2, h2, h3⟩ := M.bind_eq_ok h
    obtain ⟨rfl, -⟩ := M.pure_eq_ok h3
    have h4 : S.nNumUsed ≠ 0 := h0
    refine SeparateTable.mk _ _ rfl rfl ?_ ?_
    · simp only [h4, if_false]
    · exact request_keyed_separate E copy hcopy _ _ _ _ _ _ hslots ht h2

theorem zval_ctor_separate (E : Env) :
    ∀ (fuel : Nat) (v : zval) (c : Content) (v1 : zval) (w w1 : World),
      PermanentValue v → v.content = some c →
      php_parallel_copy_zval_ctor E fuel v false w = .ok (v1, w1) → SeparateValue E v v1 := by
  intro fuel
  induction fuel with
  | zero =>
    intro v c v1 w w1 _ _ h
    simp [php_parallel_copy_zval_ctor, M.fail] at h
  | succ n ih =>
    intro v c v1 w w1 hp hc h
    simp only [php_parallel_copy_zval_ctor] at h
    cases hp with
    | undef => simp [zval.content] at hc
    | null =>
      obtain ⟨rfl, -⟩ := M.pure_eq_ok h
      exact SeparateValue.null
    | bool b =>
      obtain ⟨rfl, -⟩ := M.pure_eq_ok h
      exact SeparateValue.bool b
    | long k =>
      obtain ⟨rfl, -⟩ := M.pure_eq_ok h
      exact SeparateValue.long k
    | double d =>
      obtain ⟨rfl, -⟩ := M.pure_eq_ok h
      exact SeparateValue.double d
    | string s rc hi =>
      obtain ⟨rfl, -⟩ := M.pure_eq_ok h
      exact SeparateValue.text s rc
    | array ht hpt =>
      simp only [php_parallel_copy_zval_ctor_with] at h
      obtain ⟨r, w2, h2, h3⟩ := M.bind_eq_ok h
      obtain ⟨rfl, -⟩ := M.pure_eq_ok h3
      simp only [php_parallel_copy_hash_ctor_with, Bool.false_eq_true, if_false] at h2
      rw [zval.content_array] at hc
      cases hs : slots_content ht.arData with
      | none => simp [hs] at hc
      | some l =>
        exact SeparateValue.container _ _ _ (hash_request_separate E _ ih ht l r _ _ hpt hs h2)
    | object o extra => simp [zval.content] at hc
    | resource r => simp [zval.content] at hc
    | other t rc => simp [zval.content] at hc

theorem hash_ctor_separate (E : Env) (fuel fuel0 : Nat) (src S sv : HashTable zval)
    (t : List (SlotKey × Content)) (wa wb w w1 : World)
    (hperm : php_parallel_copy_hash_ctor E fuel0 src true wa = .ok (S, wb))
    (ht : S.content = some t)
    (h : php_parallel_copy_hash_ctor E fuel S false w = .ok (sv, w1)) :
    SeparateTable E S sv := by
  simp only [php_parallel_copy_hash_ctor, php_parallel_copy_hash_ctor_with, if_true] at hperm
  simp only [php_parallel_copy_hash_ctor, php_parallel_copy_hash_ctor_with, Bool.false_eq_true,
    if_false] at h
  exact hash_request_separate E _ (zval_ctor_separate E fuel) S t sv w w1
    (hash_permanent_shape E _ (zval_ctor_permanent_shape E fuel0) src wa wb S hperm) ht h

theorem separate_table_single_long (E : Env) (S sv : HashTable zval) (q : Bucket zval) (n : Int)
    (hS : S.arData = [q]) (hv : q.val = .long n) (h : SeparateTable E S sv) :
    ∃ p, sv.arData = [p] ∧ p.h = q.h ∧ p.val = .long n ∧
      p.key = q.key.map fun k => E.php_parallel_copy_string k false := by
  cases h with
  | mk _ _ hcount hflags hdata hslots =>
  rw [hS] at hslots
  generalize sv.arData = a at hslots
  cases hslots with
  | undef _ p _ ps hq hp hrest =>
    rw [hv] at hq
    cases hq
  | live _ p _ ps hq hh hkey hval hrest =>
    cases hrest
    rw [hv] at hval
    generalize hpv : p.val = pv at hval
    cases hval
    exact ⟨p, rfl, hh, hpv, hkey⟩

theorem copy_function_request_plain (E : Env) (hE : KeepsText E) (copy : zval → Bool → M zval)
    (K : Nat) (hcopy : CopiesPlain copy K) (function : zend_function zval) (w : World)
    (cached : FuncRef) (S : HashTable zval) (t : List (SlotKey × Content))
    (hload : LoaderKeeps E function w.g)
    (hcache : zend_hash_find_ptr w.g.cache function.opcodes = some cached)
    (hmiss : zend_hash_find_ptr w.g.uncopied function.opcodes = none)
    (hS : cached.func.static_variables = some S) (ht : S.content = some t) (hK : sizeOf t ≤ K) :
    ∃ e w1 sv wb, php_parallel_copy_function_request E copy function w = .ok (some e, w1) ∧
      e.func.static_variables = some sv ∧
      php_parallel_copy_hash_ctor_with E copy S false wb = .ok (sv, wb) ∧
      sv.content = some t ∧
      e.addr = (E.php_parallel_dependencies_load function w.g).brk ∧
      w1.g.brk = e.addr + 1 ∧
      w1.g.cache = (E.php_parallel_dependencies_load function w.g).cache := by
  obtain ⟨hl1, hl2⟩ := hload
  have ha := activate_g function (w.call (Event.php_parallel_dependencies_load function)
        (E.php_parallel_dependencies_load function))
  unfold php_parallel_copy_function_request
  simp only [hmiss]
  generalize php_parallel_copy_auto_globals_activate function
      (w.call (Event.php_parallel_dependencies_load function)
        (E.php_parallel_dependencies_load function)) = wa at ha
  obtain ⟨ha1, ha2, ha3⟩ := ha
  simp only [World.call] at ha1 ha2 ha3
  have hc : zend_hash_find_ptr wa.g.cache function.opcodes = some cached := by
    rw [ha1, hl2, hcache]
  have hu : zend_hash_find_ptr wa.g.uncopied function.opcodes = none := by
    rw [ha2, hl1, hmiss]
  simp only [hc]
  obtain ⟨r, hr, hrc⟩ := hash_ctor_plain E hE copy K hcopy S t ht hK false
      (php_parallel_copy_mem_function wa).2
  simp only [hS, hr]
  have hu2 : zend_hash_find_ptr (php_parallel_copy_mem_function wa).2.g.uncopied
      function.opcodes = none := hu
  rw [zend_hash_add_absent _ _ _ hu2]
  refine ⟨_, _, r, _, rfl, rfl, hr, hrc, ha3, ?_, ha1⟩
  simp only [php_parallel_copy_mem_function]

/-- C12: let the permanent cache entry of a code unit hold the plain
static-variable container `S`.  Request-mode duplication of the unit in a fresh
context, and then in a second fresh context of the same process, returns (with
enough fuel) two instances at different addresses; the static-variable
container of each is a request-mode duplicate of `S` (what
`php_parallel_copy_hash_ctor` makes of `S` in request mode): its own header with
reference count 1, not immutable, not persistent, with the content of `S`,
whatever the static variables of the source arguments `f1` and `f2` hold at the
time; and the cache entry, `S` included, is the same after both calls.
A change of a binding in one container reaches neither the other container nor
`S`: the cache is written by the permanent path alone (line 472), so `S` is what
`php_parallel_copy_hash_ctor` returned in permanent mode for some source, and
then each of the two containers is `SeparateTable` from `S`, at every depth.
What a write to a container or the release of a binding touches (the header,
the storage, a text key, a reference-counted value) is in each instance an
object made for that instance by its own run of the duplicators, never one that
`S` or the other instance holds; the only values an instance has in common with
`S` are scalars and interned texts without the reference-counted bit.  The
loader is assumed to leave the unit's own entries alone and to give no address
back. -/
theorem copy_function_request_two_contexts (E : Env) (hE : KeepsText E)
    (f1 f2 : zend_function zval) (hid : f1.opcodes = f2.opcodes)
    (hl1 : LoaderFrames E f1) (hl2 : LoaderFrames E f2)
    (w : World) (cached : FuncRef) (S : HashTable zval) (t : List (SlotKey × Content))
    (hcache : zend_hash_find_ptr w.g.cache f1.opcodes = some cached)
    (hS : cached.func.static_variables = some S) (ht : S.content = some t) :
    ∃ N, ∀ fuel, N ≤ fuel →
      ∃ e1 w1 e2 w2 sv1 sv2 wb1 wb2,
        php_parallel_copy_function E fuel f1 false (php_parallel_copy_startup w) =
          .ok (some e1, w1) ∧
        php_parallel_copy_function E fuel f2 false (php_parallel_copy_startup w1) =
          .ok (some e2, w2) ∧
        e1.addr ≠ e2.addr ∧
        e1.func.static_variables = some sv1 ∧ e2.func.static_variables = some sv2 ∧
        php_parallel_copy_hash_ctor E fuel S false wb1 = .ok (sv1, wb1) ∧
        php_parallel_copy_hash_ctor E fuel S false wb2 = .ok (sv2, wb2) ∧
        sv1.content = some t ∧ sv2.content = some t ∧
        sv1.gc_refcount = 1 ∧ sv2.gc_refcount = 1 ∧
        sv1.gc_flags = { collectable := true, immutable := false, persistent := false } ∧
        sv2.gc_flags = { collectable := true, immutable := false, persistent := false } ∧
        (S.nNumUsed ≠ 0 → sv1.data = .allocated false ∧ sv2.data = .allocated false) ∧
        zend_hash_find_ptr w2.g.cache f1.opcodes = some cached ∧
        (∀ src fuel0 wa wb,
          php_parallel_copy_hash_ctor E fuel0 src true wa = .ok (S, wb) →
          SeparateTable E S sv1 ∧ SeparateTable E S sv2) := by
  refine ⟨sizeOf t, fun fuel hfuel => ?_⟩
  have hcp := zval_ctor_plain E hE fuel
  obtain ⟨e1, w1, sv1, wb1, h1, hs1, hd1, hc1, ha1, hb1, hk1⟩ :=
    copy_function_request_plain E hE _ fuel hcp f1 (php_parallel_copy_startup w) cached S t
      (hl1 _).1 hcache rfl hS ht hfuel
  have hcache1 : zend_hash_find_ptr (php_parallel_copy_startup w1).g.cache f2.opcodes =
      some cached := by
    show zend_hash_find_ptr w1.g.cache f2.opcodes = some cached
    rw [hk1, ← hid, (hl1 _).1.2]
    exact hcache
  obtain ⟨e2, w2, sv2, wb2, h2, hs2, hd2, hc2, ha2, hb2, hk2⟩ :=
    copy_function_request_plain E hE _ fuel hcp f2 (php_parallel_copy_startup w1) cached S t
      (hl2 _).1 hcache1 rfl hS ht hfuel
  have hh1 := hash_request_header E _ S wb1 wb1 sv1 (by
    simpa only [php_parallel_copy_hash_ctor_with, Bool.false_eq_true, if_false] using hd1)
  have hh2 := hash_request_header E _ S wb2 wb2 sv2 (by
    simpa only [php_parallel_copy_hash_ctor_with, Bool.false_eq_true, if_false] using hd2)
  have hg1 := hash_request_data E _ S wb1 wb1 sv1 (by
    simpa only [php_parallel_copy_hash_ctor_with, Bool.false_eq_true, if_false] using hd1)
  have hg2 := hash_request_data E _ S wb2 wb2 sv2 (by
    simpa only [php_parallel_copy_hash_ctor_with, Bool.false_eq_true, if_false] using hd2)
  have hdata : S.nNumUsed ≠ 0 → sv1.data = .allocated false ∧ sv2.data = .allocated false := by
    intro hne
    rcases hg1.1 with ⟨h0, -⟩ | ⟨-, hx1⟩
    · exact absurd h0 hne
    · rcases hg2.1 with ⟨h0, -⟩ | ⟨-, hx2⟩
      · exact absurd h0 hne
      · exact ⟨hx1, hx2⟩
  refine ⟨e1, w1, e2, w2, sv1, sv2, wb1, wb2, ?_, ?_, ?_, hs1, hs2, hd1, hd2, hc1, hc2,
    hh1.1, hh2.1, hh1.2.1, hh2.2.1, hdata, ?_, fun src fuel0 wa wb hperm =>
      ⟨hash_ctor_separate E fuel fuel0 src S sv1 t wa wb wb1 wb1 hperm ht hd1,
        hash_ctor_separate E fuel fuel0 src S sv2 t wa wb wb2 wb2 hperm ht hd2⟩⟩
  · simp only [php_parallel_copy_function, php_parallel_copy_function_with, Bool.false_eq_true,
      if_false]
    exact h1
  · simp only [php_parallel_copy_function, php_parallel_copy_function_with, Bool.false_eq_true,
      if_false]
    exact h2
  · have hm := (hl2 (php_parallel_copy_startup w1).g).2
    have hb : (php_parallel_copy_startup w1).g.brk = w1.g.brk := rfl
    rw [ha2]
    omega
  · rw [hk2, hid, (hl2 _).1.2]
    exact hcache1

theorem copy_function_request_two_contexts_witness :
    exampleFunctionRun.static_variables ≠ exampleFunction.static_variables ∧
    ∃ src S, exampleFunction.static_variables = some src ∧
      exampleCachedFunction.static_variables = some S ∧
      php_parallel_copy_hash_ctor exampleEnv 1 src true emptyWorld = .ok (S, emptyWorld) ∧
      ∃ N, ∀ fuel, N ≤ fuel →
        ∃ e1 w1 e2 w2 sv1 sv2,
          php_parallel_copy_function exampleEnv fuel exampleFunction false
            (php_parallel_copy_startup cachedWorld) = .ok (some e1, w1) ∧
          php_parallel_copy_function exampleEnv fuel exampleFunctionRun false
            (php_parallel_copy_startup w1) = .ok (some e2, w2) ∧
          e1.addr ≠ e2.addr ∧
          e1.func.static_variables = some sv1 ∧ e2.func.static_variables = some sv2 ∧
          sv1.content = some [(.text "count", .long 0)] ∧
          sv2.content = some [(.text "count", .long 0)] ∧
          sv1.gc_refcount = 1 ∧ sv2.gc_refcount = 1 ∧
          SeparateTable exampleEnv S sv1 ∧ SeparateTable exampleEnv S sv2 ∧
          (∃ p, sv1.arData = [p] ∧ p.key = some (mkString "count") ∧ p.val = .long 0) ∧
          (∃ p, sv2.arData = [p] ∧ p.key = some (mkString "count") ∧ p.val = .long 0) := by
  refine ⟨?_, _, _, rfl, rfl, rfl, ?_⟩
  · intro h
    have h2 := congrArg (fun o => o.map fun (sv : HashTable zval) => sv.arData.map fun b =>
      Z_OPT_REFCOUNTED b.val || (match b.val with | .long 5 => true | _ => false)) h
    revert h2
    decide
  · obtain ⟨N, hN⟩ := copy_function_request_two_contexts exampleEnv (fun _ _ => rfl)
      exampleFunction exampleFunctionRun rfl (fun _ => ⟨⟨rfl, rfl⟩, le_refl _⟩)
      (fun _ => ⟨⟨rfl, rfl⟩, le_refl _⟩) cachedWorld { addr := 1, func := exampleCachedFunction }
      _ [(.text "count", .long 0)] rfl rfl
      (slots_content_cons_eval _ _ _ _ _ (by rfl) (by rfl) (zval.content_long 0)
        slots_content_nil)
    refine ⟨N, fun fuel hfuel => ?_⟩
    obtain ⟨e1, w1, e2, w2, sv1, sv2, -, -, h1, h2, h3, h4, h5, -, -, h6, h7, h8, h9, -, -, -,
      -, h10⟩ := hN fuel hfuel
    obtain ⟨s1, s2⟩ :=
      h10 (mkTable [{ val := .long 0, h := 7, key := some (mkString "count") }] false) 1
        emptyWorld emptyWorld rfl
    obtain ⟨p1, a1, -, b1, c1⟩ := separate_table_single_long exampleEnv _ sv1 _ 0 rfl rfl s1
    obtain ⟨p2, a2, -, b2, c2⟩ := separate_table_single_long exampleEnv _ sv2 _ 0 rfl rfl s2
    exact ⟨e1, w1, e2, w2, sv1, sv2, h1, h2, h3, h4, h5, h6, h7, h8, h9, s1, s2,
      ⟨p1, a1, c1, b1⟩, ⟨p2, a2, c2, b2⟩⟩

theorem zend_hash_find_del_same {K V : Type} [DecidableEq K] (t : List (K × V)) (k : K) :
    zend_hash_find_ptr (zend_hash_del t k) k = none := by
  induction t with
  | nil => rfl
  | cons x rest ih =>
    obtain ⟨k1, v1⟩ := x
    by_cases h : k1 = k
    · simp [zend_hash_del, h, ih]
    · simp [zend_hash_del, zend_hash_find_ptr, h, ih]

theorem zend_hash_find_del_absent {K V : Type} [DecidableEq K] (t : List (K × V)) (k k1 : K)
    (h : zend_hash_find_ptr t k1 = none) : zend_hash_find_ptr (zend_hash_del t k) k1 = none := by
  induction t with
  | nil => rfl
  | cons x rest ih =>
    obtain ⟨k2, v2⟩ := x
    by_cases h2 : k2 = k1
    · simp [zend_hash_find_ptr, h2] at h
    · simp only [zend_hash_find_ptr, h2, if_false] at h
      by_cases h3 : k2 = k
      · simp [zend_hash_del, h3, ih h]
      · simp [zend_hash_del, zend_hash_find_ptr, h2, h3, ih h]

theorem del_function_table_suppressed (key : String) (w : World)
    (hd : w.g.function_table_pDestructor = .null) :
    (zend_hash_del_function_table key w).trace = w.trace ∧
    (zend_hash_del_function_table key w).g.used = w.g.used ∧
    (zend_hash_del_function_table key w).g.uncopied = w.g.uncopied ∧
    (zend_hash_del_function_table key w).g.function_table_pDestructor = .null ∧
    zend_hash_find_ptr (zend_hash_del_function_table key w).g.function_table key = none ∧
    (∀ name, zend_hash_find_ptr w.g.function_table name = none →
      zend_hash_find_ptr (zend_hash_del_function_table key w).g.function_table name = none) := by
  unfold zend_hash_del_function_table
  cases hf : zend_hash_find_ptr w.g.function_table key with
  | none => exact ⟨rfl, rfl, rfl, hd, hf, fun _ h => h⟩
  | some entry =>
    simp only [hd]
    refine ⟨?_, ?_, ?_, ?_, ?_, ?_⟩
    all_goals first
      | trivial
      | rfl
      | exact zend_hash_find_del_same _ _
      | exact fun name h => zend_hash_find_del_absent _ _ _ h

theorem uncopied_dtor_effect (function : FuncRef) (w : World) :
    (php_parallel_copy_uncopied_dtor function w).trace = w.trace ++ teardown_events function ∧
    (php_parallel_copy_uncopied_dtor function w).g.used = w.g.used ∧
    (php_parallel_copy_uncopied_dtor function w).g.function_table_pDestructor =
      w.g.function_table_pDestructor ∧
    (∀ name, zend_hash_find_ptr w.g.function_table name = none →
      zend_hash_find_ptr (php_parallel_copy_uncopied_dtor function w).g.function_table name =
        none) ∧
    (∀ key, zend_hash_find_ptr w.g.used function.addr = some key →
      zend_hash_find_ptr (php_parallel_copy_uncopied_dtor function w).g.function_table
        key.val = none) := by
  unfold php_parallel_copy_uncopied_dtor teardown_events
  cases hu : zend_hash_find_ptr w.g.used function.addr with
  | none =>
    simp only []
    refine ⟨?_, ?_, ?_, ?_, ?_⟩
    · cases function.func.static_variables <;> simp
    · cases function.func.static_variables <;> rfl
    · cases function.func.static_variables <;> rfl
    · intro name h
      cases function.func.static_variables <;> exact h
    · intro key h
      cases h
  | some key =>
    simp only []
    cases he : zend_hash_exists w.g.function_table key.val with
    | false =>
      simp only [Bool.false_eq_true, if_false]
      have hn : zend_hash_find_ptr w.g.function_table key.val = none := by
        simp only [zend_hash_exists] at he
        cases hf : zend_hash_find_ptr w.g.function_table key.val <;> simp [hf] at he ⊢
      refine ⟨?_, ?_, ?_, ?_, ?_⟩
      · cases function.func.static_variables <;> simp
      · cases function.func.static_variables <;> rfl
      · cases function.func.static_variables <;> rfl
      · intro name h
        cases function.func.static_variables <;> exact h
      · intro key1 h
        simp only [Option.some.injEq] at h
        subst h
        cases function.func.static_variables <;> exact hn
    | true =>
      simp only [if_true]
      obtain ⟨h1, h2, -, -, h5, h6⟩ := del_function_table_suppressed key.val
        { w with g := { w.g with function_table_pDestructor := .null } } rfl
      refine ⟨?_, ?_, ?_, ?_, ?_⟩
      · cases function.func.static_variables <;> simp [h1]
      · cases function.func.static_variables <;> exact h2
      · cases function.func.static_variables <;> rfl
      · intro name h
        cases function.func.static_variables <;> exact h6 name h
      · intro key1 h
        simp only [Option.some.injEq] at h
        subst h
        cases function.func.static_variables <;> exact h5

theorem destroy_uncopied_effect :
    ∀ (entries : List (Nat × FuncRef)) (w : World),
      (zend_hash_destroy_uncopied entries w).trace =
        w.trace ++ entries.flatMap (fun e => teardown_events e.2) ∧
      (zend_hash_destroy_uncopied entries w).g.used = w.g.used ∧
      (zend_hash_destroy_uncopied entries w).g.function_table_pDestructor =
        w.g.function_table_pDestructor ∧
      (∀ name, zend_hash_find_ptr w.g.function_table name = none →
        zend_hash_find_ptr (zend_hash_destroy_uncopied entries w).g.function_table name =
          none) ∧
      (∀ k d key, (k, d) ∈ entries → zend_hash_find_ptr w.g.used d.addr = some key →
        zend_hash_find_ptr (zend_hash_destroy_uncopied entries w).g.function_table key.val =
          none) := by
  intro entries
  induction entries with
  | nil =>
    intro w
    refine ⟨by simp [zend_hash_destroy_uncopied], rfl, rfl, fun _ h => h, ?_⟩
    intro k d key hmem
    cases hmem
  | cons x rest ih =>
    intro w
    obtain ⟨k0, e0⟩ := x
    obtain ⟨t1, t2, t3, t4, t5⟩ := uncopied_dtor_effect e0 w
    obtain ⟨r1, r2, r3, r4, r5⟩ := ih (php_parallel_copy_uncopied_dtor e0 w)
    simp only [zend_hash_destroy_uncopied]
    refine ⟨?_, ?_, ?_, ?_, ?_⟩
    · rw [r1, t1]
      simp
    · rw [r2, t2]
    · rw [r3, t3]
    · intro name h
      exact r4 name (t4 name h)
    · intro k d key hmem hused
      rcases List.mem_cons.mp hmem with heq | hmem
      · simp only [Prod.mk.injEq] at heq
        obtain ⟨-, rfl⟩ := heq
        exact r4 _ (t5 key hused)
      · exact r5 k d key hmem (by rw [t2]; exact hused)

theorem zend_hash_find_mem {K V : Type} [DecidableEq K] (t : List (K × V)) (k : K) (v : V)
    (h : zend_hash_find_ptr t k = some v) : (k, v) ∈ t := by
  induction t with
  | nil => simp [zend_hash_find_ptr] at h
  | cons x rest ih =>
    obtain ⟨k1, v1⟩ := x
    by_cases hk : k1 = k
    · simp only [zend_hash_find_ptr, hk, if_true, Option.some.injEq] at h
      subst hk h
      exact List.mem_cons_self _ _
    · simp only [zend_hash_find_ptr, hk, if_false] at h
      exact List.mem_cons_of_mem _ (ih h)

theorem shutdown_effect (w : World) :
    (php_parallel_copy_shutdown w).trace =
      w.trace ++ w.g.uncopied.flatMap (fun e => teardown_events e.2) ∧
    (php_parallel_copy_shutdown w).g.function_table_pDestructor =
      w.g.function_table_pDestructor ∧
    (∀ k d key, (k, d) ∈ w.g.uncopied → zend_hash_find_ptr w.g.used d.addr = some key →
      zend_hash_find_ptr (php_parallel_copy_shutdown w).g.function_table key.val = none) := by
  obtain ⟨r1, -, r3, -, r5⟩ := destroy_uncopied_effect w.g.uncopied w
  exact ⟨r1, r3, r5⟩

theorem fresh_instance_statics (E : Env) (copy : zval → Bool → M zval)
    (function : zend_function zval) (w w1 : World) (e : FuncRef)
    (hmiss : zend_hash_find_ptr w.g.uncopied function.opcodes = none)
    (h : php_parallel_copy_function_request E copy function w = .ok (some e, w1)) :
    ∀ sv, e.func.static_variables = some sv →
      sv.gc_refcount = 1 ∧ (php_parallel_copy_hash_dtor sv false).2 ≠ [] := by
  intro sv hsv
  obtain ⟨cached, -, -, -, -, -, hs⟩ := copy_function_request_miss E copy function w w1 e hmiss h
  rcases hs with ⟨-, hn⟩ | ⟨S, sv1, wb, wc, -, hd, hsome⟩
  · rw [hn] at hsv
    cases hsv
  · rw [hsome] at hsv
    simp only [Option.some.injEq] at hsv
    subst hsv
    simp only [php_parallel_copy_hash_ctor_with, Bool.false_eq_true, if_false] at hd
    obtain ⟨h1, -⟩ := hash_request_header E copy S wb wc sv1 hd
    refine ⟨h1, ?_⟩
    rw [hash_dtor_tears_down_iff, h1]
    rfl

/-- C16: let `php_parallel_copy_function_use(name, unit)` run in a context in
which the unit's instance `d` is not registered in the `used` side table under
another name.  Then the callable table holds the name afterwards (bound to `d`
when the name was free), and tearing down the context
(`php_parallel_copy_shutdown`, which destroys the `uncopied` cache) leaves the
name out of the callable table, leaves the table's own destructor as it was
without ever invoking it, and adds to the trace, for every entry of `uncopied`,
exactly one release of its static-variable container in request mode followed
by the `pefree` of the instance: for the instance `d` with container `sv` these
are the two calls `php_parallel_copy_hash_dtor(sv, 0)` and `pefree(d)`.  When
the instance was made by this registration its container has reference count
1, so that one release tears it down.  The registration returns, with enough
fuel, under the conditions of the request-mode duplication.  The condition on
the `used` table cannot be dropped: a unit registered under two names keeps its
second name after the teardown. -/
theorem function_use_teardown (E : Env) (key : zend_string) (f : zend_function zval)
    (w : World) :
    (∀ fuel d w1, php_parallel_copy_function E fuel f false w = .ok (some d, w1) →
      (∀ k0, zend_hash_find_ptr w1.g.used d.addr = some k0 → k0.val = key.val) →
      ∃ w2, php_parallel_copy_function_use E fuel key f w = .ok ((), w2) ∧
        zend_hash_exists w2.g.function_table key.val = true ∧
        (zend_hash_find_ptr w1.g.function_table key.val = none →
          zend_hash_find_ptr w2.g.function_table key.val = some (some d)) ∧
        (∃ k0, zend_hash_find_ptr w2.g.used d.addr = some k0 ∧ k0.val = key.val) ∧
        (f.opcodes, d) ∈ w2.g.uncopied ∧
        zend_hash_find_ptr (php_parallel_copy_shutdown w2).g.function_table key.val = none ∧
        (php_parallel_copy_shutdown w2).g.function_table_pDestructor =
          w2.g.function_table_pDestructor ∧
        (php_parallel_copy_shutdown w2).trace =
          w2.trace ++ w2.g.uncopied.flatMap (fun e => teardown_events e.2) ∧
        (w2.g.uncopied = [(f.opcodes, d)] →
          (php_parallel_copy_shutdown w2).trace = w2.trace ++ teardown_events d) ∧
        (∀ sv, d.func.static_variables = some sv →
          teardown_events d =
            [Event.php_parallel_copy_hash_dtor sv false (php_parallel_copy_hash_dtor sv false).2,
             Event.pefree_function d.addr false]) ∧
        (zend_hash_find_ptr w.g.uncopied f.opcodes = none →
          ∀ sv, d.func.static_variables = some sv →
            sv.gc_refcount = 1 ∧ (php_parallel_copy_hash_dtor sv false).2 ≠ [])) ∧
    (∀ cached, zend_hash_find_ptr w.g.cache f.opcodes = some cached →
      LoaderKeeps E f w.g → PlainStatics E cached.func →
      ∃ N, ∀ fuel, N ≤ fuel →
        ∃ w2, php_parallel_copy_function_use E fuel key f w = .ok ((), w2)) := by
  constructor
  · intro fuel d w1 h hother
    have hu : zend_hash_find_ptr w1.g.uncopied f.opcodes = some d := by
      simp only [php_parallel_copy_function, php_parallel_copy_function_with,
        Bool.false_eq_true, if_false] at h
      exact copy_function_request_ok E _ f w w1 d h
    have hused1 : ∃ k0, zend_hash_find_ptr
        (zend_hash_add_ptr w1.g.used (FuncRef.to_ulong (some d)) key).1 d.addr = some k0 ∧
        k0.val = key.val := by
      cases hf : zend_hash_find_ptr w1.g.used d.addr with
      | none => exact ⟨key, (zend_hash_add_find _ _ _).1 hf, rfl⟩
      | some k0 => exact ⟨k0, (zend_hash_add_find _ _ _).2 k0 hf, hother k0 hf⟩
    have hname1 : zend_hash_exists
        (zend_hash_add_ptr w1.g.function_table key.val (some d)).1 key.val = true := by
      unfold zend_hash_exists
      cases hf : zend_hash_find_ptr w1.g.function_table key.val with
      | none => rw [(zend_hash_add_find _ _ _).1 hf]; rfl
      | some old => rw [(zend_hash_add_find _ _ _).2 old hf]; rfl
    refine ⟨{ w1 with g := { w1.g with
        function_table := (zend_hash_add_ptr w1.g.function_table key.val (some d)).1
        used := (zend_hash_add_ptr w1.g.used (FuncRef.to_ulong (some d)) key).1 } },
      ?_, hname1, ?_, hused1, ?_⟩
    · simp only [php_parallel_copy_function_use, h]
    · exact fun hname => (zend_hash_add_find _ _ _).1 hname
    · generalize hw2 : ({ w1 with g := { w1.g with
        function_table := (zend_hash_add_ptr w1.g.function_table key.val (some d)).1
        used := (zend_hash_add_ptr w1.g.used (FuncRef.to_ulong (some d)) key).1 } } : World)
        = w2
      have hunc : w2.g.uncopied = w1.g.uncopied := by rw [← hw2]
      have husd : ∃ k0, zend_hash_find_ptr w2.g.used d.addr = some k0 ∧ k0.val = key.val := by
        rw [← hw2]
        exact hused1
      obtain ⟨k0, husd1, hk0⟩ := husd
      have hmem : (f.opcodes, d) ∈ w2.g.uncopied := by
        rw [hunc]
        exact zend_hash_find_mem _ _ _ hu
      obtain ⟨s1, s2, s3⟩ := shutdown_effect w2
      refine ⟨hmem, ?_, s2, s1, ?_, ?_, ?_⟩
      · rw [← hk0]
        exact s3 _ _ _ hmem husd1
      · intro honly
        rw [s1, honly]
        simp
      · intro sv hsv
        simp only [teardown_events, hsv, List.singleton_append]
      · intro hmiss
        simp only [php_parallel_copy_function, php_parallel_copy_function_with,
          Bool.false_eq_true, if_false] at h
        exact fresh_instance_statics E _ f w w1 d hmiss h
  · intro cached hcache hload hs
    obtain ⟨N, hN⟩ := copy_function_request_total E f w cached hcache hload hs
    refine ⟨N, fun fuel hfuel => ?_⟩
    obtain ⟨e, w1, h⟩ := hN fuel hfuel
    exact ⟨{ w1 with g := { w1.g with
        function_table := (zend_hash_add_ptr w1.g.function_table key.val (some e)).1
        used := (zend_hash_add_ptr w1.g.used (FuncRef.to_ulong (some e)) key).1 } },
      by simp only [php_parallel_copy_function_use, h]⟩

theorem function_use_teardown_witness :
    ∃ d w1 w2 sv,
      php_parallel_copy_function exampleEnv 2 exampleFunction false cachedWorld =
        .ok (some d, w1) ∧
      php_parallel_copy_function_use exampleEnv 2 (mkString "foo") exampleFunction cachedWorld =
        .ok ((), w2) ∧
      d.func.static_variables = some sv ∧
      zend_hash_find_ptr w2.g.function_table "foo" = some (some d) ∧
      zend_hash_find_ptr (php_parallel_copy_shutdown w2).g.function_table "foo" = none ∧
      (php_parallel_copy_shutdown w2).trace = w2.trace ++
        [Event.php_parallel_copy_hash_dtor sv false (php_parallel_copy_hash_dtor sv false).2,
         Event.pefree_function d.addr false] ∧
      sv.gc_refcount = 1 ∧ (php_parallel_copy_hash_dtor sv false).2 ≠ [] := by
  obtain ⟨w2, h1, -, h2, -, -, h5, -, -, h8, h9, h10⟩ :=
    (function_use_teardown exampleEnv (mkString "foo") exampleFunction cachedWorld).1 2 _ _
      rfl (fun k0 hk => by cases hk)
  refine ⟨_, _, w2, _, rfl, h1, rfl, h2 rfl, h5, ?_, (h10 rfl _ rfl).1, (h10 rfl _ rfl).2⟩
  rw [← h9 _ rfl]
  apply h8
  exact (congrArg (fun r : Except Fault (Unit × World) =>
    match r with
    | .ok (_, w) => w.g.uncopied
    | .error _ => []) h1).symm

/-- C16, the failing input: one unit is registered in a context under the name
`bar` and then under the name `foo`.  Both names are bound to the one instance
`d`, and the `used` side table, which holds one name per instance and is filled
with the add form, keeps `bar`.  The teardown of the context removes `bar`,
releases the static-variable container once and frees `d`, and leaves `foo` in
the callable table, bound to the freed instance. -/
theorem function_use_second_name_counterexample :
    ∃ d sv w1 w2,
      php_parallel_copy_function_use exampleEnv 2 (mkString "bar") exampleFunction cachedWorld =
        .ok ((), w1) ∧
      php_parallel_copy_function_use exampleEnv 2 (mkString "foo") exampleFunction w1 =
        .ok ((), w2) ∧
      zend_hash_find_ptr w2.g.function_table "foo" = some (some d) ∧
      zend_hash_find_ptr w2.g.function_table "bar" = some (some d) ∧
      zend_hash_find_ptr w2.g.used d.addr = some (mkString "bar") ∧
      w2.g.uncopied = [(exampleFunction.opcodes, d)] ∧
      d.func.static_variables = some sv ∧
      zend_hash_find_ptr (php_parallel_copy_shutdown w2).g.function_table "bar" = none ∧
      zend_hash_find_ptr (php_parallel_copy_shutdown w2).g.function_table "foo" =
        some (some d) ∧
      (php_parallel_copy_shutdown w2).trace = w2.trace ++
        [Event.php_parallel_copy_hash_dtor sv false (php_parallel_copy_hash_dtor sv false).2,
         Event.pefree_function d.addr false] :=
  ⟨_, _, _, _, rfl, rfl, rfl, rfl, rfl, rfl, rfl, rfl, rfl, rfl⟩

end ParallelCopy
